import Mathlib

/-!
# LDAP contact provider

A shallow embedding of `coreapi/ldap/ldapprovider.c`: the asynchronous
directory-search client (request registry, result mapper, iterate/dispatch
loop, cancellation, submission, bind and configuration loading), followed by
theorems about it.

## Memory model

* A `LinphoneLDAPContactSearch*` is an address (a `Nat`); the search objects
  live in `Machine.heap`, address `a` designating cell `a`.  The live addresses
  are those below `heap.length`; an address outside the heap reads as a
  zero-filled object and is not written.  A pointer that may be `NULL` is an
  `Option Nat`, and reading or writing through `NULL` is a fault: the faulting
  functions return `none`.
* `belle_sip_object_new` is a bump allocator returning zero-filled objects;
  reference counting and the release of objects are not represented, so an
  address once allocated keeps designating its object.
* C strings are `String`s, one `Char` per `char`; `strcmp(a, b) == 0` is
  `a = b`.
* `uint` fields are naturals below `2 ^ 32` updated modulo `2 ^ 32`; `int`
  fields are integers (signed overflow, undefined in C, is not represented).
* What the code hands to the outside (polls, protocol operations, delivery
  callbacks) is recorded, in order, in `Machine.trace`.  A delivery callback is
  recorded, not run: it is taken not to call back into the provider.
* `libldap`, `mediastreamer2` lists, `lpconfig`, `strtok_r`, `snprintf` and
  `linphone_core_interpret_url` are outside the file: the lists, `strtok_r` and
  `snprintf` follow their documented behaviour; the parser, the configuration
  store and the answers of the protocol library are parameters.
-/

namespace LdapProvider

/-! ## Constants -/

/-- Size of the filter buffer (`#define FILTER_MAX_SIZE 512`). -/
def FILTER_MAX_SIZE : Nat := 512

/-- Advisory ceiling (`#define MAX_RUNNING_REQUESTS 10`); the code never reads it. -/
def MAX_RUNNING_REQUESTS : Nat := 10

/-- Result code `LDAP_SUCCESS` of `<ldap.h>`. -/
def LDAP_SUCCESS : Int := 0

/-- Search scope `LDAP_SCOPE_SUBTREE` of `<ldap.h>`. -/
def LDAP_SCOPE_SUBTREE : Int := 2

/-- Message tag `LDAP_RES_BIND` of `<ldap.h>`. -/
def LDAP_RES_BIND : Int := 0x61

/-- Message tag `LDAP_RES_SEARCH_ENTRY` of `<ldap.h>`. -/
def LDAP_RES_SEARCH_ENTRY : Int := 0x64

/-- Message tag `LDAP_RES_SEARCH_RESULT` of `<ldap.h>`. -/
def LDAP_RES_SEARCH_RESULT : Int := 0x65

/-- Message tag `LDAP_RES_SEARCH_REFERENCE` of `<ldap.h>`. -/
def LDAP_RES_SEARCH_REFERENCE : Int := 0x73

/-- Message tag `LDAP_RES_EXTENDED` of `<ldap.h>`. -/
def LDAP_RES_EXTENDED : Int := 0x78

/-- Message tag `LDAP_RES_INTERMEDIATE` of `<ldap.h>`. -/
def LDAP_RES_INTERMEDIATE : Int := 0x79

/-- Width of `uint`: the modulus of `req_count` and `bind_msgid`. -/
def UINT_MOD : Nat := 2 ^ 32

/-! ## Data model -/

/-- The `LDAPAuthMethod` enumeration. -/
inductive LDAPAuthMethod where
  | ANONYMOUS
  | PLAIN
  | SASL
deriving DecidableEq, Repr, Inhabited

/-- A parsed address, as `linphone_core_interpret_url` returns it. -/
structure LinphoneAddress where
  uri : String
deriving DecidableEq, Repr, Inhabited

/-- The part of `LinphoneCore` the provider uses: the address parser
`linphone_core_interpret_url`, `none` standing for a `NULL` result. -/
structure LinphoneCore where
  interpret_url : String → Option LinphoneAddress

/-- A contact record: the `LinphoneFriend` built by
`linphone_core_create_friend`, `linphone_friend_set_address` and
`linphone_friend_set_name`. -/
structure LinphoneFriend where
  name : String
  address : LinphoneAddress
deriving DecidableEq, Repr, Inhabited

/-- The base object set up by `linphone_contact_search_init`: the predicate,
the delivery callback and its context. -/
structure LinphoneContactSearch where
  predicate : String
  cb : Nat
  data : Nat
deriving DecidableEq, Repr, Inhabited

/-- The `struct _LinphoneLDAPContactSearch`. -/
structure LinphoneLDAPContactSearch where
  base : LinphoneContactSearch
  ld : Nat
  msgid : Int
  filter : String
  complete : Bool
  found_entries : List LinphoneFriend
  found_count : Int
deriving DecidableEq, Repr, Inhabited

/-- The `struct _LinphoneLDAPContactProvider`; `requests` is the `MSList` of
request addresses, `ld = 0` is a `NULL` connection. -/
structure LinphoneLDAPContactProvider where
  ld : Nat
  requests : List Nat
  req_count : Nat
  bind_msgid : Nat
  connected : Bool
  use_tls : Int
  auth_method : LDAPAuthMethod
  username : String
  password : String
  server : String
  base_object : String
  attributes : List String
  sip_attr : String
  name_attr : String
  filter : String
  timeout : Int
  deref_aliases : Int
  max_results : Int
deriving DecidableEq, Repr, Inhabited

/-- The `struct LDAPFriendData`: both fields start `NULL`. -/
structure LDAPFriendData where
  name : Option String
  sip : Option String
deriving DecidableEq, Repr, Inhabited

/-- One attribute of a directory entry with the values
`ldap_get_values_len` returns for it, in order.  A value is its `bv_val`
string; the empty string stands for a `NULL` `bv_val` or a zero `bv_len`. -/
structure LDAPAttribute where
  name : String
  values : List String
deriving DecidableEq, Repr, Inhabited

/-- A directory entry: its attributes in the order `ldap_first_attribute` and
`ldap_next_attribute` deliver them. -/
structure LDAPEntry where
  attrs : List LDAPAttribute
deriving DecidableEq, Repr, Inhabited

/-- One `LDAPMessage` of a polled chain: `ldap_msgid`, `ldap_msgtype`, and the
entries that `ldap_first_entry` and `ldap_next_entry` enumerate from it. -/
structure LDAPMessage where
  msgid : Int
  msgtype : Int
  entries : List LDAPEntry
deriving DecidableEq, Repr, Inhabited

/-- What one call of `ldap_result` yields: its return value, the chain of
messages behind `results` (walked by `ldap_first_message` and
`ldap_next_message`), and what `ldap_parse_sasl_bind_result` answers on it.
The call passes `LDAP_MSG_ONE`, for which the library hands back one message
and returns its type; the loop of `iterate` is modelled for any chain. -/
structure PollResult where
  ret : Int
  results : List LDAPMessage
  sasl_bind_result : Int
deriving DecidableEq, Repr, Inhabited

/-- The arguments of one `ldap_search_ext` call. -/
structure SearchCall where
  base : String
  scope : Int
  filter : String
  attrs : List String
  attrsonly : Int
  timeout : Int
  sizelimit : Int
deriving DecidableEq, Repr, Inhabited

/-- The protocol library as seen at submission: `ldap_search_ext` answers a
call with its return code and the message id it stores. -/
structure LDAPLibrary where
  ldap_search_ext : SearchCall → Int × Int

/-- The arguments of one `ldap_sasl_bind` call: the bind DN, the mechanism
(`none` is the `NULL` of a simple bind) and the credentials. -/
structure BindCall where
  dn : String
  mechanism : Option String
  cred : String
deriving DecidableEq, Repr, Inhabited

/-- What the provider hands to the outside. -/
inductive Event where
  | ldap_result
  | ldap_search_ext (call : SearchCall)
  | invoke_cb (cb : Nat) (req : Nat) (friends : List LinphoneFriend) (data : Nat)
  | ldap_sasl_bind (call : BindCall)
deriving DecidableEq, Repr, Inhabited

/-- The whole state: the heap of search objects, the provider, the trace. -/
structure Machine where
  heap : List LinphoneLDAPContactSearch
  obj : LinphoneLDAPContactProvider
  trace : List Event
deriving DecidableEq, Repr, Inhabited

/-- Read the object at an address. -/
def deref (heap : List LinphoneLDAPContactSearch) (a : Nat) : LinphoneLDAPContactSearch :=
  heap.getD a default

/-! ## The `MSList` operations the provider uses -/

/-- The position of the first element on which the comparator answers 0, as
`ms_list_find_custom(list, compare_func, user_data)` finds it. -/
def ms_list_find_custom {α β : Type} (list : List α) (compare_func : α → β → Int)
    (user_data : β) : Option Nat :=
  match list with
  | [] => none
  | x :: rest =>
    if compare_func x user_data = 0 then some 0
    else (ms_list_find_custom rest compare_func user_data).map (· + 1)

/-- Unlink the element at a position (`ms_list_remove_link`). -/
def ms_list_remove_link {α : Type} (list : List α) (link : Nat) : List α :=
  list.eraseIdx link

/-- Append at the end (`ms_list_append`). -/
def ms_list_append {α : Type} (list : List α) (data : α) : List α :=
  list ++ [data]

/-! ## Registry lookups -/

/-- The weak comparator: `!(ra->msgid == rb->msgid)`. -/
def linphone_ldap_request_entry_compare_weak
    (ra rb : LinphoneLDAPContactSearch) : Int :=
  if ra.msgid = rb.msgid then 0 else 1

/-- The strong comparator: `!(ra->msgid == rb->msgid) && !(ra == rb)`, on two
addresses. -/
def linphone_ldap_request_entry_compare_strong
    (heap : List LinphoneLDAPContactSearch) (ra rb : Nat) : Int :=
  if (!decide ((deref heap ra).msgid = (deref heap rb).msgid)) && (!decide (ra = rb))
  then 1 else 0

/-- Look a request up by message id alone; `none` is `NULL`. -/
def linphone_ldap_request_entry_search (m : Machine) (msgid : Int) : Option Nat :=
  let dummy : LinphoneLDAPContactSearch := { (default : LinphoneLDAPContactSearch) with msgid := msgid }
  match ms_list_find_custom m.obj.requests
      (fun a b => linphone_ldap_request_entry_compare_weak (deref m.heap a) b) dummy with
  | some list_entry => m.obj.requests.get? list_entry
  | none => none

/-- Cancel a search: returns the new state and `ret` (0 found, 1 not found). -/
def linphone_ldap_contact_provider_cancel_search (m : Machine) (req : Nat) :
    Machine × Nat :=
  match ms_list_find_custom m.obj.requests
      (linphone_ldap_request_entry_compare_strong m.heap) req with
  | some list_entry =>
    ({ m with obj := { m.obj with
          requests := ms_list_remove_link m.obj.requests list_entry
          req_count := (m.obj.req_count + UINT_MOD - 1) % UINT_MOD } }, 0)
  | none => (m, 1)

/-! ## Result mapper -/

/-- Feed one attribute/value pair to the record under construction; the second
component is the returned flag (1 when both fields are set). -/
def linphone_ldap_contact_provider_complete_contact (obj : LinphoneLDAPContactProvider)
    (lf : LDAPFriendData) (attr_name attr_value : String) : LDAPFriendData × Int :=
  let lf1 : LDAPFriendData :=
    if attr_name = obj.name_attr then { lf with name := some attr_value }
    else if attr_name = obj.sip_attr then { lf with sip := some attr_value }
    else lf
  if lf1.name.isSome && lf1.sip.isSome then (lf1, 1) else (lf1, 0)

/-- The loop condition on a value, `(*it)->bv_val && (*it)->bv_len`: the value
is not empty. -/
def value_present (v : String) : Bool :=
  v.length != 0

/-- The inner loop over the values of one attribute:
`while( values && *it && (*it)->bv_val && (*it)->bv_len )`, left at the first
empty value, at the end of the values, or by `break` once the contact is
complete.  The flag is `contact_complete`. -/
def scan_values (obj : LinphoneLDAPContactProvider) (attr : String) :
    List String → LDAPFriendData → LDAPFriendData × Bool
  | [], lf => (lf, false)
  | v :: it, lf =>
    if value_present v then
      let r := linphone_ldap_contact_provider_complete_contact obj lf attr v
      if r.2 ≠ 0 then (r.1, true) else scan_values obj attr it r.1
    else (lf, false)

/-- The loop `while( attr )` over the attributes of one entry, left by `break`
once the contact is complete. -/
def scan_attributes (obj : LinphoneLDAPContactProvider) :
    List LDAPAttribute → LDAPFriendData → LDAPFriendData × Bool
  | [], lf => (lf, false)
  | a :: rest, lf =>
    let r := scan_values obj a.name a.values lf
    if r.2 then (r.1, true) else scan_attributes obj rest r.1

/-- The body of the entry loop up to the write: scan the attributes from a
zeroed `ldap_data`; when the contact is complete, parse `ldap_data.sip` and
build the friend.  `none` when nothing is appended for the entry. -/
def entry_friend (lc : LinphoneCore) (obj : LinphoneLDAPContactProvider)
    (entry : LDAPEntry) : Option LinphoneFriend :=
  let r := scan_attributes obj entry.attrs { name := none, sip := none }
  if r.2 then
    match lc.interpret_url (r.1.sip.getD "") with
    | some la => some { name := r.1.name.getD "", address := la }
    | none => none
  else none

/-- The write of the entry loop: `req->found_entries = ms_list_append(...)`
and `req->found_count++`, for each of the given friends. -/
def add_records (r : LinphoneLDAPContactSearch) (friends : List LinphoneFriend) :
    LinphoneLDAPContactSearch :=
  { r with
    found_entries := r.found_entries ++ friends
    found_count := r.found_count + friends.length }

/-- The loop `while( entry != NULL )` of the `LDAP_RES_SEARCH_ENTRY` /
`LDAP_RES_EXTENDED` case.  A record is written through `req`, so a `NULL`
request faults at the first record. -/
def handle_entries (lc : LinphoneCore) (obj : LinphoneLDAPContactProvider)
    (req : Option Nat) :
    List LDAPEntry → List LinphoneLDAPContactSearch → Option (List LinphoneLDAPContactSearch)
  | [], heap => some heap
  | entry :: rest, heap =>
    match entry_friend lc obj entry with
    | some lf =>
      match req with
      | none => none
      | some a => handle_entries lc obj req rest (heap.set a (add_records (deref heap a) [lf]))
    | none => handle_entries lc obj req rest heap

/-- Handle one message for the request `req` (possibly `NULL`). -/
def linphone_ldap_contact_provider_handle_search_result (lc : LinphoneCore)
    (m : Machine) (req : Option Nat) (message : LDAPMessage) : Option Machine :=
  if message.msgtype = LDAP_RES_SEARCH_ENTRY ∨ message.msgtype = LDAP_RES_EXTENDED then
    match handle_entries lc m.obj req message.entries m.heap with
    | some heap => some { m with heap := heap }
    | none => none
  else if message.msgtype = LDAP_RES_SEARCH_RESULT then
    match req with
    | none => none
    | some a =>
      let r : LinphoneLDAPContactSearch := { deref m.heap a with complete := true }
      some { m with
        heap := m.heap.set a r
        trace := m.trace ++ [Event.invoke_cb r.base.cb a r.found_entries r.base.data] }
  else some m

/-! ## Iterate / dispatch loop -/

/-- The loop `while( message != NULL )` of iterate: every message of the chain
goes to the handler with the same `req`. -/
def handle_messages (lc : LinphoneCore) (req : Option Nat) :
    List LDAPMessage → Machine → Option Machine
  | [], m => some m
  | message :: rest, m =>
    match linphone_ldap_contact_provider_handle_search_result lc m req message with
    | some m1 => handle_messages lc req rest m1
    | none => none

/-- Read the bind outcome; the second component is the returned code. -/
def linphone_ldap_contact_provider_parse_bind_results (m : Machine) (poll : PollResult) :
    Machine × Int :=
  if poll.sasl_bind_result ≠ LDAP_SUCCESS then (m, poll.sasl_bind_result)
  else ({ m with obj := { m.obj with connected := true } }, poll.sasl_bind_result)

/-- One tick.  `poll` is what `ldap_result` yields if it is called; the call is
recorded in the trace.  The result is the new state and the returned `TRUE`,
or `none` on a fault. -/
def linphone_ldap_contact_provider_iterate (lc : LinphoneCore) (poll : PollResult)
    (m : Machine) : Option (Machine × Bool) :=
  if m.obj.ld ≠ 0 ∧ (m.obj.req_count > 0 ∨ m.obj.bind_msgid ≠ 0) then
    let m0 : Machine := { m with trace := m.trace ++ [Event.ldap_result] }
    if poll.ret = -1 then some (m0, true)
    else if poll.ret = 0 then some (m0, true)
    else if poll.ret = LDAP_RES_BIND then
      match poll.results with
      | [] => none
      | results :: _ =>
        if (results.msgid % (UINT_MOD : Int)).toNat ≠ m0.obj.bind_msgid then some (m0, true)
        else
          let m1 := (linphone_ldap_contact_provider_parse_bind_results m0 poll).1
          some ({ m1 with obj := { m1.obj with bind_msgid := 0 } }, true)
    else if poll.ret = LDAP_RES_EXTENDED ∨ poll.ret = LDAP_RES_SEARCH_ENTRY
        ∨ poll.ret = LDAP_RES_SEARCH_REFERENCE ∨ poll.ret = LDAP_RES_INTERMEDIATE
        ∨ poll.ret = LDAP_RES_SEARCH_RESULT then
      match poll.results with
      | [] => none
      | message :: _ =>
        let req := linphone_ldap_request_entry_search m0 message.msgid
        match handle_messages lc req poll.results m0 with
        | none => none
        | some m1 =>
          match req with
          | some a =>
            if poll.ret = LDAP_RES_SEARCH_RESULT then
              some ((linphone_ldap_contact_provider_cancel_search m1 a).1, true)
            else some (m1, true)
          | none => some (m1, true)
    else some (m0, true)
  else some (m, true)

/-- Successive ticks, one poll result per tick. -/
def iterate_all (lc : LinphoneCore) : List PollResult → Machine → Option Machine
  | [], m => some m
  | poll :: rest, m =>
    match linphone_ldap_contact_provider_iterate lc poll m with
    | some r => iterate_all lc rest r.1
    | none => none

/-! ## Submission -/

/-- The characters a template with one `%s` directive formats to: `%s` is
replaced by the argument, `%%` by a percent sign, any other character is
copied. -/
def format_s : List Char → List Char → List Char
  | [], _ => []
  | '%' :: 's' :: rest, arg => arg ++ format_s rest arg
  | '%' :: '%' :: rest, arg => '%' :: format_s rest arg
  | c :: rest, arg => c :: format_s rest arg

/-- The string `snprintf(buf, size, fmt, arg)` leaves in `buf`: at most
`size - 1` characters before the terminator. -/
def snprintf_s (size : Nat) (fmt arg : List Char) : List Char :=
  (format_s fmt arg).take (size - 1)

/-- The filter of a search: `snprintf(search->filter, FILTER_MAX_SIZE-1,
cp->filter, predicate)` followed by `search->filter[FILTER_MAX_SIZE-1] = 0`,
which lies behind the terminator `snprintf` wrote and leaves the string as it is. -/
def search_filter (obj : LinphoneLDAPContactProvider) (predicate : String) : String :=
  String.mk (snprintf_s (FILTER_MAX_SIZE - 1) obj.filter.data predicate.data)

/-- The arguments `linphone_ldap_contact_search_create` passes to
`ldap_search_ext`. -/
def search_call (obj : LinphoneLDAPContactProvider) (predicate : String) : SearchCall :=
  { base := obj.base_object, scope := LDAP_SCOPE_SUBTREE,
    filter := search_filter obj predicate, attrs := obj.attributes, attrsonly := 0,
    timeout := obj.timeout, sizelimit := obj.max_results }

/-- The object `linphone_ldap_contact_search_create` returns when the library
stored the message id `msgid`: zero-filled by `belle_sip_object_new`, then the
base, `ld`, `filter` and `msgid` set. -/
def new_search (obj : LinphoneLDAPContactProvider) (predicate : String) (cb cb_data : Nat)
    (msgid : Int) : LinphoneLDAPContactSearch :=
  { base := { predicate := predicate, cb := cb, data := cb_data },
    ld := obj.ld, msgid := msgid, filter := search_filter obj predicate, complete := false,
    found_entries := [], found_count := 0 }

/-- Create a search: build the filter, issue `ldap_search_ext`, and on
`LDAP_SUCCESS` return the address of the new object (else `NULL`; the object
allocated for the attempt is released again, leaving the heap as it was). -/
def linphone_ldap_contact_search_create (lib : LDAPLibrary) (m : Machine)
    (predicate : String) (cb cb_data : Nat) : Machine × Option Nat :=
  let call := search_call m.obj predicate
  let r := lib.ldap_search_ext call
  let m1 : Machine := { m with trace := m.trace ++ [Event.ldap_search_ext call] }
  if r.1 ≠ LDAP_SUCCESS then (m1, none)
  else
    ({ m1 with heap := m1.heap ++ [new_search m.obj predicate cb cb_data r.2] },
      some m1.heap.length)

/-- Start a search: create it and, when that succeeds, register it. -/
def linphone_ldap_begin_search (lib : LDAPLibrary) (m : Machine)
    (predicate : String) (cb cb_data : Nat) : Machine × Option Nat :=
  match linphone_ldap_contact_search_create lib m predicate cb cb_data with
  | (m1, some request) =>
    ({ m1 with obj := { m1.obj with
          requests := ms_list_append m1.obj.requests request
          req_count := (m1.obj.req_count + 1) % UINT_MOD } }, some request)
  | (m1, none) => (m1, none)

/-! ## Bind -/

/-- The table `ldap_auth_method_description`, up to its `NULL` sentinel. -/
def ldap_auth_method_description : List (LDAPAuthMethod × String) :=
  [(LDAPAuthMethod.ANONYMOUS, "anonymous"), (LDAPAuthMethod.PLAIN, "plain"),
   (LDAPAuthMethod.SASL, "sasl")]

/-- The loop of `linphone_ldap_contact_provider_auth_method` over a table. -/
def auth_method_lookup (description : String) : List (LDAPAuthMethod × String) → LDAPAuthMethod
  | [] => LDAPAuthMethod.ANONYMOUS
  | desc :: rest => if description = desc.2 then desc.1 else auth_method_lookup description rest

/-- The method a description names; `ANONYMOUS` when the table does not hold it. -/
def linphone_ldap_contact_provider_auth_method (description : String) : LDAPAuthMethod :=
  auth_method_lookup description ldap_auth_method_description

/-- The arguments `linphone_ldap_contact_provider_bind` passes to
`ldap_sasl_bind`: the base object as DN, a `NULL` mechanism, the password. -/
def bind_call (obj : LinphoneLDAPContactProvider) : BindCall :=
  { dn := obj.base_object, mechanism := none, cred := obj.password }

/-- Issue the bind.  `ldap_sasl_bind` answers a call with its return code and
the message id it stores; the second component of the result is the returned
value.  `case ANONYMOUS:` and `default:` share one body, `case SASL:` is empty. -/
def linphone_ldap_contact_provider_bind (ldap_sasl_bind : BindCall → Int × Int)
    (m : Machine) : Machine × Int :=
  match m.obj.auth_method with
  | LDAPAuthMethod.SASL => (m, 0)
  | _ =>
    let r := ldap_sasl_bind (bind_call m.obj)
    let m1 : Machine := { m with trace := m.trace ++ [Event.ldap_sasl_bind (bind_call m.obj)] }
    if r.1 = LDAP_SUCCESS then
      ({ m1 with obj := { m1.obj with bind_msgid := (r.2 % (UINT_MOD : Int)).toNat } }, 0)
    else (m1, 0)

/-! ## Configuration -/

/-- The configuration store: `lp_config_get_int` and `lp_config_get_string`
by section, key and default. -/
structure LpConfig where
  get_int : String → String → Int → Int
  get_string : String → String → String → String

/-- The counting loop `for( i=0; attributes_list[i]; i++)`: `attr_count++` at
every comma, in `unsigned int`. -/
def count_commas : List Char → Nat → Nat
  | [], attr_count => attr_count
  | c :: rest, attr_count =>
    count_commas rest (if c = ',' then (attr_count + 1) % UINT_MOD else attr_count)

/-- The tokens that `strtok_r(attributes_list, ",", &saveptr)` and the following
`strtok_r(NULL, ",", &saveptr)` return before `NULL`, scanning the string once:
commas are skipped, the characters up to the next comma or the end make a
token.  The second argument is the token being scanned, last character first. -/
def strtok_tokens : List Char → List Char → List (List Char)
  | [], cur => if cur.isEmpty then [] else [cur.reverse]
  | c :: rest, cur =>
    if c = ',' then
      if cur.isEmpty then strtok_tokens rest [] else cur.reverse :: strtok_tokens rest []
    else strtok_tokens rest (c :: cur)

/-- The loop `while( attr != NULL )`: store a copy of each token at `attr_idx`
and advance it; a store outside the array is a fault. -/
def store_attributes :
    List (List Char) → List (Option String) → Nat → Option (List (Option String) × Nat)
  | [], attributes, attr_idx => some (attributes, attr_idx)
  | attr :: rest, attributes, attr_idx =>
    if attr_idx < attributes.length then
      store_attributes rest (attributes.set attr_idx (some (String.mk attr)))
        ((attr_idx + 1) % UINT_MOD)
    else none

/-- The strings of a `NULL`-terminated array; `none` when the array holds no
`NULL`, so that a reader would run past it. -/
def read_null_terminated : List (Option String) → Option (List String)
  | [] => none
  | none :: _ => some []
  | some s :: rest => (read_null_terminated rest).map (fun l => s :: l)

/-- Load the configuration (section `ldap`): every configuration field is
replaced, the attribute array has `attr_count + 2` zeroed slots.  `none` is a
fault of the attribute array. -/
def linphone_ldap_contact_provider_loadconfig (obj : LinphoneLDAPContactProvider)
    (config : LpConfig) : Option LinphoneLDAPContactProvider :=
  let attributes_list : List Char :=
    (config.get_string "ldap" "attributes"
      "telephoneNumber,givenName,sn,mobile,homePhone").data
  let attr_count := count_commas attributes_list 0
  let array : List (Option String) := List.replicate ((attr_count + 2) % UINT_MOD) none
  match store_attributes (strtok_tokens attributes_list []) array 0 with
  | none => none
  | some stored =>
    match read_null_terminated stored.1 with
    | none => none
    | some attributes =>
      some { obj with
        use_tls := config.get_int "ldap" "use_tls" 0
        timeout := config.get_int "ldap" "timeout" 10
        deref_aliases := config.get_int "ldap" "deref_aliases" 0
        max_results := config.get_int "ldap" "max_results" 50
        auth_method := linphone_ldap_contact_provider_auth_method
          (config.get_string "ldap" "auth_method" "anonymous")
        username := config.get_string "ldap" "username" ""
        password := config.get_string "ldap" "password" ""
        base_object := config.get_string "ldap" "base_object" "dc=example,dc=com"
        server := config.get_string "ldap" "server" "ldap://localhost:10389"
        filter := config.get_string "ldap" "filter" "uid=*%s*"
        name_attr := config.get_string "ldap" "name_attribute" "givenName"
        sip_attr := config.get_string "ldap" "sip_attribute" "mobile"
        attributes := attributes }

/-! ## Vocabulary of the statements -/

/-- The fields after one attribute/value pair: the first component of
`linphone_ldap_contact_provider_complete_contact`. -/
def feed (obj : LinphoneLDAPContactProvider) (lf : LDAPFriendData) (p : String × String) :
    LDAPFriendData :=
  (linphone_ldap_contact_provider_complete_contact obj lf p.1 p.2).1

/-- Both fields are set: `lf->name && lf->sip`. -/
def is_complete (lf : LDAPFriendData) : Bool :=
  lf.name.isSome && lf.sip.isSome

/-- The two nested loops run over a flat list of pairs: feed pair after pair,
stop at the first pair after which both fields are set. -/
def scan_pairs (obj : LinphoneLDAPContactProvider) :
    List (String × String) → LDAPFriendData → LDAPFriendData × Bool
  | [], lf => (lf, false)
  | p :: rest, lf =>
    if is_complete (feed obj lf p) then (feed obj lf p, true)
    else scan_pairs obj rest (feed obj lf p)

/-- The pairs the loops can reach: attribute by attribute, the values in front
of the first empty one. -/
def visited_pairs (attrs : List LDAPAttribute) : List (String × String) :=
  attrs.flatMap (fun a => (a.values.takeWhile value_present).map (fun v => (a.name, v)))

/-- All attribute/value pairs of an entry in delivery order. -/
def entry_pairs (e : LDAPEntry) : List (String × String) :=
  e.attrs.flatMap (fun a => a.values.map (fun v => (a.name, v)))

/-- The values an entry carries under a key, in delivery order. -/
def key_values (key : String) (e : LDAPEntry) : List String :=
  (e.attrs.filter (fun a => a.name = key)).flatMap (fun a => a.values)

/-- The value of the last pair of a list that carries the key. -/
def last_value (key : String) (l : List (String × String)) : Option String :=
  ((l.filter (fun p => p.1 = key)).map (fun p => p.2)).getLast?

/-- The friends a chain of messages yields: the friends of the entries of its
`LDAP_RES_SEARCH_ENTRY` and `LDAP_RES_EXTENDED` messages, in order. -/
def batch_records (lc : LinphoneCore) (obj : LinphoneLDAPContactProvider)
    (msgs : List LDAPMessage) : List LinphoneFriend :=
  msgs.flatMap (fun x =>
    if x.msgtype = LDAP_RES_SEARCH_ENTRY ∨ x.msgtype = LDAP_RES_EXTENDED then
      x.entries.flatMap (fun e => (entry_friend lc obj e).toList)
    else [])

/-- A poll that yields one entry message for `msgid` carrying one entry. -/
def entry_poll (msgid : Int) (e : LDAPEntry) : PollResult :=
  { ret := LDAP_RES_SEARCH_ENTRY,
    results := [{ msgid := msgid, msgtype := LDAP_RES_SEARCH_ENTRY, entries := [e] }],
    sasl_bind_result := 0 }

/-- A poll that yields the terminal message for `msgid`. -/
def terminal_poll (msgid : Int) : PollResult :=
  { ret := LDAP_RES_SEARCH_RESULT,
    results := [{ msgid := msgid, msgtype := LDAP_RES_SEARCH_RESULT, entries := [] }],
    sasl_bind_result := 0 }

/-! ## Concrete inputs -/

/-- A zero-filled search object holding a message id. -/
def search_with_id (msgid : Int) : LinphoneLDAPContactSearch :=
  { (default : LinphoneLDAPContactSearch) with msgid := msgid }

/-- A provider with the default configuration of `loadconfig`, an open
connection and an empty registry. -/
def default_provider : LinphoneLDAPContactProvider :=
  { ld := 1, requests := [], req_count := 0, bind_msgid := 0, connected := true,
    use_tls := 0, auth_method := LDAPAuthMethod.ANONYMOUS, username := "", password := "",
    server := "ldap://localhost:10389", base_object := "dc=example,dc=com",
    attributes := ["telephoneNumber", "givenName", "sn", "mobile", "homePhone"],
    sip_attr := "mobile", name_attr := "givenName", filter := "uid=*%s*",
    timeout := 10, deref_aliases := 0, max_results := 50 }

/-- A parser accepting exactly the strings that start with `sip:`. -/
def sip_core : LinphoneCore :=
  { interpret_url := fun s => if s.data.take 4 = ['s', 'i', 'p', ':'] then some { uri := s } else none }

/-- Two live searches A (address 0) and B (address 1) that both hold message
id 5; only A is registered. -/
def machine_same_id : Machine :=
  { heap := [search_with_id 5, search_with_id 5],
    obj := { default_provider with requests := [0], req_count := 1 },
    trace := [] }

/-- One registered search, address 0, message id 1. -/
def machine_one_request : Machine :=
  { heap := [search_with_id 1],
    obj := { default_provider with requests := [0], req_count := 1 },
    trace := [] }

/-- A terminal message for message id 2, polled alone. -/
def poll_terminal_unknown_id : PollResult :=
  { ret := LDAP_RES_SEARCH_RESULT,
    results := [{ msgid := 2, msgtype := LDAP_RES_SEARCH_RESULT, entries := [] }],
    sasl_bind_result := 0 }

/-- The entry `{givenName: Bob, mobile: sip:bob@example.com}`. -/
def entry_bob : LDAPEntry :=
  { attrs := [{ name := "givenName", values := ["Bob"] },
              { name := "mobile", values := ["sip:bob@example.com"] }] }

/-- An entry message for message id 2 carrying `entry_bob`, polled alone. -/
def poll_entry_unknown_id : PollResult :=
  { ret := LDAP_RES_SEARCH_ENTRY,
    results := [{ msgid := 2, msgtype := LDAP_RES_SEARCH_ENTRY, entries := [entry_bob] }],
    sasl_bind_result := 0 }

/-- A library that rejects every search with code 32, storing no id. -/
def rejecting_library : LDAPLibrary :=
  { ldap_search_ext := fun _ => (32, 0) }

/-- A library that accepts every search and stores message id 7. -/
def accepting_library : LDAPLibrary :=
  { ldap_search_ext := fun _ => (LDAP_SUCCESS, 7) }

/-- Two registered searches: address 0 with message id 1 and address 1 with
message id 2. -/
def machine_two_requests : Machine :=
  { heap := [search_with_id 1, search_with_id 2],
    obj := { default_provider with requests := [0, 1], req_count := 2 },
    trace := [] }

/-- An entry with two values under the name key. -/
def entry_two_names : LDAPEntry :=
  { attrs := [{ name := "givenName", values := ["Bob", "Robert"] },
              { name := "mobile", values := ["sip:bob@example.com"] }] }

/-- An entry with two values under the address key, delivered before the name. -/
def entry_two_addresses : LDAPEntry :=
  { attrs := [{ name := "mobile", values := ["sip:old@example.com", "sip:new@example.com"] },
              { name := "givenName", values := ["Bob"] }] }

/-- An entry whose address does not parse. -/
def entry_unparsable : LDAPEntry :=
  { attrs := [{ name := "givenName", values := ["Eve"] },
              { name := "mobile", values := ["not an address"] }] }

/-- A poll of kind `LDAP_RES_SEARCH_RESULT` whose chain holds two terminal
messages for message id 1. -/
def poll_two_terminals : PollResult :=
  { ret := LDAP_RES_SEARCH_RESULT,
    results := [{ msgid := 1, msgtype := LDAP_RES_SEARCH_RESULT, entries := [] },
                { msgid := 1, msgtype := LDAP_RES_SEARCH_RESULT, entries := [] }],
    sasl_bind_result := 0 }

/-- A poll of kind `LDAP_RES_SEARCH_RESULT` whose chain is an entry message,
the terminal message and another entry message, all for message id 1. -/
def poll_terminal_in_the_middle : PollResult :=
  { ret := LDAP_RES_SEARCH_RESULT,
    results := [{ msgid := 1, msgtype := LDAP_RES_SEARCH_ENTRY, entries := [entry_bob] },
                { msgid := 1, msgtype := LDAP_RES_SEARCH_RESULT, entries := [] },
                { msgid := 1, msgtype := LDAP_RES_SEARCH_ENTRY, entries := [entry_two_names] }],
    sasl_bind_result := 0 }

/-- One registered search (address 0, message id 1) under a configuration
whose name key and address key are both `mobile`. -/
def machine_same_key : Machine :=
  { heap := [search_with_id 1],
    obj := { default_provider with
      requests := [0], req_count := 1, name_attr := "mobile", sip_attr := "mobile" },
    trace := [] }

/-- The entry `{mobile: sip:bob@example.com}`. -/
def entry_mobile_only : LDAPEntry :=
  { attrs := [{ name := "mobile", values := ["sip:bob@example.com"] }] }

/-- A predicate of 511 characters. -/
def predicate_511 : String :=
  String.mk (List.replicate 511 'a')

/-- A provider whose filter template is the bare placeholder `%s`. -/
def bare_template_provider : LinphoneLDAPContactProvider :=
  { default_provider with filter := "%s" }

/-- Result code `LDAP_DECODING_ERROR` of `<ldap.h>`. -/
def LDAP_DECODING_ERROR : Int := -4

/-- Message tag `LDAP_RES_MODIFY` of `<ldap.h>`. -/
def LDAP_RES_MODIFY : Int := 0x67

/-- No request registered, no bind awaited, the connection open. -/
def machine_idle : Machine :=
  { heap := [search_with_id 1], obj := default_provider, trace := [] }

/-- The bind with message id 3 is awaited, the provider is not bound yet; one
search (address 0, id 1) is registered. -/
def machine_bind_pending : Machine :=
  { heap := [search_with_id 1],
    obj := { default_provider with
      requests := [0], req_count := 1, bind_msgid := 3, connected := false },
    trace := [] }

/-- The bind result for message id 3, which `ldap_parse_sasl_bind_result`
parses successfully. -/
def poll_bind_ok : PollResult :=
  { ret := LDAP_RES_BIND,
    results := [{ msgid := 3, msgtype := LDAP_RES_BIND, entries := [] }],
    sasl_bind_result := LDAP_SUCCESS }

/-- The bind result for message id 3, on which `ldap_parse_sasl_bind_result`
answers `LDAP_DECODING_ERROR`. -/
def poll_bind_undecodable : PollResult :=
  { ret := LDAP_RES_BIND,
    results := [{ msgid := 3, msgtype := LDAP_RES_BIND, entries := [] }],
    sasl_bind_result := LDAP_DECODING_ERROR }

/-- A bind result for message id 4, not the awaited one. -/
def poll_bind_other_id : PollResult :=
  { ret := LDAP_RES_BIND,
    results := [{ msgid := 4, msgtype := LDAP_RES_BIND, entries := [] }],
    sasl_bind_result := LDAP_SUCCESS }

/-- A configuration store holding the given (section, key, value) strings and
no integer; what is absent reads as the default. -/
def config_of (entries : List (String × String × String)) : LpConfig :=
  { get_int := fun _ _ d => d,
    get_string := fun sec key d =>
      match entries.find? (fun e => e.1 = sec ∧ e.2.1 = key) with
      | some e => e.2.2
      | none => d }

/-- The empty configuration store: every key reads as its default. -/
def empty_config : LpConfig := config_of []

/-- A configuration whose attribute list is `sn` alone. -/
def config_sn_only : LpConfig := config_of [("ldap", "attributes", "sn")]

/-- A library that accepts every bind and stores message id 9. -/
def accepting_bind : BindCall → Int × Int := fun _ => (LDAP_SUCCESS, 9)

/-- A library that rejects every bind with code 49. -/
def rejecting_bind : BindCall → Int × Int := fun _ => (49, 0)

/-! ## Reachable states -/

/-- The provider states reachable from a state with an empty registry and
outstanding count 0 by submissions (whose library answer satisfies `allowed`),
cancellations of any handle, and ticks that return. -/
inductive Reachable (lc : LinphoneCore) (allowed : Machine → LDAPLibrary → String → Prop) :
    Machine → Prop where
  | init (m : Machine) :
      m.obj.requests = [] → m.obj.req_count = 0 → Reachable lc allowed m
  | begin_search (m : Machine) (lib : LDAPLibrary) (predicate : String) (cb cb_data : Nat) :
      Reachable lc allowed m → allowed m lib predicate →
      Reachable lc allowed (linphone_ldap_begin_search lib m predicate cb cb_data).1
  | cancel_search (m : Machine) (req : Nat) :
      Reachable lc allowed m →
      Reachable lc allowed (linphone_ldap_contact_provider_cancel_search m req).1
  | iterate (m m1 : Machine) (poll : PollResult) (b : Bool) :
      Reachable lc allowed m →
      linphone_ldap_contact_provider_iterate lc poll m = some (m1, b) →
      Reachable lc allowed m1

/-- The assumption on the protocol library: when it accepts a search, the
message id it stores is held by no registered request. -/
def fresh_answer (m : Machine) (lib : LDAPLibrary) (predicate : String) : Prop :=
  (lib.ldap_search_ext (search_call m.obj predicate)).1 = LDAP_SUCCESS →
    ∀ a ∈ m.obj.requests,
      (deref m.heap a).msgid ≠ (lib.ldap_search_ext (search_call m.obj predicate)).2

/-- The registered requests hold pairwise-distinct message ids. -/
def distinct_ids (m : Machine) : Prop :=
  (m.obj.requests.map (fun a => (deref m.heap a).msgid)).Nodup

/-- The attributes string `loadconfig` reads. -/
def configured_attributes (config : LpConfig) : String :=
  config.get_string "ldap" "attributes" "telephoneNumber,givenName,sn,mobile,homePhone"

/-- The non-empty fields obtained by splitting a string at commas, in order. -/
def nonempty_comma_fields (s : String) : List String :=
  ((s.data.splitOn ',').filter (fun f => decide (f ≠ []))).map String.mk

/-- The attribute array `loadconfig` fills for an attributes string: the
result of the store loop on `attr_count + 2` zeroed slots. -/
def attribute_array (s : String) : Option (List (Option String) × Nat) :=
  store_attributes (strtok_tokens s.data [])
    (List.replicate ((count_commas s.data 0 + 2) % UINT_MOD) none) 0

/-- Two registered searches, addresses 0 and 1, that both hold message id 5. -/
def machine_shared_id : Machine :=
  { heap := [search_with_id 5, search_with_id 5],
    obj := { default_provider with requests := [0, 1], req_count := 2 },
    trace := [] }

/-- The entry `{givenName: Alice, mobile: sip:alice@example.com}`. -/
def entry_alice : LDAPEntry :=
  { attrs := [{ name := "givenName", values := ["Alice"] },
              { name := "mobile", values := ["sip:alice@example.com"] }] }

/-- A batch of two entry messages: the first for message id 1 carrying
`entry_bob`, the second for message id 2 carrying `entry_alice`. -/
def poll_mixed_ids : PollResult :=
  { ret := LDAP_RES_SEARCH_ENTRY,
    results := [{ msgid := 1, msgtype := LDAP_RES_SEARCH_ENTRY, entries := [entry_bob] },
                { msgid := 2, msgtype := LDAP_RES_SEARCH_ENTRY, entries := [entry_alice] }],
    sasl_bind_result := 0 }

/-- The state reached from `machine_idle` by two accepted submissions and the
cancellation of the handle 0, which is not registered. -/
def machine_after_submissions : Machine :=
  (linphone_ldap_contact_provider_cancel_search
    (linphone_ldap_begin_search accepting_library
      (linphone_ldap_begin_search accepting_library machine_idle "bob" 3 4).1 "al" 5 6).1
    0).1

/-- One registered search, address 0, message id 1, that has accumulated one
record. -/
def machine_with_record : Machine :=
  { heap := [{ search_with_id 1 with
      found_entries := [{ name := "Bob", address := { uri := "sip:bob@example.com" } }]
      found_count := 1 }],
    obj := { default_provider with requests := [0], req_count := 1 },
    trace := [] }

/-- A library that accepts every search and stores the given message id. -/
def library_storing (mid : Int) : LDAPLibrary :=
  { ldap_search_ext := fun _ => (LDAP_SUCCESS, mid) }

/-- The state reached from `machine_idle` by two accepted submissions, the
first answered with message id 7, the second with message id 8. -/
def machine_two_pending : Machine :=
  (linphone_ldap_begin_search (library_storing 8)
    (linphone_ldap_begin_search accepting_library machine_idle "bob" 3 4).1 "al" 5 6).1

/-! ## Theorems -/

/-- C1, evaluated at the failing input: B (address 1) is not registered, A
(address 0) is, and both hold message id 5; cancelling B answers 0 (found) and
removes A from the registry. -/
theorem cancel_search_removes_other_request_with_same_id :
    1 ∉ machine_same_id.obj.requests ∧
    machine_same_id.obj.requests = [0] ∧
    (linphone_ldap_contact_provider_cancel_search machine_same_id 1).2 = 0 ∧
    (linphone_ldap_contact_provider_cancel_search machine_same_id 1).1.obj.requests = [] := by
  decide

/-- C2, evaluated at the failing input: with one request registered under id 1,
a terminal message (or an entry message yielding a record) for the unknown id 2
makes iterate write through the `NULL` request: the tick faults.  The same
happens when the answer to a search arrives after that search was cancelled
(`machine_two_requests` after cancelling the request with id 2). -/
theorem iterate_unknown_id_faults :
    linphone_ldap_request_entry_search machine_one_request 2 = none ∧
    linphone_ldap_contact_provider_iterate sip_core poll_terminal_unknown_id
      machine_one_request = none ∧
    linphone_ldap_contact_provider_iterate sip_core poll_entry_unknown_id
      machine_one_request = none ∧
    linphone_ldap_contact_provider_iterate sip_core poll_terminal_unknown_id
      (linphone_ldap_contact_provider_cancel_search machine_two_requests 1).1 = none := by
  decide

/-! ### Registry lemmas -/

theorem uint_decrement (c : Nat) (hc : 0 < c) (hu : c < UINT_MOD) :
    (c + UINT_MOD - 1) % UINT_MOD = c - 1 := by
  unfold UINT_MOD at *
  omega

theorem uint_increment (c : Nat) (hu : c + 1 < UINT_MOD) :
    (c + 1) % UINT_MOD = c + 1 := by
  unfold UINT_MOD at *
  omega

/-- With pairwise-distinct message ids the strong lookup of a registered
request finds the position of that very request. -/
theorem find_custom_strong_of_nodup (heap : List LinphoneLDAPContactSearch) (R : Nat) :
    ∀ l : List Nat, (l.map (fun a => (deref heap a).msgid)).Nodup → R ∈ l →
      ∃ i, ms_list_find_custom l (linphone_ldap_request_entry_compare_strong heap) R = some i
        ∧ l.eraseIdx i = l.erase R := by
  intro l
  induction l with
  | nil => intro _ h; simp at h
  | cons x rest ih =>
    intro hnd hR
    by_cases hx : x = R
    · subst hx
      refine ⟨0, ?_, ?_⟩
      · simp [ms_list_find_custom, linphone_ldap_request_entry_compare_strong]
      · simp
    · have hR2 : R ∈ rest := by
        rcases List.mem_cons.mp hR with h | h
        · exact absurd h.symm hx
        · exact h
      rw [List.map_cons, List.nodup_cons] at hnd
      have hid : (deref heap x).msgid ≠ (deref heap R).msgid := by
        intro h
        apply hnd.1
        rw [h]
        exact List.mem_map.mpr ⟨R, hR2, rfl⟩
      obtain ⟨i, hi, he⟩ := ih hnd.2 hR2
      refine ⟨i + 1, ?_, ?_⟩
      · simp [ms_list_find_custom, linphone_ldap_request_entry_compare_strong, hid, hx, hi]
      · have hbeq : (x == R) = false := by simpa using hx
        simp [List.eraseIdx_cons_succ, List.erase_cons, hbeq, he]

/-! ### Claims -/

/-- C8: in a state whose registered requests have pairwise-distinct message ids
(the count being at least one and within the range of `uint`), cancelling a
registered request R answers 0, the registry becomes the previous registry with
R erased and nothing else moved, R is no longer registered, the heap (every
request's id, completion flag and accumulated results) and the trace (no
callback) are untouched, and the count drops by exactly one. -/
theorem cancel_search_registered (m : Machine) (R : Nat)
    (hids : (m.obj.requests.map (fun a => (deref m.heap a).msgid)).Nodup)
    (hR : R ∈ m.obj.requests) (hc : 0 < m.obj.req_count) (hu : m.obj.req_count < UINT_MOD) :
    linphone_ldap_contact_provider_cancel_search m R =
      ({ m with obj := { m.obj with
            requests := m.obj.requests.erase R
            req_count := m.obj.req_count - 1 } }, 0)
    ∧ R ∉ m.obj.requests.erase R
    ∧ (∀ a, a ≠ R → (a ∈ m.obj.requests.erase R ↔ a ∈ m.obj.requests))
    ∧ (m.obj.requests.erase R).Sublist m.obj.requests
    ∧ (m.obj.requests.erase R).length + 1 = m.obj.requests.length := by
  have hnd : m.obj.requests.Nodup := List.Nodup.of_map _ hids
  refine ⟨?_, ?_, ?_, ?_, ?_⟩
  · obtain ⟨i, hi, he⟩ := find_custom_strong_of_nodup m.heap R m.obj.requests hids hR
    simp [linphone_ldap_contact_provider_cancel_search, hi, ms_list_remove_link, he,
      uint_decrement _ hc hu]
  · exact fun h => (List.Nodup.mem_erase_iff hnd).mp h |>.1 rfl
  · intro a ha
    simp [List.Nodup.mem_erase_iff hnd, ha]
  · exact List.erase_sublist R _
  · rw [List.length_erase_of_mem hR]
    have := List.length_pos_of_mem hR
    omega

/-- C8 at a concrete state: cancelling the request at address 0 of
`machine_two_requests`. -/
theorem cancel_search_registered_witness :
    linphone_ldap_contact_provider_cancel_search machine_two_requests 0 =
      ({ machine_two_requests with obj := { machine_two_requests.obj with
            requests := machine_two_requests.obj.requests.erase 0
            req_count := machine_two_requests.obj.req_count - 1 } }, 0)
    ∧ 0 ∉ machine_two_requests.obj.requests.erase 0
    ∧ (∀ a, a ≠ 0 → (a ∈ machine_two_requests.obj.requests.erase 0
        ↔ a ∈ machine_two_requests.obj.requests))
    ∧ (machine_two_requests.obj.requests.erase 0).Sublist machine_two_requests.obj.requests
    ∧ (machine_two_requests.obj.requests.erase 0).length + 1
        = machine_two_requests.obj.requests.length :=
  cancel_search_registered machine_two_requests 0 (by decide) (by decide) (by decide)
    (by decide)

/-- C9: when `ldap_search_ext` answers anything but `LDAP_SUCCESS`,
`linphone_ldap_begin_search` returns `NULL` and leaves the provider (registry
and count included) and the heap exactly as they were; only the issued call is
added to the trace. -/
theorem begin_search_rejected (lib : LDAPLibrary) (m : Machine) (predicate : String)
    (cb cb_data : Nat)
    (hrej : (lib.ldap_search_ext (search_call m.obj predicate)).1 ≠ LDAP_SUCCESS) :
    linphone_ldap_begin_search lib m predicate cb cb_data =
      ({ m with trace := m.trace ++ [Event.ldap_search_ext (search_call m.obj predicate)] }, none)
    ∧ (linphone_ldap_begin_search lib m predicate cb cb_data).2 = none
    ∧ (linphone_ldap_begin_search lib m predicate cb cb_data).1.obj.requests = m.obj.requests
    ∧ (linphone_ldap_begin_search lib m predicate cb cb_data).1.obj.req_count = m.obj.req_count
    ∧ (linphone_ldap_begin_search lib m predicate cb cb_data).1.obj = m.obj
    ∧ (linphone_ldap_begin_search lib m predicate cb cb_data).1.heap = m.heap := by
  have h : linphone_ldap_begin_search lib m predicate cb cb_data =
      ({ m with trace := m.trace ++ [Event.ldap_search_ext (search_call m.obj predicate)] },
        none) := by
    simp [linphone_ldap_begin_search, linphone_ldap_contact_search_create, hrej]
  simp [h]

/-- C9 at a concrete state: a rejected submission on `machine_one_request`. -/
theorem begin_search_rejected_witness :
    linphone_ldap_begin_search rejecting_library machine_one_request "bob" 3 4 =
      ({ machine_one_request with trace := machine_one_request.trace ++
          [Event.ldap_search_ext (search_call machine_one_request.obj "bob")] }, none)
    ∧ (linphone_ldap_begin_search rejecting_library machine_one_request "bob" 3 4).2 = none
    ∧ (linphone_ldap_begin_search rejecting_library machine_one_request "bob" 3 4).1.obj.requests
        = machine_one_request.obj.requests
    ∧ (linphone_ldap_begin_search rejecting_library machine_one_request "bob" 3 4).1.obj.req_count
        = machine_one_request.obj.req_count
    ∧ (linphone_ldap_begin_search rejecting_library machine_one_request "bob" 3 4).1.obj
        = machine_one_request.obj
    ∧ (linphone_ldap_begin_search rejecting_library machine_one_request "bob" 3 4).1.heap
        = machine_one_request.heap :=
  begin_search_rejected rejecting_library machine_one_request "bob" 3 4 (by decide)

theorem deref_append_length (heap : List LinphoneLDAPContactSearch)
    (x : LinphoneLDAPContactSearch) : deref (heap ++ [x]) heap.length = x := by
  simp [deref, List.getD_eq_getElem?_getD]

/-- C10: when `ldap_search_ext` answers `LDAP_SUCCESS` and stores message id
`mid` (the count being below the top of `uint`), `linphone_ldap_begin_search`
returns the address of a newly allocated request holding `mid`, not complete,
with no accumulated records and found-count 0; the objects allocated before are
unchanged, the registry is the previous registry with that address appended at
the end, and the count is one more. -/
theorem begin_search_accepted (lib : LDAPLibrary) (m : Machine) (predicate : String)
    (cb cb_data : Nat) (mid : Int)
    (hacc : lib.ldap_search_ext (search_call m.obj predicate) = (LDAP_SUCCESS, mid))
    (hu : m.obj.req_count + 1 < UINT_MOD) :
    ∃ (h : Nat) (m1 : Machine),
      linphone_ldap_begin_search lib m predicate cb cb_data = (m1, some h)
      ∧ h = m.heap.length
      ∧ m1.heap = m.heap ++ [new_search m.obj predicate cb cb_data mid]
      ∧ (deref m1.heap h).msgid = mid
      ∧ (deref m1.heap h).complete = false
      ∧ (deref m1.heap h).found_entries = []
      ∧ (deref m1.heap h).found_count = 0
      ∧ m1.obj.requests = m.obj.requests ++ [h]
      ∧ m1.obj.req_count = m.obj.req_count + 1
      ∧ m1.obj = { m.obj with requests := m.obj.requests ++ [h]
                              req_count := m.obj.req_count + 1 } := by
  refine ⟨m.heap.length,
    { heap := m.heap ++ [new_search m.obj predicate cb cb_data mid],
      obj := { m.obj with requests := m.obj.requests ++ [m.heap.length]
                          req_count := m.obj.req_count + 1 },
      trace := m.trace ++ [Event.ldap_search_ext (search_call m.obj predicate)] },
    ?_, rfl, rfl, ?_, ?_, ?_, ?_, rfl, rfl, rfl⟩
  · simp [linphone_ldap_begin_search, linphone_ldap_contact_search_create, hacc,
      ms_list_append, uint_increment _ hu]
  all_goals simp [deref_append_length, new_search]

/-- C10 at a concrete state: an accepted submission on `machine_one_request`
is registered at the fresh address 1 with message id 7. -/
theorem begin_search_accepted_witness :
    ∃ (h : Nat) (m1 : Machine),
      linphone_ldap_begin_search accepting_library machine_one_request "bob" 3 4 = (m1, some h)
      ∧ h = machine_one_request.heap.length
      ∧ m1.heap = machine_one_request.heap ++ [new_search machine_one_request.obj "bob" 3 4 7]
      ∧ (deref m1.heap h).msgid = 7
      ∧ (deref m1.heap h).complete = false
      ∧ (deref m1.heap h).found_entries = []
      ∧ (deref m1.heap h).found_count = 0
      ∧ m1.obj.requests = machine_one_request.obj.requests ++ [h]
      ∧ m1.obj.req_count = machine_one_request.obj.req_count + 1
      ∧ m1.obj = { machine_one_request.obj with
                    requests := machine_one_request.obj.requests ++ [h]
                    req_count := machine_one_request.obj.req_count + 1 } :=
  begin_search_accepted accepting_library machine_one_request "bob" 3 4 7 (by decide)
    (by decide)

/-! ### Result mapper lemmas -/

theorem feed_eq (obj : LinphoneLDAPContactProvider) (lf : LDAPFriendData)
    (p : String × String) :
    feed obj lf p
      = if p.1 = obj.name_attr then { lf with name := some p.2 }
        else if p.1 = obj.sip_attr then { lf with sip := some p.2 }
        else lf := by
  unfold feed linphone_ldap_contact_provider_complete_contact
  simp only []
  generalize (if p.1 = obj.name_attr then ({ lf with name := some p.2 } : LDAPFriendData)
    else if p.1 = obj.sip_attr then { lf with sip := some p.2 } else lf) = lf1
  cases h : (lf1.name.isSome && lf1.sip.isSome) <;> simp [h]

theorem complete_contact_eq (obj : LinphoneLDAPContactProvider) (lf : LDAPFriendData)
    (a v : String) :
    linphone_ldap_contact_provider_complete_contact obj lf a v
      = (feed obj lf (a, v), if is_complete (feed obj lf (a, v)) then 1 else 0) := by
  rw [feed_eq]
  unfold is_complete linphone_ldap_contact_provider_complete_contact
  simp only []
  generalize (if a = obj.name_attr then ({ lf with name := some v } : LDAPFriendData)
    else if a = obj.sip_attr then { lf with sip := some v } else lf) = lf1
  cases h : (lf1.name.isSome && lf1.sip.isSome) <;> simp [h]

theorem scan_values_eq_scan_pairs (obj : LinphoneLDAPContactProvider) (attr : String) :
    ∀ (vs : List String) (lf : LDAPFriendData),
      scan_values obj attr vs lf
        = scan_pairs obj ((vs.takeWhile value_present).map (fun v => (attr, v))) lf := by
  intro vs
  induction vs with
  | nil => intro lf; rfl
  | cons v it ih =>
    intro lf
    by_cases hv : value_present v = true
    · by_cases hc : is_complete (feed obj lf (attr, v)) = true
      · simp [scan_values, hv, scan_pairs, List.takeWhile, hc, complete_contact_eq]
      · simp [scan_values, hv, scan_pairs, List.takeWhile, hc, complete_contact_eq, ih]
    · simp [scan_values, hv, scan_pairs, List.takeWhile]

theorem scan_pairs_append (obj : LinphoneLDAPContactProvider) :
    ∀ (l1 l2 : List (String × String)) (lf : LDAPFriendData),
      scan_pairs obj (l1 ++ l2) lf
        = if (scan_pairs obj l1 lf).2 then scan_pairs obj l1 lf
          else scan_pairs obj l2 (scan_pairs obj l1 lf).1 := by
  intro l1
  induction l1 with
  | nil => intro l2 lf; simp [scan_pairs]
  | cons p rest ih =>
    intro l2 lf
    by_cases hc : is_complete (feed obj lf p) = true
    · simp [scan_pairs, hc]
    · simp [scan_pairs, hc, ih]

theorem scan_attributes_eq_scan_pairs (obj : LinphoneLDAPContactProvider) :
    ∀ (attrs : List LDAPAttribute) (lf : LDAPFriendData),
      scan_attributes obj attrs lf = scan_pairs obj (visited_pairs attrs) lf := by
  intro attrs
  induction attrs with
  | nil => intro lf; rfl
  | cons a rest ih =>
    intro lf
    have hv := scan_values_eq_scan_pairs obj a.name a.values lf
    have hvis : visited_pairs (a :: rest)
        = (a.values.takeWhile value_present).map (fun v => (a.name, v)) ++ visited_pairs rest := by
      simp [visited_pairs]
    rw [hvis, scan_pairs_append, ← hv]
    cases hsv : scan_values obj a.name a.values lf with
    | mk d c =>
      cases c with
      | true => simp [scan_attributes, hsv]
      | false => simp [scan_attributes, hsv, ih]

theorem scan_pairs_false (obj : LinphoneLDAPContactProvider) :
    ∀ (l : List (String × String)) (lf : LDAPFriendData), is_complete lf = false →
      (scan_pairs obj l lf).2 = false →
      (scan_pairs obj l lf).1 = l.foldl (feed obj) lf
        ∧ is_complete (l.foldl (feed obj) lf) = false := by
  intro l
  induction l with
  | nil => intro lf h0 _; exact ⟨rfl, h0⟩
  | cons p rest ih =>
    intro lf _ h
    by_cases hc : is_complete (feed obj lf p) = true
    · simp [scan_pairs, hc] at h
    · simp only [scan_pairs, hc] at h ⊢
      simp only [Bool.not_eq_true] at hc
      exact ih _ hc h

theorem scan_pairs_true (obj : LinphoneLDAPContactProvider) :
    ∀ (l : List (String × String)) (lf : LDAPFriendData), is_complete lf = false →
      (scan_pairs obj l lf).2 = true →
      ∃ pre p post, l = pre ++ p :: post
        ∧ (scan_pairs obj l lf).1 = (pre ++ [p]).foldl (feed obj) lf
        ∧ is_complete (pre.foldl (feed obj) lf) = false
        ∧ is_complete ((pre ++ [p]).foldl (feed obj) lf) = true := by
  intro l
  induction l with
  | nil => intro lf _ h; simp [scan_pairs] at h
  | cons q rest ih =>
    intro lf h0 h
    by_cases hc : is_complete (feed obj lf q) = true
    · refine ⟨[], q, rest, rfl, ?_, ?_, ?_⟩
      · simp [scan_pairs, hc]
      · simpa using h0
      · simpa using hc
    · simp only [scan_pairs, hc] at h ⊢
      simp only [Bool.not_eq_true] at hc
      obtain ⟨pre, p, post, hl, h1, h2, h3⟩ := ih _ hc h
      refine ⟨q :: pre, p, post, ?_, ?_, ?_, ?_⟩
      · simp [hl]
      · simpa using h1
      · simpa using h2
      · simpa using h3

theorem feed_name_key (obj : LinphoneLDAPContactProvider) (lf : LDAPFriendData)
    (p : String × String) (h : p.1 = obj.name_attr) :
    feed obj lf p = { lf with name := some p.2 } := by
  rw [feed_eq, if_pos h]

theorem feed_sip_key (obj : LinphoneLDAPContactProvider) (lf : LDAPFriendData)
    (p : String × String) (h1 : ¬ p.1 = obj.name_attr) (h2 : p.1 = obj.sip_attr) :
    feed obj lf p = { lf with sip := some p.2 } := by
  rw [feed_eq, if_neg h1, if_pos h2]

theorem feed_other_key (obj : LinphoneLDAPContactProvider) (lf : LDAPFriendData)
    (p : String × String) (h1 : ¬ p.1 = obj.name_attr) (h2 : ¬ p.1 = obj.sip_attr) :
    feed obj lf p = lf := by
  rw [feed_eq, if_neg h1, if_neg h2]

theorem last_value_cons (key : String) (q : String × String) (l : List (String × String)) :
    last_value key (q :: l)
      = (last_value key l).or (if q.1 = key then some q.2 else none) := by
  unfold last_value
  by_cases hq : q.1 = key
  · have hf : List.filter (fun p => decide (p.1 = key)) (q :: l)
        = q :: List.filter (fun p => decide (p.1 = key)) l := by
      simp [List.filter_cons, hq]
    rw [hf, List.map_cons, List.getLast?_cons, if_pos hq]
    generalize (List.map (fun p => p.2) (List.filter (fun p => decide (p.1 = key)) l)).getLast? = o
    cases o <;> rfl
  · have hf : List.filter (fun p => decide (p.1 = key)) (q :: l)
        = List.filter (fun p => decide (p.1 = key)) l := by
      simp [List.filter_cons, hq]
    rw [hf, if_neg hq]
    generalize (List.map (fun p => p.2) (List.filter (fun p => decide (p.1 = key)) l)).getLast? = o
    cases o <;> rfl

theorem foldl_feed_name (obj : LinphoneLDAPContactProvider) :
    ∀ (l : List (String × String)) (lf : LDAPFriendData),
      (l.foldl (feed obj) lf).name = (last_value obj.name_attr l).or lf.name := by
  intro l
  induction l with
  | nil => intro lf; simp [last_value]
  | cons q rest ih =>
    intro lf
    rw [List.foldl_cons, ih, last_value_cons]
    by_cases hq : q.1 = obj.name_attr
    · rw [feed_name_key obj lf q hq, if_pos hq]
      cases last_value obj.name_attr rest <;> rfl
    · rw [if_neg hq]
      by_cases hs : q.1 = obj.sip_attr
      · rw [feed_sip_key obj lf q hq hs]
        cases last_value obj.name_attr rest <;> rfl
      · rw [feed_other_key obj lf q hq hs]
        cases last_value obj.name_attr rest <;> rfl

theorem foldl_feed_sip (obj : LinphoneLDAPContactProvider) (hne : obj.name_attr ≠ obj.sip_attr) :
    ∀ (l : List (String × String)) (lf : LDAPFriendData),
      (l.foldl (feed obj) lf).sip = (last_value obj.sip_attr l).or lf.sip := by
  intro l
  induction l with
  | nil => intro lf; simp [last_value]
  | cons q rest ih =>
    intro lf
    rw [List.foldl_cons, ih, last_value_cons]
    by_cases hq : q.1 = obj.name_attr
    · have hs : ¬ q.1 = obj.sip_attr := fun h => hne (hq.symm.trans h)
      rw [feed_name_key obj lf q hq, if_neg hs]
      cases last_value obj.sip_attr rest <;> rfl
    · by_cases hs : q.1 = obj.sip_attr
      · rw [feed_sip_key obj lf q hq hs, if_pos hs]
        cases last_value obj.sip_attr rest <;> rfl
      · rw [feed_other_key obj lf q hq hs, if_neg hs]
        cases last_value obj.sip_attr rest <;> rfl

theorem foldl_feed_sip_same_key (obj : LinphoneLDAPContactProvider)
    (heq : obj.name_attr = obj.sip_attr) :
    ∀ (l : List (String × String)) (lf : LDAPFriendData),
      (l.foldl (feed obj) lf).sip = lf.sip := by
  intro l
  induction l with
  | nil => intro lf; rfl
  | cons q rest ih =>
    intro lf
    rw [List.foldl_cons, ih]
    by_cases hq : q.1 = obj.name_attr
    · rw [feed_name_key obj lf q hq]
    · have hs : ¬ q.1 = obj.sip_attr := fun h => hq (h.trans heq.symm)
      rw [feed_other_key obj lf q hq hs]

theorem option_or_none {α : Type} (o : Option α) : o.or none = o := by
  cases o <;> rfl

theorem is_complete_empty : is_complete { name := none, sip := none } = false := rfl

/-- What the mapper does for an entry it turns into a friend: the keys differ,
and with `pre ++ [p]` the shortest run of visited pairs after which both fields
are set, the name is the value of the last name-key pair of that run and the
parsed string is the value of its last address-key pair. -/
theorem entry_friend_spec (lc : LinphoneCore) (obj : LinphoneLDAPContactProvider)
    (e : LDAPEntry) (f : LinphoneFriend) (h : entry_friend lc obj e = some f) :
    obj.name_attr ≠ obj.sip_attr ∧
    ∃ pre p post s, visited_pairs e.attrs = pre ++ p :: post
      ∧ (last_value obj.name_attr pre = none ∨ last_value obj.sip_attr pre = none)
      ∧ last_value obj.name_attr (pre ++ [p]) = some f.name
      ∧ last_value obj.sip_attr (pre ++ [p]) = some s
      ∧ lc.interpret_url s = some f.address := by
  unfold entry_friend at h
  simp only [scan_attributes_eq_scan_pairs] at h
  cases h2 : (scan_pairs obj (visited_pairs e.attrs) { name := none, sip := none }).2 with
  | false => simp [h2] at h
  | true =>
    obtain ⟨pre, p, post, hl, hd, hpre, hfull⟩ :=
      scan_pairs_true obj _ _ is_complete_empty h2
    rw [hd] at h
    simp only [h2, if_true] at h
    have hne : obj.name_attr ≠ obj.sip_attr := by
      intro heq
      have := foldl_feed_sip_same_key obj heq (pre ++ [p]) { name := none, sip := none }
      unfold is_complete at hfull
      rw [this] at hfull
      simp at hfull
    have hn := foldl_feed_name obj (pre ++ [p]) { name := none, sip := none }
    have hs := foldl_feed_sip obj hne (pre ++ [p]) { name := none, sip := none }
    have hn0 := foldl_feed_name obj pre { name := none, sip := none }
    have hs0 := foldl_feed_sip obj hne pre { name := none, sip := none }
    simp only [option_or_none] at hn hs hn0 hs0
    refine ⟨hne, pre, p, post, ?_⟩
    unfold is_complete at hfull hpre
    rw [hn, hs] at hfull
    rw [hn0, hs0] at hpre
    rw [hn, hs] at h
    cases hvn : last_value obj.name_attr (pre ++ [p]) with
    | none => simp [hvn] at hfull
    | some n =>
      cases hvs : last_value obj.sip_attr (pre ++ [p]) with
      | none => simp [hvs] at hfull
      | some sv =>
        rw [hvn, hvs] at h
        simp only [Option.getD_some] at h
        cases hp : lc.interpret_url sv with
        | none => simp [hp] at h
        | some la =>
          simp only [hp, Option.some.injEq] at h
          refine ⟨sv, hl, ?_, ?_, rfl, ?_⟩
          · cases hA : last_value obj.name_attr pre with
            | none => exact Or.inl rfl
            | some a =>
              cases hB : last_value obj.sip_attr pre with
              | none => exact Or.inr rfl
              | some b => simp [hA, hB] at hpre
          · rw [← h]
          · rw [← h]
            exact hp

theorem visited_pairs_cons (a : LDAPAttribute) (rest : List LDAPAttribute) :
    visited_pairs (a :: rest)
      = (a.values.takeWhile value_present).map (fun v => (a.name, v)) ++ visited_pairs rest := by
  simp [visited_pairs]

theorem visited_pairs_key_values (key : String) :
    ∀ attrs : List LDAPAttribute,
      ((visited_pairs attrs).filter (fun p => p.1 = key)).map (fun p => p.2)
        = (attrs.filter (fun a => a.name = key)).flatMap
            (fun a => a.values.takeWhile value_present) := by
  intro attrs
  induction attrs with
  | nil => rfl
  | cons a rest ih =>
    rw [visited_pairs_cons, List.filter_append, List.map_append, ih]
    by_cases ha : a.name = key
    · have h1 : List.filter (fun p : String × String => decide (p.1 = key))
          ((a.values.takeWhile value_present).map (fun v => (a.name, v)))
          = (a.values.takeWhile value_present).map (fun v => (a.name, v)) := by
        apply List.filter_eq_self.mpr
        intro p hp
        obtain ⟨v, _, hv⟩ := List.mem_map.mp hp
        simp [← hv, ha]
      have h2 : List.filter (fun x : LDAPAttribute => decide (x.name = key)) (a :: rest)
          = a :: List.filter (fun x : LDAPAttribute => decide (x.name = key)) rest := by
        simp [List.filter_cons, ha]
      rw [h1, h2, List.flatMap_cons, List.map_map]
      congr 1
      simp
    · have h1 : List.filter (fun p : String × String => decide (p.1 = key))
          ((a.values.takeWhile value_present).map (fun v => (a.name, v))) = [] := by
        apply List.filter_eq_nil_iff.mpr
        intro p hp
        obtain ⟨v, _, hv⟩ := List.mem_map.mp hp
        simp [← hv, ha]
      have h2 : List.filter (fun x : LDAPAttribute => decide (x.name = key)) (a :: rest)
          = List.filter (fun x : LDAPAttribute => decide (x.name = key)) rest := by
        simp [List.filter_cons, ha]
      rw [h1, h2]
      rfl

theorem flatMap_takeWhile_of_all_present :
    ∀ l : List LDAPAttribute,
      (∀ x ∈ l.flatMap (fun a => a.values), value_present x = true) →
      l.flatMap (fun a => a.values.takeWhile value_present) = l.flatMap (fun a => a.values) := by
  intro l
  induction l with
  | nil => intro _; rfl
  | cons a rest ih =>
    intro h
    rw [List.flatMap_cons, List.flatMap_cons]
    have ha : a.values.takeWhile value_present = a.values := by
      apply List.takeWhile_eq_self_iff.mpr
      intro x hx
      exact h x (by simp [hx])
    rw [ha, ih]
    intro x hx
    exact h x (by rw [List.flatMap_cons]; exact List.mem_append_right _ hx)

/-- A key carried with the single present value `v` shows up among the visited
pairs exactly once, with `v`. -/
theorem visited_values_of_key_values (key v : String) (e : LDAPEntry)
    (hk : key_values key e = [v]) (hv : value_present v = true) :
    ((visited_pairs e.attrs).filter (fun p => p.1 = key)).map (fun p => p.2) = [v] := by
  rw [visited_pairs_key_values]
  unfold key_values at hk
  rw [flatMap_takeWhile_of_all_present, hk]
  intro x hx
  rw [hk] at hx
  simp at hx
  rw [hx]
  exact hv

theorem last_value_of_single (key v : String) (l : List (String × String))
    (h : (l.filter (fun p => p.1 = key)).map (fun p => p.2) = [v]) :
    last_value key l = some v := by
  unfold last_value
  rw [h]
  rfl

theorem last_value_of_part (key v x : String) (l1 l2 : List (String × String))
    (h : ((l1 ++ l2).filter (fun p => p.1 = key)).map (fun p => p.2) = [v])
    (hx : last_value key l1 = some x) : x = v := by
  unfold last_value at hx
  rw [List.filter_append, List.map_append] at h
  generalize (l1.filter (fun p => decide (p.1 = key))).map (fun p => p.2) = A at h hx
  generalize (l2.filter (fun p => decide (p.1 = key))).map (fun p => p.2) = B at h
  cases A with
  | nil => simp at hx
  | cons a A2 =>
    simp only [List.cons_append, List.cons.injEq, List.append_eq_nil] at h
    obtain ⟨ha, hA, _⟩ := h
    subst hA
    simp at hx
    rw [← hx, ha]

/-- The converse of `entry_friend_spec` for an entry that carries each key with
a single present value. -/
theorem entry_friend_of_single_values (lc : LinphoneCore) (obj : LinphoneLDAPContactProvider)
    (e : LDAPEntry) (n s : String) (la : LinphoneAddress)
    (hne : obj.name_attr ≠ obj.sip_attr)
    (hn : key_values obj.name_attr e = [n]) (hnp : value_present n = true)
    (hs : key_values obj.sip_attr e = [s]) (hsp : value_present s = true)
    (hla : lc.interpret_url s = some la) :
    entry_friend lc obj e = some { name := n, address := la } := by
  have vn := visited_values_of_key_values _ _ e hn hnp
  have vs := visited_values_of_key_values _ _ e hs hsp
  have ln := last_value_of_single _ _ _ vn
  have ls := last_value_of_single _ _ _ vs
  have fn := foldl_feed_name obj (visited_pairs e.attrs) { name := none, sip := none }
  have fs := foldl_feed_sip obj hne (visited_pairs e.attrs) { name := none, sip := none }
  rw [ln] at fn
  rw [ls] at fs
  have h2 : (scan_pairs obj (visited_pairs e.attrs) { name := none, sip := none }).2 = true := by
    cases hc : (scan_pairs obj (visited_pairs e.attrs) { name := none, sip := none }).2 with
    | true => rfl
    | false =>
      have := (scan_pairs_false obj _ _ is_complete_empty hc).2
      unfold is_complete at this
      rw [fn, fs] at this
      simp at this
  obtain ⟨pre, p, post, hl, hd, _, hfull⟩ := scan_pairs_true obj _ _ is_complete_empty h2
  have gn := foldl_feed_name obj (pre ++ [p]) { name := none, sip := none }
  have gs := foldl_feed_sip obj hne (pre ++ [p]) { name := none, sip := none }
  simp only [option_or_none] at gn gs
  unfold is_complete at hfull
  rw [gn, gs] at hfull
  have hl2 : visited_pairs e.attrs = (pre ++ [p]) ++ post := by simp [hl]
  rw [hl2] at vn vs
  cases hvn : last_value obj.name_attr (pre ++ [p]) with
  | none => simp [hvn] at hfull
  | some x =>
    cases hvs : last_value obj.sip_attr (pre ++ [p]) with
    | none => simp [hvs] at hfull
    | some y =>
      have hx := last_value_of_part _ _ _ _ _ vn hvn
      have hy := last_value_of_part _ _ _ _ _ vs hvs
      subst hx
      subst hy
      unfold entry_friend
      simp only [scan_attributes_eq_scan_pairs, h2, if_true, hd, gn, gs, hvn, hvs,
        Option.getD_some, hla]

/-! ### Heap lemmas -/

theorem deref_set_self (heap : List LinphoneLDAPContactSearch) (R : Nat)
    (x : LinphoneLDAPContactSearch) (hR : R < heap.length) :
    deref (heap.set R x) R = x := by
  simp [deref, List.getD_eq_getElem?_getD, hR]

theorem deref_set_other (heap : List LinphoneLDAPContactSearch) (R a : Nat)
    (x : LinphoneLDAPContactSearch) (ha : a ≠ R) :
    deref (heap.set R x) a = deref heap a := by
  simp [deref, List.getD_eq_getElem?_getD, List.getElem?_set_ne (Ne.symm ha)]

theorem set_deref_self (heap : List LinphoneLDAPContactSearch) (R : Nat) :
    heap.set R (deref heap R) = heap := by
  apply List.ext_getElem?
  intro j
  by_cases hj : R = j
  · subst hj
    by_cases hR : R < heap.length
    · simp [deref, List.getD_eq_getElem?_getD, hR]
    · rw [List.set_eq_of_length_le (by omega)]
  · simp [List.getElem?_set_ne hj]

theorem add_records_nil (r : LinphoneLDAPContactSearch) : add_records r [] = r := by
  simp [add_records]

theorem add_records_append (r : LinphoneLDAPContactSearch) (a b : List LinphoneFriend) :
    add_records (add_records r a) b = add_records r (a ++ b) := by
  simp [add_records, Int.add_assoc]

/-- The entry loop for a live request: the friends of the entries are appended
in entry order. -/
theorem handle_entries_spec (lc : LinphoneCore) (obj : LinphoneLDAPContactProvider) (R : Nat) :
    ∀ (entries : List LDAPEntry) (heap : List LinphoneLDAPContactSearch), R < heap.length →
      handle_entries lc obj (some R) entries heap
        = some (heap.set R (add_records (deref heap R)
            (entries.flatMap (fun e => (entry_friend lc obj e).toList)))) := by
  intro entries
  induction entries with
  | nil =>
    intro heap _
    simp [handle_entries, add_records_nil, set_deref_self]
  | cons e rest ih =>
    intro heap hR
    cases hf : entry_friend lc obj e with
    | none =>
      have ht : (none : Option LinphoneFriend).toList = [] := rfl
      simp only [handle_entries, hf, List.flatMap_cons, ht, List.nil_append]
      exact ih heap hR
    | some lf =>
      have ht : (some lf).toList = [lf] := rfl
      simp only [handle_entries, hf, List.flatMap_cons, ht]
      rw [ih _ (by simpa using hR), deref_set_self _ _ _ hR, List.set_set, add_records_append]

theorem last_value_mem (key v : String) (l : List (String × String))
    (h : last_value key l = some v) : (key, v) ∈ l := by
  unfold last_value at h
  have hm := List.mem_of_getLast?_eq_some h
  obtain ⟨p, hp, hpv⟩ := List.mem_map.mp hm
  have hp2 := List.mem_filter.mp hp
  have hk : p.1 = key := by simpa using hp2.2
  have : p = (key, v) := by
    cases p
    simp_all
  rw [← this]
  exact hp2.1

theorem visited_pairs_mem (key v : String) :
    ∀ attrs : List LDAPAttribute, (key, v) ∈ visited_pairs attrs →
      ∃ a ∈ attrs, a.name = key ∧ v ∈ a.values ∧ value_present v = true := by
  intro attrs h
  unfold visited_pairs at h
  obtain ⟨a, ha, hin⟩ := List.mem_flatMap.mp h
  obtain ⟨x, hx, hxe⟩ := List.mem_map.mp hin
  simp only [Prod.mk.injEq] at hxe
  obtain ⟨h1, h2⟩ := hxe
  subst h2
  exact ⟨a, ha, h1, (List.takeWhile_sublist _).subset hx, List.mem_takeWhile_imp hx⟩

/-- A friend comes only from an entry that carries a present name value and a
present address value the parser accepts. -/
theorem entry_friend_sources (lc : LinphoneCore) (obj : LinphoneLDAPContactProvider)
    (e : LDAPEntry) (f : LinphoneFriend) (h : entry_friend lc obj e = some f) :
    (∃ a ∈ e.attrs, a.name = obj.name_attr ∧ f.name ∈ a.values ∧ value_present f.name = true)
    ∧ (∃ a ∈ e.attrs, a.name = obj.sip_attr ∧
        ∃ s ∈ a.values, value_present s = true ∧ lc.interpret_url s = some f.address) := by
  obtain ⟨_, pre, p, post, s, hl, _, hn, hs, hla⟩ := entry_friend_spec lc obj e f h
  have hsub : ∀ q, q ∈ pre ++ [p] → q ∈ visited_pairs e.attrs := by
    intro q hq
    rw [hl]
    rcases List.mem_append.mp hq with h1 | h1
    · exact List.mem_append_left _ h1
    · simp at h1
      subst h1
      simp
  constructor
  · exact visited_pairs_mem _ _ _ (hsub _ (last_value_mem _ _ _ hn))
  · obtain ⟨a, ha, h1, h2, h3⟩ := visited_pairs_mem _ _ _ (hsub _ (last_value_mem _ _ _ hs))
    exact ⟨a, ha, h1, s, h2, h3, hla⟩

/-! ### Result mapper claims -/

/-- C5, refuted as stated: with name key `givenName` and address key `mobile`,
the entry `{givenName: [Bob, Robert], mobile: [sip:bob@example.com]}` has `Bob`
as the value of its first name-key pair, yet the record appended for it is named
`Robert`; and the entry `{mobile: [sip:old@example.com, sip:new@example.com],
givenName: [Bob]}` has `sip:old@example.com` as the value of its first
address-key pair, yet `sip:new@example.com` is what is parsed.  A later value
does overwrite a field that is already set. -/
theorem mapper_first_match_counterexample :
    (entry_pairs entry_two_names).find? (fun p => p.1 = default_provider.name_attr)
        = some ("givenName", "Bob")
    ∧ handle_entries sip_core default_provider (some 0) [entry_two_names] [search_with_id 1]
        = some [{ search_with_id 1 with
            found_entries := [{ name := "Robert", address := { uri := "sip:bob@example.com" } }]
            found_count := 1 }]
    ∧ (entry_pairs entry_two_addresses).find? (fun p => p.1 = default_provider.sip_attr)
        = some ("mobile", "sip:old@example.com")
    ∧ handle_entries sip_core default_provider (some 0) [entry_two_addresses] [search_with_id 1]
        = some [{ search_with_id 1 with
            found_entries := [{ name := "Bob", address := { uri := "sip:new@example.com" } }]
            found_count := 1 }] := by
  decide

/-- C5, amended: when the mapper turns an entry into a friend `f`, the two keys
differ and the visited pairs (per attribute, the values in front of the first
empty one) split as `pre ++ p :: post`, where `pre ++ [p]` is the shortest run
after which both keys have occurred (`pre` lacks one of them); the name of `f`
is the value of the LAST name-key pair of `pre ++ [p]`, and the string handed to
the parser is the value of the LAST address-key pair of `pre ++ [p]`.  The pairs
of `post` are skipped. -/
theorem mapper_fields_last_match (lc : LinphoneCore) (obj : LinphoneLDAPContactProvider)
    (e : LDAPEntry) (f : LinphoneFriend) (h : entry_friend lc obj e = some f) :
    obj.name_attr ≠ obj.sip_attr ∧
    ∃ pre p post s, visited_pairs e.attrs = pre ++ p :: post
      ∧ (last_value obj.name_attr pre = none ∨ last_value obj.sip_attr pre = none)
      ∧ last_value obj.name_attr (pre ++ [p]) = some f.name
      ∧ last_value obj.sip_attr (pre ++ [p]) = some s
      ∧ lc.interpret_url s = some f.address :=
  entry_friend_spec lc obj e f h

/-- C5 amended, at the entry `{givenName: [Bob, Robert], mobile: [sip:bob@example.com]}`. -/
theorem mapper_fields_last_match_witness :
    entry_friend sip_core default_provider entry_two_names
        = some { name := "Robert", address := { uri := "sip:bob@example.com" } }
    ∧ (default_provider.name_attr ≠ default_provider.sip_attr ∧
      ∃ pre p post s, visited_pairs entry_two_names.attrs = pre ++ p :: post
        ∧ (last_value default_provider.name_attr pre = none
            ∨ last_value default_provider.sip_attr pre = none)
        ∧ last_value default_provider.name_attr (pre ++ [p])
            = some (LinphoneFriend.mk "Robert" { uri := "sip:bob@example.com" }).name
        ∧ last_value default_provider.sip_attr (pre ++ [p]) = some s
        ∧ sip_core.interpret_url s
            = some (LinphoneFriend.mk "Robert" { uri := "sip:bob@example.com" }).address) :=
  ⟨by decide, mapper_fields_last_match sip_core default_provider entry_two_names
    { name := "Robert", address := { uri := "sip:bob@example.com" } } (by decide)⟩

/-- C6: for a live request R, a batch of entries appends to R, in entry order,
the concatenation of what each entry appends when processed alone; an entry
appends at most one record; it appends one only if it carries a present value
under the name key and a present value under the address key that the parser
accepts; an entry with no present name value, or whose address values are all
empty or rejected by the parser, appends nothing. -/
theorem handle_entries_batch (lc : LinphoneCore) (obj : LinphoneLDAPContactProvider)
    (heap : List LinphoneLDAPContactSearch) (R : Nat) (entries : List LDAPEntry)
    (hR : R < heap.length) :
    handle_entries lc obj (some R) entries heap
      = some (heap.set R (add_records (deref heap R)
          (entries.flatMap (fun e => (entry_friend lc obj e).toList))))
    ∧ ∀ e : LDAPEntry,
        handle_entries lc obj (some R) [e] heap
          = some (heap.set R (add_records (deref heap R) (entry_friend lc obj e).toList))
        ∧ (entry_friend lc obj e).toList.length ≤ 1
        ∧ (∀ f, entry_friend lc obj e = some f →
            (∃ a ∈ e.attrs, a.name = obj.name_attr ∧ f.name ∈ a.values
              ∧ value_present f.name = true)
            ∧ (∃ a ∈ e.attrs, a.name = obj.sip_attr ∧
                ∃ s ∈ a.values, value_present s = true ∧ lc.interpret_url s = some f.address))
        ∧ (((∀ a ∈ e.attrs, a.name = obj.name_attr → ∀ v ∈ a.values, value_present v = false)
            ∨ (∀ a ∈ e.attrs, a.name = obj.sip_attr →
                ∀ s ∈ a.values, value_present s = false ∨ lc.interpret_url s = none)) →
            entry_friend lc obj e = none) := by
  refine ⟨handle_entries_spec lc obj R entries heap hR, fun e => ⟨?_, ?_, ?_, ?_⟩⟩
  · have := handle_entries_spec lc obj R [e] heap hR
    simpa using this
  · cases entry_friend lc obj e <;> simp
  · exact fun f hf => entry_friend_sources lc obj e f hf
  · intro hlack
    cases hf : entry_friend lc obj e with
    | none => rfl
    | some f =>
      obtain ⟨⟨a, ha, han, hav, hp⟩, ⟨b, hb, hbn, s, hs, hsp, hsl⟩⟩ :=
        entry_friend_sources lc obj e f hf
      rcases hlack with h1 | h1
      · have := h1 a ha han _ hav
        rw [hp] at this
        exact absurd this (by simp)
      · rcases h1 b hb hbn s hs with h2 | h2
        · rw [hsp] at h2
          exact absurd h2 (by simp)
        · rw [hsl] at h2
          exact absurd h2 (by simp)

/-- C6 at a concrete batch: an entry whose address does not parse followed by
the well-formed `entry_bob`, for the request at address 0. -/
theorem handle_entries_batch_witness :
    handle_entries sip_core default_provider (some 0) [entry_unparsable, entry_bob]
        [search_with_id 1]
      = some [{ search_with_id 1 with
          found_entries := [{ name := "Bob", address := { uri := "sip:bob@example.com" } }]
          found_count := 1 }]
    ∧ (handle_entries sip_core default_provider (some 0) [entry_unparsable, entry_bob]
        [search_with_id 1]
      = some ([search_with_id 1].set 0 (add_records (deref [search_with_id 1] 0)
          ([entry_unparsable, entry_bob].flatMap
            (fun e => (entry_friend sip_core default_provider e).toList))))
    ∧ ∀ e : LDAPEntry,
        handle_entries sip_core default_provider (some 0) [e] [search_with_id 1]
          = some ([search_with_id 1].set 0 (add_records (deref [search_with_id 1] 0)
              (entry_friend sip_core default_provider e).toList))
        ∧ (entry_friend sip_core default_provider e).toList.length ≤ 1
        ∧ (∀ f, entry_friend sip_core default_provider e = some f →
            (∃ a ∈ e.attrs, a.name = default_provider.name_attr ∧ f.name ∈ a.values
              ∧ value_present f.name = true)
            ∧ (∃ a ∈ e.attrs, a.name = default_provider.sip_attr ∧
                ∃ s ∈ a.values, value_present s = true
                  ∧ sip_core.interpret_url s = some f.address))
        ∧ (((∀ a ∈ e.attrs, a.name = default_provider.name_attr →
                ∀ v ∈ a.values, value_present v = false)
            ∨ (∀ a ∈ e.attrs, a.name = default_provider.sip_attr →
                ∀ s ∈ a.values, value_present s = false ∨ sip_core.interpret_url s = none)) →
            entry_friend sip_core default_provider e = none)) :=
  ⟨by decide, handle_entries_batch sip_core default_provider [search_with_id 1] 0
    [entry_unparsable, entry_bob] (by decide)⟩

/-- C7: with distinct name and address keys, an entry message whose entry
carries each key with exactly one value, both present, the address accepted by
the parser with result `la`, appends to the live owning request R exactly the
record (name value, `la`) and raises its found-count by one; every other object,
the provider and the trace are unchanged. -/
theorem entry_with_both_keys_appends_one_record (lc : LinphoneCore) (m : Machine) (R : Nat)
    (id : Int) (e : LDAPEntry) (n s : String) (la : LinphoneAddress)
    (hne : m.obj.name_attr ≠ m.obj.sip_attr) (hR : R < m.heap.length)
    (hn : key_values m.obj.name_attr e = [n]) (hnp : value_present n = true)
    (hs : key_values m.obj.sip_attr e = [s]) (hsp : value_present s = true)
    (hla : lc.interpret_url s = some la) :
    ∃ m1 : Machine,
      linphone_ldap_contact_provider_handle_search_result lc m (some R)
          { msgid := id, msgtype := LDAP_RES_SEARCH_ENTRY, entries := [e] } = some m1
      ∧ (deref m1.heap R).found_entries
          = (deref m.heap R).found_entries ++ [{ name := n, address := la }]
      ∧ (deref m1.heap R).found_count = (deref m.heap R).found_count + 1
      ∧ (∀ a, a ≠ R → deref m1.heap a = deref m.heap a)
      ∧ m1.obj = m.obj ∧ m1.trace = m.trace := by
  have hf := entry_friend_of_single_values lc m.obj e n s la hne hn hnp hs hsp hla
  have hh := handle_entries_spec lc m.obj R [e] m.heap hR
  have ht : (some ({ name := n, address := la } : LinphoneFriend)).toList
      = [{ name := n, address := la }] := rfl
  simp only [List.flatMap_cons, List.flatMap_nil, hf, ht, List.append_nil] at hh
  refine ⟨{ m with
      heap := (m.heap.set R (add_records (deref m.heap R) [{ name := n, address := la }])) },
    ?_, ?_, ?_, ?_, rfl, rfl⟩
  · simp [linphone_ldap_contact_provider_handle_search_result, hh]
  · simp [deref_set_self _ _ _ hR, add_records]
  · simp [deref_set_self _ _ _ hR, add_records]
  · intro a ha
    exact deref_set_other _ _ _ _ ha

/-- C7 at the entry `{givenName: Bob, mobile: sip:bob@example.com}` with name
key `givenName` and address key `mobile`. -/
theorem entry_with_both_keys_appends_one_record_witness :
    ∃ m1 : Machine,
      linphone_ldap_contact_provider_handle_search_result sip_core machine_one_request (some 0)
          { msgid := 1, msgtype := LDAP_RES_SEARCH_ENTRY, entries := [entry_bob] } = some m1
      ∧ (deref m1.heap 0).found_entries
          = (deref machine_one_request.heap 0).found_entries
              ++ [{ name := "Bob", address := { uri := "sip:bob@example.com" } }]
      ∧ (deref m1.heap 0).found_count = (deref machine_one_request.heap 0).found_count + 1
      ∧ (∀ a, a ≠ 0 → deref m1.heap a = deref machine_one_request.heap a)
      ∧ m1.obj = machine_one_request.obj ∧ m1.trace = machine_one_request.trace :=
  entry_with_both_keys_appends_one_record sip_core machine_one_request 0 1 entry_bob
    "Bob" "sip:bob@example.com" { uri := "sip:bob@example.com" }
    (by decide) (by decide) (by decide) (by decide) (by decide) (by decide) (by decide)

/-! ### Dispatch lemmas -/

/-- The weak lookup finds a request holding the id, and the strong lookup of
that request, in any heap with the same message ids, finds the same list
element. -/
theorem find_custom_weak_then_strong (heap : List LinphoneLDAPContactSearch)
    (dummy : LinphoneLDAPContactSearch) :
    ∀ (l : List Nat) (i : Nat),
      ms_list_find_custom l
        (fun a b => linphone_ldap_request_entry_compare_weak (deref heap a) b) dummy = some i →
      ∃ R, l.get? i = some R ∧ R ∈ l ∧ (deref heap R).msgid = dummy.msgid
        ∧ l.eraseIdx i = l.erase R
        ∧ ∀ heap2 : List LinphoneLDAPContactSearch,
            (∀ a, (deref heap2 a).msgid = (deref heap a).msgid) →
            ms_list_find_custom l (linphone_ldap_request_entry_compare_strong heap2) R
              = some i := by
  intro l
  induction l with
  | nil => intro i h; simp [ms_list_find_custom] at h
  | cons x rest ih =>
    intro i h
    by_cases hx : (deref heap x).msgid = dummy.msgid
    · have hi : i = 0 := by
        simp [ms_list_find_custom, linphone_ldap_request_entry_compare_weak, hx] at h
        exact h.symm
      subst hi
      refine ⟨x, by simp, by simp, hx, by simp, ?_⟩
      intro heap2 _
      simp [ms_list_find_custom, linphone_ldap_request_entry_compare_strong]
    · simp only [ms_list_find_custom, linphone_ldap_request_entry_compare_weak, hx,
        if_false] at h
      have h1 : (1 : Int) ≠ 0 := by decide
      simp only [h1, if_false, Option.map_eq_some'] at h
      obtain ⟨j, hj, hji⟩ := h
      obtain ⟨R, hget, hmem, hid, hers, hstrong⟩ := ih j hj
      subst hji
      have hxR : x ≠ R := by
        intro hxr
        apply hx
        rw [hxr, hid]
      refine ⟨R, by simpa using hget, List.mem_cons_of_mem _ hmem, hid, ?_, ?_⟩
      · have hbeq : (x == R) = false := by simpa using hxR
        simp [List.eraseIdx_cons_succ, List.erase_cons, hbeq, hers]
      · intro heap2 h2
        have hne : (deref heap2 x).msgid ≠ (deref heap2 R).msgid := by
          rw [h2 x, h2 R, hid]
          exact hx
        simp [ms_list_find_custom, linphone_ldap_request_entry_compare_strong, hne, hxR,
          hstrong heap2 h2]

/-- With pairwise-distinct ids, the lookup by the id of a registered request
returns that request. -/
theorem find_custom_weak_of_nodup (heap : List LinphoneLDAPContactSearch)
    (dummy : LinphoneLDAPContactSearch) (R : Nat) :
    ∀ l : List Nat, (l.map (fun a => (deref heap a).msgid)).Nodup → R ∈ l →
      (deref heap R).msgid = dummy.msgid →
      ∃ i, ms_list_find_custom l
          (fun a b => linphone_ldap_request_entry_compare_weak (deref heap a) b) dummy = some i
        ∧ l.get? i = some R := by
  intro l
  induction l with
  | nil => intro _ h; simp at h
  | cons x rest ih =>
    intro hnd hR hid
    by_cases hx : x = R
    · subst hx
      exact ⟨0, by simp [ms_list_find_custom, linphone_ldap_request_entry_compare_weak, hid],
        by simp⟩
    · have hR2 : R ∈ rest := by
        rcases List.mem_cons.mp hR with h | h
        · exact absurd h.symm hx
        · exact h
      rw [List.map_cons, List.nodup_cons] at hnd
      have hne : (deref heap x).msgid ≠ dummy.msgid := by
        intro h
        apply hnd.1
        rw [h, ← hid]
        exact List.mem_map.mpr ⟨R, hR2, rfl⟩
      obtain ⟨i, hi, hg⟩ := ih hnd.2 hR2 hid
      refine ⟨i + 1, ?_, by simpa using hg⟩
      simp only [ms_list_find_custom]
      rw [if_neg (by simp [linphone_ldap_request_entry_compare_weak, hne]), hi]
      rfl

theorem entry_search_of_nodup (m : Machine) (R : Nat) (M : Int)
    (hids : (m.obj.requests.map (fun a => (deref m.heap a).msgid)).Nodup)
    (hR : R ∈ m.obj.requests) (hid : (deref m.heap R).msgid = M) :
    linphone_ldap_request_entry_search m M = some R := by
  obtain ⟨i, hi, hg⟩ := find_custom_weak_of_nodup m.heap
    { (default : LinphoneLDAPContactSearch) with msgid := M } R m.obj.requests hids hR hid
  simp only [linphone_ldap_request_entry_search, hi]
  exact hg

/-- Cancelling, in a heap with the same message ids, the request that the
lookup by id returned removes that very request. -/
theorem cancel_after_entry_search (m m1 : Machine) (R : Nat) (M : Int)
    (hreq : linphone_ldap_request_entry_search m M = some R)
    (hobj : m1.obj = m.obj)
    (hids : ∀ a, (deref m1.heap a).msgid = (deref m.heap a).msgid) :
    R ∈ m.obj.requests ∧ (deref m.heap R).msgid = M ∧
    linphone_ldap_contact_provider_cancel_search m1 R =
      ({ m1 with obj := { m.obj with
            requests := m.obj.requests.erase R
            req_count := (m.obj.req_count + UINT_MOD - 1) % UINT_MOD } }, 0) := by
  unfold linphone_ldap_request_entry_search at hreq
  simp only [] at hreq
  cases hf : ms_list_find_custom m.obj.requests
      (fun a b => linphone_ldap_request_entry_compare_weak (deref m.heap a) b)
      { (default : LinphoneLDAPContactSearch) with msgid := M } with
  | none => simp [hf] at hreq
  | some i =>
    simp only [hf] at hreq
    obtain ⟨R2, hget, hmem, hid, hers, hstrong⟩ :=
      find_custom_weak_then_strong m.heap _ m.obj.requests i hf
    have hRR : R2 = R := by
      rw [hget] at hreq
      exact Option.some.inj hreq
    subst hRR
    refine ⟨hmem, hid, ?_⟩
    simp [linphone_ldap_contact_provider_cancel_search, hobj, hstrong m1.heap hids,
      ms_list_remove_link, hers]

theorem handle_search_result_entries (lc : LinphoneCore) (m : Machine) (R : Nat)
    (x : LDAPMessage) (hR : R < m.heap.length)
    (hx : x.msgtype = LDAP_RES_SEARCH_ENTRY ∨ x.msgtype = LDAP_RES_EXTENDED) :
    linphone_ldap_contact_provider_handle_search_result lc m (some R) x
      = some { m with heap := m.heap.set R (add_records (deref m.heap R)
          (x.entries.flatMap (fun e => (entry_friend lc m.obj e).toList))) } := by
  unfold linphone_ldap_contact_provider_handle_search_result
  rw [if_pos hx, handle_entries_spec lc m.obj R x.entries m.heap hR]

theorem handle_search_result_terminal (lc : LinphoneCore) (m : Machine) (R : Nat)
    (x : LDAPMessage) (hx : x.msgtype = LDAP_RES_SEARCH_RESULT) :
    linphone_ldap_contact_provider_handle_search_result lc m (some R) x
      = some { m with
          heap := m.heap.set R { deref m.heap R with complete := true }
          trace := m.trace ++ [Event.invoke_cb (deref m.heap R).base.cb R
            (deref m.heap R).found_entries (deref m.heap R).base.data] } := by
  unfold linphone_ldap_contact_provider_handle_search_result
  have h1 : ¬ (x.msgtype = LDAP_RES_SEARCH_ENTRY ∨ x.msgtype = LDAP_RES_EXTENDED) := by
    rw [hx]; decide
  rw [if_neg h1, if_pos hx]

theorem handle_search_result_other (lc : LinphoneCore) (m : Machine) (req : Option Nat)
    (x : LDAPMessage)
    (h1 : ¬ (x.msgtype = LDAP_RES_SEARCH_ENTRY ∨ x.msgtype = LDAP_RES_EXTENDED))
    (h2 : x.msgtype ≠ LDAP_RES_SEARCH_RESULT) :
    linphone_ldap_contact_provider_handle_search_result lc m req x = some m := by
  unfold linphone_ldap_contact_provider_handle_search_result
  rw [if_neg h1, if_neg h2]

theorem batch_records_cons (lc : LinphoneCore) (obj : LinphoneLDAPContactProvider)
    (x : LDAPMessage) (rest : List LDAPMessage) :
    batch_records lc obj (x :: rest)
      = (if x.msgtype = LDAP_RES_SEARCH_ENTRY ∨ x.msgtype = LDAP_RES_EXTENDED then
          x.entries.flatMap (fun e => (entry_friend lc obj e).toList) else [])
        ++ batch_records lc obj rest := by
  simp [batch_records]

/-- A chain without terminal message, handled for a live request: the friends
of the chain are appended, nothing else changes. -/
theorem handle_messages_no_terminal (lc : LinphoneCore) (R : Nat) :
    ∀ (msgs : List LDAPMessage) (m : Machine), R < m.heap.length →
      (∀ x ∈ msgs, x.msgtype ≠ LDAP_RES_SEARCH_RESULT) →
      handle_messages lc (some R) msgs m
        = some { m with heap := m.heap.set R (add_records (deref m.heap R)
            (batch_records lc m.obj msgs)) } := by
  intro msgs
  induction msgs with
  | nil =>
    intro m _ _
    simp [handle_messages, batch_records, add_records_nil, set_deref_self]
  | cons x rest ih =>
    intro m hR hnt
    have hx2 : x.msgtype ≠ LDAP_RES_SEARCH_RESULT := hnt x (by simp)
    have hrest : ∀ y ∈ rest, y.msgtype ≠ LDAP_RES_SEARCH_RESULT :=
      fun y hy => hnt y (List.mem_cons_of_mem _ hy)
    rw [batch_records_cons]
    by_cases hx : x.msgtype = LDAP_RES_SEARCH_ENTRY ∨ x.msgtype = LDAP_RES_EXTENDED
    · simp only [handle_messages, handle_search_result_entries lc m R x hR hx, if_pos hx]
      rw [ih _ (by simpa using hR) hrest]
      simp only [deref_set_self _ _ _ hR, List.set_set, add_records_append]
    · simp only [handle_messages, handle_search_result_other lc m (some R) x hx hx2, if_neg hx,
        List.nil_append]
      exact ih m hR hrest

theorem handle_messages_append (lc : LinphoneCore) (req : Option Nat) :
    ∀ (l1 l2 : List LDAPMessage) (m : Machine),
      handle_messages lc req (l1 ++ l2) m
        = (handle_messages lc req l1 m).bind (handle_messages lc req l2) := by
  intro l1
  induction l1 with
  | nil => intro l2 m; rfl
  | cons x rest ih =>
    intro l2 m
    cases h : linphone_ldap_contact_provider_handle_search_result lc m req x with
    | none => simp [handle_messages, h]
    | some m1 => simp [handle_messages, h, ih]

/-- The dispatch of a search-kind poll whose chain is not empty. -/
theorem iterate_search_kind (lc : LinphoneCore) (poll : PollResult) (m : Machine)
    (first : LDAPMessage) (tl : List LDAPMessage)
    (hld : m.obj.ld ≠ 0) (hpend : m.obj.req_count > 0 ∨ m.obj.bind_msgid ≠ 0)
    (hkind : poll.ret = LDAP_RES_EXTENDED ∨ poll.ret = LDAP_RES_SEARCH_ENTRY
      ∨ poll.ret = LDAP_RES_SEARCH_REFERENCE ∨ poll.ret = LDAP_RES_INTERMEDIATE
      ∨ poll.ret = LDAP_RES_SEARCH_RESULT)
    (hres : poll.results = first :: tl) :
    linphone_ldap_contact_provider_iterate lc poll m
      = match handle_messages lc (linphone_ldap_request_entry_search m first.msgid)
            poll.results { m with trace := m.trace ++ [Event.ldap_result] } with
        | none => none
        | some m1 =>
          match linphone_ldap_request_entry_search m first.msgid with
          | some a =>
            if poll.ret = LDAP_RES_SEARCH_RESULT then
              some ((linphone_ldap_contact_provider_cancel_search m1 a).1, true)
            else some (m1, true)
          | none => some (m1, true) := by
  have h1 : poll.ret ≠ -1 := by
    rcases hkind with h | h | h | h | h <;> rw [h] <;> decide
  have h2 : poll.ret ≠ 0 := by
    rcases hkind with h | h | h | h | h <;> rw [h] <;> decide
  have h3 : poll.ret ≠ LDAP_RES_BIND := by
    rcases hkind with h | h | h | h | h <;> rw [h] <;> decide
  unfold linphone_ldap_contact_provider_iterate
  rw [if_pos ⟨hld, hpend⟩]
  simp only [if_neg h1, if_neg h2, if_neg h3, if_pos hkind, hres]
  rfl

theorem msgid_set_same (heap : List LinphoneLDAPContactSearch) (R : Nat)
    (x : LinphoneLDAPContactSearch) (hx : x.msgid = (deref heap R).msgid) (a : Nat) :
    (deref (heap.set R x) a).msgid = (deref heap a).msgid := by
  by_cases ha : a = R
  · subst ha
    by_cases hR : a < heap.length
    · rw [deref_set_self _ _ _ hR, hx]
    · rw [List.set_eq_of_length_le (by omega)]
  · rw [deref_set_other _ _ _ _ ha]

/-- A poll of kind `LDAP_RES_SEARCH_RESULT` whose chain holds one terminal
message and whose first id is found in the registry: the whole tick. -/
theorem iterate_terminal_core (lc : LinphoneCore) (m : Machine) (poll : PollResult) (R : Nat)
    (first t : LDAPMessage) (pre post : List LDAPMessage)
    (hld : m.obj.ld ≠ 0) (hpend : m.obj.req_count > 0 ∨ m.obj.bind_msgid ≠ 0)
    (hret : poll.ret = LDAP_RES_SEARCH_RESULT)
    (hres : poll.results = pre ++ t :: post)
    (hfirst : poll.results.head? = some first)
    (hreq : linphone_ldap_request_entry_search m first.msgid = some R)
    (hR : R < m.heap.length)
    (ht : t.msgtype = LDAP_RES_SEARCH_RESULT)
    (hpre : ∀ x ∈ pre, x.msgtype ≠ LDAP_RES_SEARCH_RESULT)
    (hpost : ∀ x ∈ post, x.msgtype ≠ LDAP_RES_SEARCH_RESULT) :
    linphone_ldap_contact_provider_iterate lc poll m
      = some ({ heap := m.heap.set R (add_records
                  { add_records (deref m.heap R) (batch_records lc m.obj pre) with
                    complete := true }
                  (batch_records lc m.obj post)),
                obj := { m.obj with
                  requests := m.obj.requests.erase R
                  req_count := (m.obj.req_count + UINT_MOD - 1) % UINT_MOD },
                trace := m.trace ++ [Event.ldap_result,
                  Event.invoke_cb (deref m.heap R).base.cb R
                    ((deref m.heap R).found_entries ++ batch_records lc m.obj pre)
                    (deref m.heap R).base.data] }, true) := by
  obtain ⟨tl, htl⟩ : ∃ tl, poll.results = first :: tl := by
    cases hp : poll.results with
    | nil => rw [hp] at hfirst; simp at hfirst
    | cons a tl =>
      rw [hp] at hfirst
      simp at hfirst
      exact ⟨tl, by rw [hfirst]⟩
  rw [iterate_search_kind lc poll m first tl hld hpend
    (Or.inr (Or.inr (Or.inr (Or.inr hret)))) htl, hreq, hres, handle_messages_append]
  obtain ⟨ma, h1, ha_heap, ha_obj, ha_tr⟩ : ∃ ma : Machine,
      handle_messages lc (some R) pre { m with trace := m.trace ++ [Event.ldap_result] } = some ma
      ∧ ma.heap = m.heap.set R (add_records (deref m.heap R) (batch_records lc m.obj pre))
      ∧ ma.obj = m.obj ∧ ma.trace = m.trace ++ [Event.ldap_result] :=
    ⟨_, handle_messages_no_terminal lc R pre
      { m with trace := m.trace ++ [Event.ldap_result] } hR hpre, rfl, rfl, rfl⟩
  rw [h1]
  simp only [Option.some_bind, handle_messages]
  obtain ⟨mb, h2, hb_heap, hb_obj, hb_tr⟩ : ∃ mb : Machine,
      linphone_ldap_contact_provider_handle_search_result lc ma (some R) t = some mb
      ∧ mb.heap = ma.heap.set R { deref ma.heap R with complete := true }
      ∧ mb.obj = ma.obj
      ∧ mb.trace = ma.trace ++ [Event.invoke_cb (deref ma.heap R).base.cb R
            (deref ma.heap R).found_entries (deref ma.heap R).base.data] :=
    ⟨_, handle_search_result_terminal lc ma R t ht, rfl, rfl, rfl⟩
  rw [h2]
  simp only []
  have hRa : R < ma.heap.length := by rw [ha_heap]; simpa using hR
  have hRb : R < mb.heap.length := by rw [hb_heap]; simpa using hRa
  obtain ⟨mc, h3, hc_heap, hc_obj, hc_tr⟩ : ∃ mc : Machine,
      handle_messages lc (some R) post mb = some mc
      ∧ mc.heap = mb.heap.set R (add_records (deref mb.heap R) (batch_records lc mb.obj post))
      ∧ mc.obj = mb.obj ∧ mc.trace = mb.trace :=
    ⟨_, handle_messages_no_terminal lc R post mb hRb hpost, rfl, rfl, rfl⟩
  rw [h3]
  simp only [if_pos hret]
  have hda : deref ma.heap R = add_records (deref m.heap R) (batch_records lc m.obj pre) := by
    rw [ha_heap, deref_set_self _ _ _ hR]
  have hdb : deref mb.heap R
      = { add_records (deref m.heap R) (batch_records lc m.obj pre) with complete := true } := by
    rw [hb_heap, deref_set_self _ _ _ hRa, hda]
  have hheap : mc.heap = m.heap.set R (add_records
      { add_records (deref m.heap R) (batch_records lc m.obj pre) with complete := true }
      (batch_records lc m.obj post)) := by
    rw [hc_heap, hdb, hb_heap, ha_heap, List.set_set, List.set_set, hb_obj, ha_obj]
  have hobj : mc.obj = m.obj := by rw [hc_obj, hb_obj, ha_obj]
  have htrace : mc.trace = m.trace ++ [Event.ldap_result,
      Event.invoke_cb (deref m.heap R).base.cb R
        ((deref m.heap R).found_entries ++ batch_records lc m.obj pre)
        (deref m.heap R).base.data] := by
    rw [hc_tr, hb_tr, ha_tr, hda]
    simp [add_records]
  have hids : ∀ a, (deref mc.heap a).msgid = (deref m.heap a).msgid := by
    rw [hheap]
    exact msgid_set_same _ _ _ rfl
  rw [(cancel_after_entry_search m mc R first.msgid hreq hobj hids).2.2]
  simp only [Option.some.injEq, Prod.mk.injEq, Machine.mk.injEq, and_true]
  exact ⟨hheap, trivial, htrace⟩

theorem iterate_all_append (lc : LinphoneCore) :
    ∀ (l1 l2 : List PollResult) (m : Machine),
      iterate_all lc (l1 ++ l2) m = (iterate_all lc l1 m).bind (iterate_all lc l2) := by
  intro l1
  induction l1 with
  | nil => intro l2 m; rfl
  | cons x rest ih =>
    intro l2 m
    cases h : linphone_ldap_contact_provider_iterate lc x m with
    | none => simp [iterate_all, h]
    | some r => simp [iterate_all, h, ih]

/-- One tick that polls a single entry message for the id of the live
registered request R. -/
theorem iterate_entry_tick (lc : LinphoneCore) (m : Machine) (R : Nat) (M : Int)
    (e : LDAPEntry) (hld : m.obj.ld ≠ 0) (hc : 0 < m.obj.req_count)
    (hreq : linphone_ldap_request_entry_search m M = some R) (hR : R < m.heap.length) :
    linphone_ldap_contact_provider_iterate lc (entry_poll M e) m
      = some ({ heap := m.heap.set R (add_records (deref m.heap R)
                  (entry_friend lc m.obj e).toList),
                obj := m.obj,
                trace := m.trace ++ [Event.ldap_result] }, true) := by
  rw [iterate_search_kind lc (entry_poll M e) m
    { msgid := M, msgtype := LDAP_RES_SEARCH_ENTRY, entries := [e] } [] hld (Or.inl hc)
    (Or.inr (Or.inl rfl)) rfl, hreq]
  simp only [entry_poll, handle_messages]
  rw [handle_search_result_entries lc { m with trace := m.trace ++ [Event.ldap_result] } R
    { msgid := M, msgtype := LDAP_RES_SEARCH_ENTRY, entries := [e] } hR (Or.inl rfl)]
  simp only [List.flatMap_cons, List.flatMap_nil, List.append_nil]
  rw [if_neg (by decide)]

/-- Ticks that poll, one message per tick, entry messages for the id of the
live registered request R, the ids of the registry being pairwise distinct. -/
theorem iterate_all_entries (lc : LinphoneCore) (R : Nat) (M : Int) :
    ∀ (entries : List LDAPEntry) (m : Machine), m.obj.ld ≠ 0 → 0 < m.obj.req_count →
      (m.obj.requests.map (fun a => (deref m.heap a).msgid)).Nodup → R ∈ m.obj.requests →
      R < m.heap.length → (deref m.heap R).msgid = M →
      iterate_all lc (entries.map (entry_poll M)) m
        = some { heap := m.heap.set R (add_records (deref m.heap R)
                    (entries.flatMap (fun e => (entry_friend lc m.obj e).toList))),
                 obj := m.obj,
                 trace := m.trace ++ List.replicate entries.length Event.ldap_result } := by
  intro entries
  induction entries with
  | nil =>
    intro m _ _ _ _ _ _
    simp [iterate_all, add_records_nil, set_deref_self]
  | cons e rest ih =>
    intro m hld hc hids hmem hR hid
    have hreq := entry_search_of_nodup m R M hids hmem hid
    simp only [List.map_cons, iterate_all, iterate_entry_tick lc m R M e hld hc hreq hR]
    have hfun : (fun a => (deref (m.heap.set R (add_records (deref m.heap R)
        (entry_friend lc m.obj e).toList)) a).msgid) = (fun a => (deref m.heap a).msgid) := by
      funext a
      exact msgid_set_same m.heap R
        (add_records (deref m.heap R) (entry_friend lc m.obj e).toList) rfl a
    have hstep := ih
      { heap := m.heap.set R (add_records (deref m.heap R) (entry_friend lc m.obj e).toList),
        obj := m.obj, trace := m.trace ++ [Event.ldap_result] }
      hld hc (by simp only [hfun]; exact hids) hmem (by simpa using hR)
      (by simp only [deref_set_self _ _ _ hR]; exact hid)
    rw [hstep]
    simp only [deref_set_self _ _ _ hR, List.set_set, add_records_append, List.flatMap_cons,
      List.length_cons, List.replicate_succ, List.append_assoc, List.singleton_append]

/-- The friends of entries that carry each key with a single present value, the
address accepted by the parser: one per entry, in entry order. -/
theorem friends_of_single_valued_entries (lc : LinphoneCore)
    (obj : LinphoneLDAPContactProvider) (hne : obj.name_attr ≠ obj.sip_attr) :
    ∀ entries : List LDAPEntry,
      (∀ e ∈ entries, ∃ n s la, key_values obj.name_attr e = [n] ∧ value_present n = true
        ∧ key_values obj.sip_attr e = [s] ∧ value_present s = true
        ∧ lc.interpret_url s = some la) →
      List.Forall₂ (fun e f => key_values obj.name_attr e = [f.name]
          ∧ ∃ s, key_values obj.sip_attr e = [s] ∧ lc.interpret_url s = some f.address)
        entries (entries.flatMap (fun e => (entry_friend lc obj e).toList)) := by
  intro entries
  induction entries with
  | nil => intro _; exact List.Forall₂.nil
  | cons e rest ih =>
    intro hwf
    obtain ⟨n, s, la, hn, hnp, hs, hsp, hla⟩ := hwf e (by simp)
    have hf := entry_friend_of_single_values lc obj e n s la hne hn hnp hs hsp hla
    have ht : (some ({ name := n, address := la } : LinphoneFriend)).toList
        = [{ name := n, address := la }] := rfl
    rw [List.flatMap_cons, hf, ht, List.singleton_append]
    exact List.Forall₂.cons ⟨hn, s, hs, hla⟩
      (ih (fun e2 he2 => hwf e2 (List.mem_cons_of_mem _ he2)))

/-! ### Dispatch claims -/

/-- C4: `ldap_result` is called with `LDAP_MSG_ONE`, so a polled batch that
holds a terminal message is that single message and the returned value is its
type, `LDAP_RES_SEARCH_RESULT`.  For every poll with that returned value whose
first message id is found in the registry as the live request R and whose
chain holds one terminal message, wherever it stands (`pre ++ t :: post`, with
`pre = post = []` for the single message): the tick returns `TRUE`, R was
registered and is marked complete, the trace gains the poll and exactly one
callback invocation for R, carrying the sequence R has accumulated when the
terminal message is handled, the registry is the previous one with R erased,
and no other object changes. -/
theorem iterate_terminal_batch (lc : LinphoneCore) (m : Machine) (poll : PollResult) (R : Nat)
    (first t : LDAPMessage) (pre post : List LDAPMessage)
    (hld : m.obj.ld ≠ 0) (hpend : m.obj.req_count > 0 ∨ m.obj.bind_msgid ≠ 0)
    (hret : poll.ret = LDAP_RES_SEARCH_RESULT)
    (hres : poll.results = pre ++ t :: post)
    (hfirst : poll.results.head? = some first)
    (hreq : linphone_ldap_request_entry_search m first.msgid = some R)
    (hR : R < m.heap.length)
    (ht : t.msgtype = LDAP_RES_SEARCH_RESULT)
    (hpre : ∀ x ∈ pre, x.msgtype ≠ LDAP_RES_SEARCH_RESULT)
    (hpost : ∀ x ∈ post, x.msgtype ≠ LDAP_RES_SEARCH_RESULT) :
    ∃ m1 : Machine,
      linphone_ldap_contact_provider_iterate lc poll m = some (m1, true)
      ∧ R ∈ m.obj.requests
      ∧ (deref m1.heap R).complete = true
      ∧ m1.trace = m.trace ++ [Event.ldap_result,
          Event.invoke_cb (deref m.heap R).base.cb R
            ((deref m.heap R).found_entries ++ batch_records lc m.obj pre)
            (deref m.heap R).base.data]
      ∧ (deref m1.heap R).found_entries
          = (deref m.heap R).found_entries ++ batch_records lc m.obj pre
              ++ batch_records lc m.obj post
      ∧ m1.obj.requests = m.obj.requests.erase R
      ∧ (m.obj.requests.Nodup → R ∉ m1.obj.requests)
      ∧ (∀ a, a ≠ R → deref m1.heap a = deref m.heap a) := by
  refine ⟨_, iterate_terminal_core lc m poll R first t pre post hld hpend hret hres hfirst hreq
    hR ht hpre hpost, ?_, ?_, rfl, ?_, rfl, ?_, ?_⟩
  · exact (cancel_after_entry_search m m R first.msgid hreq rfl (fun _ => rfl)).1
  · simp [deref_set_self _ _ _ hR, add_records]
  · simp [deref_set_self _ _ _ hR, add_records]
  · intro hnd h
    exact ((List.Nodup.mem_erase_iff hnd).mp h).1 rfl
  · intro a ha
    exact deref_set_other _ _ _ _ ha

/-- C4 at the single terminal message for id 1, polled while the request at
address 0 of `machine_with_record` holds one record, and at a chain
`[entry, terminal, entry]` for the request at address 0 of
`machine_one_request`. -/
theorem iterate_terminal_batch_witness :
    (∃ m1 : Machine,
      linphone_ldap_contact_provider_iterate sip_core (terminal_poll 1)
          machine_with_record = some (m1, true)
      ∧ 0 ∈ machine_with_record.obj.requests
      ∧ (deref m1.heap 0).complete = true
      ∧ m1.trace = machine_with_record.trace ++ [Event.ldap_result,
          Event.invoke_cb (deref machine_with_record.heap 0).base.cb 0
            ((deref machine_with_record.heap 0).found_entries
              ++ batch_records sip_core machine_with_record.obj [])
            (deref machine_with_record.heap 0).base.data]
      ∧ (deref m1.heap 0).found_entries
          = (deref machine_with_record.heap 0).found_entries
              ++ batch_records sip_core machine_with_record.obj []
              ++ batch_records sip_core machine_with_record.obj []
      ∧ m1.obj.requests = machine_with_record.obj.requests.erase 0
      ∧ (machine_with_record.obj.requests.Nodup → 0 ∉ m1.obj.requests)
      ∧ (∀ a, a ≠ 0 → deref m1.heap a = deref machine_with_record.heap a))
    ∧ (linphone_ldap_contact_provider_iterate sip_core (terminal_poll 1)
          machine_with_record).map
        (fun r => ((deref r.1.heap 0).complete, r.1.obj.requests, r.1.trace))
        = some (true, [],
            [Event.ldap_result,
             Event.invoke_cb 0 0
               [{ name := "Bob", address := { uri := "sip:bob@example.com" } }] 0])
    ∧ ∃ m1 : Machine,
      linphone_ldap_contact_provider_iterate sip_core poll_terminal_in_the_middle
          machine_one_request = some (m1, true)
      ∧ 0 ∈ machine_one_request.obj.requests
      ∧ (deref m1.heap 0).complete = true
      ∧ m1.trace = machine_one_request.trace ++ [Event.ldap_result,
          Event.invoke_cb (deref machine_one_request.heap 0).base.cb 0
            ((deref machine_one_request.heap 0).found_entries
              ++ batch_records sip_core machine_one_request.obj
                [{ msgid := 1, msgtype := LDAP_RES_SEARCH_ENTRY, entries := [entry_bob] }])
            (deref machine_one_request.heap 0).base.data]
      ∧ (deref m1.heap 0).found_entries
          = (deref machine_one_request.heap 0).found_entries
              ++ batch_records sip_core machine_one_request.obj
                [{ msgid := 1, msgtype := LDAP_RES_SEARCH_ENTRY, entries := [entry_bob] }]
              ++ batch_records sip_core machine_one_request.obj
                [{ msgid := 1, msgtype := LDAP_RES_SEARCH_ENTRY, entries := [entry_two_names] }]
      ∧ m1.obj.requests = machine_one_request.obj.requests.erase 0
      ∧ (machine_one_request.obj.requests.Nodup → 0 ∉ m1.obj.requests)
      ∧ (∀ a, a ≠ 0 → deref m1.heap a = deref machine_one_request.heap a) :=
  ⟨iterate_terminal_batch sip_core machine_with_record (terminal_poll 1) 0
      { msgid := 1, msgtype := LDAP_RES_SEARCH_RESULT, entries := [] }
      { msgid := 1, msgtype := LDAP_RES_SEARCH_RESULT, entries := [] } [] []
      (by decide) (by decide) rfl rfl rfl (by decide) (by decide) rfl
      (fun _ h => absurd h (List.not_mem_nil _)) (fun _ h => absurd h (List.not_mem_nil _)),
    by decide,
    iterate_terminal_batch sip_core machine_one_request poll_terminal_in_the_middle 0
      { msgid := 1, msgtype := LDAP_RES_SEARCH_ENTRY, entries := [entry_bob] }
      { msgid := 1, msgtype := LDAP_RES_SEARCH_RESULT, entries := [] }
      [{ msgid := 1, msgtype := LDAP_RES_SEARCH_ENTRY, entries := [entry_bob] }]
      [{ msgid := 1, msgtype := LDAP_RES_SEARCH_ENTRY, entries := [entry_two_names] }]
      (by decide) (by decide) (by decide) (by decide) (by decide) (by decide) (by decide)
      (by decide) (by decide) (by decide)⟩

/-- C3, refuted as stated: under a configuration whose name key and address
key are both `mobile`, the registered request 0 (id 1, no results yet) is sent
one entry `{mobile: sip:bob@example.com}`, which carries one present name value
and one present address value that the parser accepts, then the terminal
message; the callback is invoked with no record at all, not with one. -/
theorem iterate_entries_then_terminal_counterexample :
    (machine_same_key.obj.requests.map (fun a => (deref machine_same_key.heap a).msgid)).Nodup
    ∧ 0 ∈ machine_same_key.obj.requests
    ∧ (deref machine_same_key.heap 0).msgid = 1
    ∧ (deref machine_same_key.heap 0).found_entries = []
    ∧ key_values machine_same_key.obj.name_attr entry_mobile_only = ["sip:bob@example.com"]
    ∧ key_values machine_same_key.obj.sip_attr entry_mobile_only = ["sip:bob@example.com"]
    ∧ value_present "sip:bob@example.com" = true
    ∧ sip_core.interpret_url "sip:bob@example.com" = some { uri := "sip:bob@example.com" }
    ∧ (iterate_all sip_core ([entry_mobile_only].map (entry_poll 1) ++ [terminal_poll 1])
        machine_same_key).map (fun m1 => m1.trace)
        = some [Event.ldap_result, Event.ldap_result, Event.invoke_cb 0 0 [] 0] := by
  decide

/-- C3, amended (distinct name and address keys): let the registry hold
pairwise-distinct ids, R be a live registered request with id `M` and no
results yet, the connection be open and the count be positive and within
`uint`.  If successive ticks poll, one message per tick, an entry message for
`M` for each of `entries` (each carrying each key with one value, both present,
the address accepted by the parser) and then the terminal message for `M`, the
run succeeds; the trace gains one poll per entry, then the last poll and exactly
one callback invocation for R, carrying one record per entry, in entry order,
named by the entry's name value and addressed by the parser's result; afterwards
R is complete and no longer registered, and the count is one less. -/
theorem iterate_entries_then_terminal (lc : LinphoneCore) (m : Machine) (R : Nat) (M : Int)
    (entries : List LDAPEntry)
    (hne : m.obj.name_attr ≠ m.obj.sip_attr)
    (hld : m.obj.ld ≠ 0) (hc : 0 < m.obj.req_count) (hu : m.obj.req_count < UINT_MOD)
    (hids : (m.obj.requests.map (fun a => (deref m.heap a).msgid)).Nodup)
    (hmem : R ∈ m.obj.requests) (hR : R < m.heap.length)
    (hid : (deref m.heap R).msgid = M) (hempty : (deref m.heap R).found_entries = [])
    (hwf : ∀ e ∈ entries, ∃ n s la, key_values m.obj.name_attr e = [n] ∧ value_present n = true
      ∧ key_values m.obj.sip_attr e = [s] ∧ value_present s = true
      ∧ lc.interpret_url s = some la) :
    ∃ (m1 : Machine) (recs : List LinphoneFriend),
      iterate_all lc (entries.map (entry_poll M) ++ [terminal_poll M]) m = some m1
      ∧ recs.length = entries.length
      ∧ List.Forall₂ (fun e f => key_values m.obj.name_attr e = [f.name]
          ∧ ∃ s, key_values m.obj.sip_attr e = [s] ∧ lc.interpret_url s = some f.address)
          entries recs
      ∧ m1.trace = m.trace ++ List.replicate entries.length Event.ldap_result
          ++ [Event.ldap_result,
              Event.invoke_cb (deref m.heap R).base.cb R recs (deref m.heap R).base.data]
      ∧ (deref m1.heap R).complete = true
      ∧ m1.obj.requests = m.obj.requests.erase R
      ∧ R ∉ m1.obj.requests
      ∧ m1.obj.req_count + 1 = m.obj.req_count := by
  have hfr := friends_of_single_valued_entries lc m.obj hne entries hwf
  obtain ⟨ma, h1, ha_heap, ha_obj, ha_tr⟩ : ∃ ma : Machine,
      iterate_all lc (entries.map (entry_poll M)) m = some ma
      ∧ ma.heap = m.heap.set R (add_records (deref m.heap R)
          (entries.flatMap (fun e => (entry_friend lc m.obj e).toList)))
      ∧ ma.obj = m.obj
      ∧ ma.trace = m.trace ++ List.replicate entries.length Event.ldap_result :=
    ⟨_, iterate_all_entries lc R M entries m hld hc hids hmem hR hid, rfl, rfl, rfl⟩
  have hRa : R < ma.heap.length := by rw [ha_heap]; simpa using hR
  have hda : deref ma.heap R = add_records (deref m.heap R)
      (entries.flatMap (fun e => (entry_friend lc m.obj e).toList)) := by
    rw [ha_heap, deref_set_self _ _ _ hR]
  have hfun : (fun a => (deref ma.heap a).msgid) = (fun a => (deref m.heap a).msgid) := by
    funext a
    rw [ha_heap]
    exact msgid_set_same m.heap R (add_records (deref m.heap R)
      (entries.flatMap (fun e => (entry_friend lc m.obj e).toList))) rfl a
  have hreq : linphone_ldap_request_entry_search ma M = some R := by
    apply entry_search_of_nodup ma R M
    · rw [ha_obj, hfun]; exact hids
    · rw [ha_obj]; exact hmem
    · rw [hda]; exact hid
  obtain ⟨mz, hz, hz_heap, hz_req, hz_cnt, hz_tr⟩ : ∃ mz : Machine,
      linphone_ldap_contact_provider_iterate lc (terminal_poll M) ma = some (mz, true)
      ∧ mz.heap = ma.heap.set R (add_records
          { add_records (deref ma.heap R) (batch_records lc ma.obj []) with complete := true }
          (batch_records lc ma.obj []))
      ∧ mz.obj.requests = ma.obj.requests.erase R
      ∧ mz.obj.req_count = (ma.obj.req_count + UINT_MOD - 1) % UINT_MOD
      ∧ mz.trace = ma.trace ++ [Event.ldap_result,
          Event.invoke_cb (deref ma.heap R).base.cb R
            ((deref ma.heap R).found_entries ++ batch_records lc ma.obj [])
            (deref ma.heap R).base.data] :=
    ⟨_, iterate_terminal_core lc ma (terminal_poll M) R
      { msgid := M, msgtype := LDAP_RES_SEARCH_RESULT, entries := [] }
      { msgid := M, msgtype := LDAP_RES_SEARCH_RESULT, entries := [] } [] []
      (by rw [ha_obj]; exact hld) (Or.inl (by rw [ha_obj]; exact hc)) rfl rfl rfl hreq hRa rfl
      (by simp) (by simp), rfl, rfl, rfl, rfl⟩
  have hnd : m.obj.requests.Nodup := List.Nodup.of_map _ hids
  refine ⟨mz, entries.flatMap (fun e => (entry_friend lc m.obj e).toList), ?_,
    (List.Forall₂.length_eq hfr).symm, hfr, ?_, ?_, ?_, ?_, ?_⟩
  · rw [iterate_all_append, h1]
    simp only [Option.some_bind, iterate_all, hz]
  · rw [hz_tr, ha_tr, hda]
    simp [add_records, hempty, batch_records]
  · rw [hz_heap, deref_set_self _ _ _ hRa]
    rfl
  · rw [hz_req, ha_obj]
  · rw [hz_req, ha_obj]
    exact fun h => ((List.Nodup.mem_erase_iff hnd).mp h).1 rfl
  · rw [hz_cnt, ha_obj, uint_decrement _ hc hu]
    omega

/-- C3 amended, at `machine_two_requests`: the request at address 0 (id 1)
receives `entry_bob` twice and then its terminal message. -/
theorem iterate_entries_then_terminal_witness :
    ∃ (m1 : Machine) (recs : List LinphoneFriend),
      iterate_all sip_core ([entry_bob, entry_bob].map (entry_poll 1) ++ [terminal_poll 1])
          machine_two_requests = some m1
      ∧ recs.length = [entry_bob, entry_bob].length
      ∧ List.Forall₂ (fun e f => key_values machine_two_requests.obj.name_attr e = [f.name]
          ∧ ∃ s, key_values machine_two_requests.obj.sip_attr e = [s]
            ∧ sip_core.interpret_url s = some f.address)
          [entry_bob, entry_bob] recs
      ∧ m1.trace = machine_two_requests.trace
          ++ List.replicate [entry_bob, entry_bob].length Event.ldap_result
          ++ [Event.ldap_result,
              Event.invoke_cb (deref machine_two_requests.heap 0).base.cb 0 recs
                (deref machine_two_requests.heap 0).base.data]
      ∧ (deref m1.heap 0).complete = true
      ∧ m1.obj.requests = machine_two_requests.obj.requests.erase 0
      ∧ 0 ∉ m1.obj.requests
      ∧ m1.obj.req_count + 1 = machine_two_requests.obj.req_count :=
  iterate_entries_then_terminal sip_core machine_two_requests 0 1 [entry_bob, entry_bob]
    (by decide) (by decide) (by decide) (by decide) (by decide) (by decide) (by decide)
    (by decide) (by decide)
    (fun e he => ⟨"Bob", "sip:bob@example.com", { uri := "sip:bob@example.com" }, by
      have : e = entry_bob := by simpa using he
      subst this
      decide⟩)

/-! ### Filter lemmas -/

theorem format_s_cons_other (c : Char) (rest arg : List Char) (hc : c ≠ '%') :
    format_s (c :: rest) arg = c :: format_s rest arg := by
  cases rest with
  | nil => simp [format_s]
  | cons d rest2 =>
    rw [format_s]
    · intro r a _
      exact hc a
    · intro r a _
      exact hc a

theorem format_s_placeholder (rest arg : List Char) :
    format_s ('%' :: 's' :: rest) arg = arg ++ format_s rest arg := by
  rw [format_s]

/-- A template with one placeholder and no other percent sign formats to the
text before the placeholder, the argument, and the text after it. -/
theorem format_s_one_placeholder (arg post : List Char) (hpost : '%' ∉ post) :
    ∀ pre : List Char, '%' ∉ pre →
      format_s (pre ++ '%' :: 's' :: post) arg = pre ++ arg ++ post := by
  have hp : ∀ l : List Char, '%' ∉ l → format_s l arg = l := by
    intro l
    induction l with
    | nil => intro _; rfl
    | cons c rest ih =>
      intro h
      rw [format_s_cons_other c rest arg (fun hc => h (by simp [hc])),
        ih (fun hr => h (List.mem_cons_of_mem _ hr))]
  intro pre
  induction pre with
  | nil =>
    intro _
    simp [format_s_placeholder, hp post hpost]
  | cons c rest ih =>
    intro h
    rw [List.cons_append, format_s_cons_other c _ arg (fun hc => h (by simp [hc])),
      ih (fun hr => h (List.mem_cons_of_mem _ hr))]
    simp

theorem search_filter_data (obj : LinphoneLDAPContactProvider) (predicate : String) :
    (search_filter obj predicate).data
      = (format_s obj.filter.data predicate.data).take (FILTER_MAX_SIZE - 2) := rfl

/-! ### Filter claims -/

/-- C11: whatever the template and the predicate, the filter that
`linphone_ldap_contact_search_create` builds is a prefix of the formatted
string; with its terminator it fits the size handed to `snprintf`
(`FILTER_MAX_SIZE - 1`) and so the buffer of `FILTER_MAX_SIZE = 512` bytes, as
does the terminator stored at index `FILTER_MAX_SIZE - 1`; and the search is
issued with that filter whatever its length.  For a template with exactly one
`%s` placeholder (and no other percent sign) the formatted string is the text
before the placeholder, the predicate, and the text after it. -/
theorem search_filter_bounded (lib : LDAPLibrary) (m : Machine) (predicate : String)
    (cb cb_data : Nat) :
    (search_filter m.obj predicate).data <+: format_s m.obj.filter.data predicate.data
    ∧ (search_filter m.obj predicate).length + 1 ≤ FILTER_MAX_SIZE - 1
    ∧ (search_filter m.obj predicate).length + 1 ≤ FILTER_MAX_SIZE
    ∧ FILTER_MAX_SIZE - 1 < FILTER_MAX_SIZE
    ∧ FILTER_MAX_SIZE = 512
    ∧ (linphone_ldap_contact_search_create lib m predicate cb cb_data).1.trace
        = m.trace ++ [Event.ldap_search_ext (search_call m.obj predicate)]
    ∧ (search_call m.obj predicate).filter = search_filter m.obj predicate
    ∧ (∀ pre post : List Char, m.obj.filter.data = pre ++ '%' :: 's' :: post →
        '%' ∉ pre → '%' ∉ post →
        format_s m.obj.filter.data predicate.data = pre ++ predicate.data ++ post
        ∧ (search_filter m.obj predicate).data <+: pre ++ predicate.data ++ post) := by
  have hpre : (search_filter m.obj predicate).data
      <+: format_s m.obj.filter.data predicate.data := by
    rw [search_filter_data]
    exact List.take_prefix _ _
  have hlen : (search_filter m.obj predicate).length ≤ FILTER_MAX_SIZE - 2 := by
    show (search_filter m.obj predicate).data.length ≤ FILTER_MAX_SIZE - 2
    rw [search_filter_data, List.length_take]
    exact Nat.min_le_left _ _
  have h512 : FILTER_MAX_SIZE = 512 := rfl
  refine ⟨hpre, ?_, ?_, ?_, h512, ?_, rfl, ?_⟩
  · rw [h512] at hlen ⊢; omega
  · rw [h512] at hlen ⊢; omega
  · rw [h512]; omega
  · unfold linphone_ldap_contact_search_create
    simp only []
    split <;> rfl
  · intro pre post htpl h1 h2
    have hf : format_s m.obj.filter.data predicate.data = pre ++ predicate.data ++ post := by
      rw [htpl]
      exact format_s_one_placeholder _ _ h2 pre h1
    exact ⟨hf, hf ▸ hpre⟩

/-- C11 at the default template `uid=*%s*` with the predicate `bob`. -/
theorem search_filter_bounded_witness :
    search_filter machine_one_request.obj "bob" = "uid=*bob*"
    ∧ ((search_filter machine_one_request.obj "bob").data
        <+: format_s machine_one_request.obj.filter.data "bob".data
    ∧ (search_filter machine_one_request.obj "bob").length + 1 ≤ FILTER_MAX_SIZE - 1
    ∧ (search_filter machine_one_request.obj "bob").length + 1 ≤ FILTER_MAX_SIZE
    ∧ FILTER_MAX_SIZE - 1 < FILTER_MAX_SIZE
    ∧ FILTER_MAX_SIZE = 512
    ∧ (linphone_ldap_contact_search_create accepting_library machine_one_request
          "bob" 3 4).1.trace
        = machine_one_request.trace
            ++ [Event.ldap_search_ext (search_call machine_one_request.obj "bob")]
    ∧ (search_call machine_one_request.obj "bob").filter
        = search_filter machine_one_request.obj "bob"
    ∧ (∀ pre post : List Char,
        machine_one_request.obj.filter.data = pre ++ '%' :: 's' :: post →
        '%' ∉ pre → '%' ∉ post →
        format_s machine_one_request.obj.filter.data "bob".data = pre ++ "bob".data ++ post
        ∧ (search_filter machine_one_request.obj "bob").data
            <+: pre ++ "bob".data ++ post)) :=
  ⟨by decide, search_filter_bounded accepting_library machine_one_request "bob" 3 4⟩

/-- C12, evaluated at the failing input: with the template `%s` and a
predicate of 511 characters the formatted string has 511 characters, yet the
filter built keeps only 510 of them: `snprintf` is given the size
`FILTER_MAX_SIZE - 1 = 511`, terminator included. -/
theorem search_filter_keeps_510_characters :
    (format_s bare_template_provider.filter.data predicate_511.data).length = 511
    ∧ (search_filter bare_template_provider predicate_511).length = 510
    ∧ (search_filter bare_template_provider predicate_511).data = List.replicate 510 'a'
    ∧ search_filter bare_template_provider predicate_511
        ≠ String.mk (format_s bare_template_provider.filter.data predicate_511.data) := by
  have hfmt : format_s bare_template_provider.filter.data predicate_511.data
      = List.replicate 511 'a' := by
    show format_s ['%', 's'] (List.replicate 511 'a') = List.replicate 511 'a'
    rw [format_s_placeholder]
    exact List.append_nil _
  have hdata : (search_filter bare_template_provider predicate_511).data
      = List.replicate 510 'a' := by
    rw [search_filter_data, hfmt]
    show List.take 510 (List.replicate 511 'a') = List.replicate 510 'a'
    rw [List.take_replicate]
    rfl
  refine ⟨by rw [hfmt, List.length_replicate], ?_, hdata, ?_⟩
  · show (search_filter bare_template_provider predicate_511).data.length = 510
    rw [hdata, List.length_replicate]
  · intro h
    have h2 := congrArg (fun s => s.data.length) h
    simp only [hdata, hfmt, List.length_replicate] at h2
    exact absurd h2 (by decide)

/-! ### Tick claims -/

/-- C14: with outstanding count 0 and pending-bind id 0 a tick performs no poll,
invokes no callback and changes nothing (the state, trace included, is returned
as it was) and returns `TRUE`; hence any number of idle ticks, whatever the
library would have answered, leaves the state as one tick does. -/
theorem iterate_idle (lc : LinphoneCore) (poll : PollResult) (m : Machine)
    (h0 : m.obj.req_count = 0) (hb : m.obj.bind_msgid = 0) :
    linphone_ldap_contact_provider_iterate lc poll m = some (m, true)
    ∧ ∀ polls : List PollResult, iterate_all lc polls m = some m := by
  have h1 : ∀ p : PollResult, linphone_ldap_contact_provider_iterate lc p m = some (m, true) := by
    intro p
    unfold linphone_ldap_contact_provider_iterate
    rw [if_neg]
    rw [h0, hb]
    simp
  refine ⟨h1 poll, ?_⟩
  intro polls
  induction polls with
  | nil => rfl
  | cons p rest ih => simp only [iterate_all, h1 p, ih]

/-- C14 at `machine_idle`, for a tick and for three ticks in a row. -/
theorem iterate_idle_witness :
    linphone_ldap_contact_provider_iterate sip_core poll_two_terminals machine_idle
        = some (machine_idle, true)
    ∧ ∀ polls : List PollResult, iterate_all sip_core polls machine_idle = some machine_idle :=
  iterate_idle sip_core poll_two_terminals machine_idle (by decide) (by decide)

/-- C15, refuted as stated: the awaited bind result (id 3) arrives, but
`ldap_parse_sasl_bind_result` answers `LDAP_DECODING_ERROR`; the pending-bind id
is cleared and the bound flag stays false. -/
theorem iterate_bind_result_counterexample :
    machine_bind_pending.obj.bind_msgid = 3
    ∧ machine_bind_pending.obj.connected = false
    ∧ (linphone_ldap_contact_provider_iterate sip_core poll_bind_undecodable
        machine_bind_pending).map (fun r => (r.1.obj.connected, r.1.obj.bind_msgid))
        = some (false, 0) := by
  decide

/-- C15, amended: with an open connection and a pending-bind id `b` different
from 0, a polled bind result whose id equals `b` clears the pending-bind id to
0; the bound flag becomes true when `ldap_parse_sasl_bind_result` answers
`LDAP_SUCCESS` and keeps its value otherwise.  The registry, the count and the
heap are unchanged, the trace gains the poll only. -/
theorem iterate_bind_result (lc : LinphoneCore) (poll : PollResult) (m : Machine)
    (msg : LDAPMessage) (tl : List LDAPMessage)
    (hld : m.obj.ld ≠ 0) (hb : m.obj.bind_msgid ≠ 0) (hu : m.obj.bind_msgid < UINT_MOD)
    (hret : poll.ret = LDAP_RES_BIND) (hres : poll.results = msg :: tl)
    (hid : msg.msgid = (m.obj.bind_msgid : Int)) :
    ∃ m1 : Machine,
      linphone_ldap_contact_provider_iterate lc poll m = some (m1, true)
      ∧ m1.obj.bind_msgid = 0
      ∧ (poll.sasl_bind_result = LDAP_SUCCESS → m1.obj.connected = true)
      ∧ (poll.sasl_bind_result ≠ LDAP_SUCCESS → m1.obj.connected = m.obj.connected)
      ∧ m1.obj.requests = m.obj.requests
      ∧ m1.obj.req_count = m.obj.req_count
      ∧ m1.heap = m.heap
      ∧ m1.trace = m.trace ++ [Event.ldap_result] := by
  have h1 : poll.ret ≠ -1 := by rw [hret]; decide
  have h2 : poll.ret ≠ 0 := by rw [hret]; decide
  have hconv : (msg.msgid % (UINT_MOD : Int)).toNat = m.obj.bind_msgid := by
    rw [hid]
    unfold UINT_MOD at *
    omega
  unfold linphone_ldap_contact_provider_iterate
  rw [if_pos ⟨hld, Or.inr hb⟩]
  simp only [if_neg h1, if_neg h2, if_pos hret, hres, hconv, ne_eq, not_true_eq_false,
    if_false]
  by_cases hs : poll.sasl_bind_result = LDAP_SUCCESS
  · refine ⟨_, rfl, rfl, ?_, ?_, ?_, ?_, ?_, ?_⟩ <;>
      simp [linphone_ldap_contact_provider_parse_bind_results, hs]
  · refine ⟨_, rfl, rfl, ?_, ?_, ?_, ?_, ?_, ?_⟩ <;>
      simp [linphone_ldap_contact_provider_parse_bind_results, hs]

/-- C15 amended, at `machine_bind_pending` with a bind result that parses. -/
theorem iterate_bind_result_witness :
    ∃ m1 : Machine,
      linphone_ldap_contact_provider_iterate sip_core poll_bind_ok machine_bind_pending
        = some (m1, true)
      ∧ m1.obj.bind_msgid = 0
      ∧ (poll_bind_ok.sasl_bind_result = LDAP_SUCCESS → m1.obj.connected = true)
      ∧ (poll_bind_ok.sasl_bind_result ≠ LDAP_SUCCESS
          → m1.obj.connected = machine_bind_pending.obj.connected)
      ∧ m1.obj.requests = machine_bind_pending.obj.requests
      ∧ m1.obj.req_count = machine_bind_pending.obj.req_count
      ∧ m1.heap = machine_bind_pending.heap
      ∧ m1.trace = machine_bind_pending.trace ++ [Event.ldap_result] :=
  iterate_bind_result sip_core poll_bind_ok machine_bind_pending
    { msgid := 3, msgtype := LDAP_RES_BIND, entries := [] } []
    (by decide) (by decide) (by decide) (by decide) (by decide) (by decide)

/-! ### Frame lemmas -/

theorem find_custom_get_eq_find {α β : Type} (cmp : α → β → Int) (d : β) :
    ∀ l : List α,
      (match ms_list_find_custom l cmp d with
        | some i => l.get? i
        | none => none) = l.find? (fun a => decide (cmp a d = 0)) := by
  intro l
  induction l with
  | nil => rfl
  | cons x rest ih =>
    by_cases hx : cmp x d = 0
    · simp [ms_list_find_custom, hx]
    · simp only [ms_list_find_custom, hx, if_false, List.find?_cons, decide_False]
      rw [← ih]
      cases ms_list_find_custom rest cmp d with
      | none => rfl
      | some j => simp

theorem entry_search_eq_find (m : Machine) (mid : Int) :
    linphone_ldap_request_entry_search m mid
      = m.obj.requests.find? (fun a => decide ((deref m.heap a).msgid = mid)) := by
  have hp : (fun a => decide (linphone_ldap_request_entry_compare_weak (deref m.heap a)
      { (default : LinphoneLDAPContactSearch) with msgid := mid } = 0))
      = (fun a => decide ((deref m.heap a).msgid = mid)) := by
    funext a
    unfold linphone_ldap_request_entry_compare_weak
    by_cases h : (deref m.heap a).msgid = mid <;> simp [h]
  rw [← hp]
  exact find_custom_get_eq_find _ _ m.obj.requests

theorem entry_search_msgid (m : Machine) (mid : Int) (R : Nat)
    (h : linphone_ldap_request_entry_search m mid = some R) :
    R ∈ m.obj.requests ∧ (deref m.heap R).msgid = mid := by
  rw [entry_search_eq_find] at h
  exact ⟨List.mem_of_find?_eq_some h, by simpa using List.find?_some h⟩

theorem handle_entries_frame (lc : LinphoneCore) (obj : LinphoneLDAPContactProvider)
    (req : Option Nat) (a : Nat) (ha : req ≠ some a) :
    ∀ (entries : List LDAPEntry) (heap heap2 : List LinphoneLDAPContactSearch),
      handle_entries lc obj req entries heap = some heap2 → deref heap2 a = deref heap a := by
  intro entries
  induction entries with
  | nil =>
    intro heap heap2 h
    simp only [handle_entries, Option.some.injEq] at h
    rw [h]
  | cons e rest ih =>
    intro heap heap2 h
    cases hf : entry_friend lc obj e with
    | none =>
      simp only [handle_entries, hf] at h
      exact ih heap heap2 h
    | some lf =>
      cases req with
      | none => simp [handle_entries, hf] at h
      | some r =>
        simp only [handle_entries, hf] at h
        rw [ih _ heap2 h]
        exact deref_set_other _ _ _ _ (fun hra => ha (by rw [hra]))

/-- One message handled for `req`: the provider is untouched, no object other
than `req` changes, and every event added is a callback of `req`. -/
theorem handle_search_result_frame (lc : LinphoneCore) (m m1 : Machine) (req : Option Nat)
    (x : LDAPMessage)
    (h : linphone_ldap_contact_provider_handle_search_result lc m req x = some m1) :
    m1.obj = m.obj
    ∧ (∀ a, req ≠ some a → deref m1.heap a = deref m.heap a)
    ∧ ∃ evs, m1.trace = m.trace ++ evs
        ∧ ∀ ev ∈ evs, ∃ r cb fr d, req = some r ∧ ev = Event.invoke_cb cb r fr d := by
  unfold linphone_ldap_contact_provider_handle_search_result at h
  by_cases h1 : x.msgtype = LDAP_RES_SEARCH_ENTRY ∨ x.msgtype = LDAP_RES_EXTENDED
  · rw [if_pos h1] at h
    cases hh : handle_entries lc m.obj req x.entries m.heap with
    | none => simp [hh] at h
    | some heap2 =>
      simp only [hh, Option.some.injEq] at h
      subst h
      exact ⟨rfl, fun a ha => handle_entries_frame lc m.obj req a ha _ _ _ hh,
        [], by simp, by simp⟩
  · rw [if_neg h1] at h
    by_cases h2 : x.msgtype = LDAP_RES_SEARCH_RESULT
    · rw [if_pos h2] at h
      cases req with
      | none => simp at h
      | some r =>
        simp only [Option.some.injEq] at h
        subst h
        refine ⟨rfl, fun a ha => deref_set_other _ _ _ _ (fun hra => ha (by rw [hra])),
          [_], rfl, ?_⟩
        intro ev hev
        simp only [List.mem_singleton] at hev
        exact ⟨r, _, _, _, rfl, hev⟩
    · rw [if_neg h2, Option.some.injEq] at h
      subst h
      exact ⟨rfl, fun _ _ => rfl, [], by simp, by simp⟩

theorem handle_messages_frame (lc : LinphoneCore) (req : Option Nat) :
    ∀ (msgs : List LDAPMessage) (m m1 : Machine),
      handle_messages lc req msgs m = some m1 →
      m1.obj = m.obj
      ∧ (∀ a, req ≠ some a → deref m1.heap a = deref m.heap a)
      ∧ ∃ evs, m1.trace = m.trace ++ evs
          ∧ ∀ ev ∈ evs, ∃ r cb fr d, req = some r ∧ ev = Event.invoke_cb cb r fr d := by
  intro msgs
  induction msgs with
  | nil =>
    intro m m1 h
    simp only [handle_messages, Option.some.injEq] at h
    subst h
    exact ⟨rfl, fun _ _ => rfl, [], by simp, by simp⟩
  | cons x rest ih =>
    intro m m1 h
    cases hx : linphone_ldap_contact_provider_handle_search_result lc m req x with
    | none => simp [handle_messages, hx] at h
    | some m2 =>
      simp only [handle_messages, hx] at h
      obtain ⟨o1, f1, e1, t1, c1⟩ := handle_search_result_frame lc m m2 req x hx
      obtain ⟨o2, f2, e2, t2, c2⟩ := ih m2 m1 h
      refine ⟨o2.trans o1, fun a ha => (f2 a ha).trans (f1 a ha), e1 ++ e2, ?_, ?_⟩
      · rw [t2, t1, List.append_assoc]
      · intro ev hev
        rcases List.mem_append.mp hev with h3 | h3
        · exact c1 ev h3
        · exact c2 ev h3

theorem cancel_search_frame (m : Machine) (req : Nat) :
    (linphone_ldap_contact_provider_cancel_search m req).1.heap = m.heap
    ∧ (linphone_ldap_contact_provider_cancel_search m req).1.trace = m.trace := by
  unfold linphone_ldap_contact_provider_cancel_search
  split <;> exact ⟨rfl, rfl⟩

/-- A tick changes no object other than the one the lookup by the first
message id returns, and adds, after the poll, only callbacks of that one. -/
theorem iterate_frame (lc : LinphoneCore) (poll : PollResult) (m m1 : Machine) (b : Bool)
    (h : linphone_ldap_contact_provider_iterate lc poll m = some (m1, b)) (a : Nat)
    (ha : ∀ first, poll.results.head? = some first →
      linphone_ldap_request_entry_search m first.msgid ≠ some a) :
    b = true ∧ deref m1.heap a = deref m.heap a
    ∧ ∃ evs, m1.trace = m.trace ++ evs ∧ ∀ cb fr d, Event.invoke_cb cb a fr d ∉ evs := by
  unfold linphone_ldap_contact_provider_iterate at h
  by_cases hp : m.obj.ld ≠ 0 ∧ (m.obj.req_count > 0 ∨ m.obj.bind_msgid ≠ 0)
  · rw [if_pos hp] at h
    simp only [] at h
    have hpoll : ∀ cb fr d, Event.invoke_cb cb a fr d ∉ [Event.ldap_result] := by
      intro cb fr d hmem
      simp at hmem
    by_cases h1 : poll.ret = -1
    · rw [if_pos h1] at h
      simp only [Option.some.injEq, Prod.mk.injEq] at h
      obtain ⟨hm, hb⟩ := h
      subst hm
      exact ⟨hb.symm, rfl, [Event.ldap_result], rfl, hpoll⟩
    rw [if_neg h1] at h
    by_cases h2 : poll.ret = 0
    · rw [if_pos h2] at h
      simp only [Option.some.injEq, Prod.mk.injEq] at h
      obtain ⟨hm, hb⟩ := h
      subst hm
      exact ⟨hb.symm, rfl, [Event.ldap_result], rfl, hpoll⟩
    rw [if_neg h2] at h
    by_cases h3 : poll.ret = LDAP_RES_BIND
    · rw [if_pos h3] at h
      cases hr : poll.results with
      | nil => simp [hr] at h
      | cons results tl =>
        simp only [hr] at h
        split at h
        · simp only [Option.some.injEq, Prod.mk.injEq] at h
          obtain ⟨hm, hb⟩ := h
          subst hm
          exact ⟨hb.symm, rfl, [Event.ldap_result], rfl, hpoll⟩
        · simp only [Option.some.injEq, Prod.mk.injEq] at h
          obtain ⟨hm, hb⟩ := h
          subst hm
          refine ⟨hb.symm, ?_, [Event.ldap_result], ?_, hpoll⟩
          · unfold linphone_ldap_contact_provider_parse_bind_results
            split <;> rfl
          · unfold linphone_ldap_contact_provider_parse_bind_results
            split <;> rfl
    rw [if_neg h3] at h
    by_cases h4 : poll.ret = LDAP_RES_EXTENDED ∨ poll.ret = LDAP_RES_SEARCH_ENTRY
        ∨ poll.ret = LDAP_RES_SEARCH_REFERENCE ∨ poll.ret = LDAP_RES_INTERMEDIATE
        ∨ poll.ret = LDAP_RES_SEARCH_RESULT
    · rw [if_pos h4] at h
      cases hr : poll.results with
      | nil => simp [hr] at h
      | cons first tl =>
        simp only [hr] at h
        have hreq : linphone_ldap_request_entry_search
            { m with trace := m.trace ++ [Event.ldap_result] } first.msgid ≠ some a :=
          ha first (by rw [hr]; rfl)
        cases hh : handle_messages lc (linphone_ldap_request_entry_search
            { m with trace := m.trace ++ [Event.ldap_result] } first.msgid) (first :: tl)
            { m with trace := m.trace ++ [Event.ldap_result] } with
        | none => simp [hh] at h
        | some m2 =>
          simp only [hh] at h
          obtain ⟨_, f2, e2, t2, c2⟩ := handle_messages_frame lc _ _ _ _ hh
          have hev : ∀ cb fr d, Event.invoke_cb cb a fr d ∉ [Event.ldap_result] ++ e2 := by
            intro cb fr d hmem
            rcases List.mem_append.mp hmem with h5 | h5
            · exact hpoll cb fr d h5
            · obtain ⟨r, cb2, fr2, d2, hr2, hev2⟩ := c2 _ h5
              cases hev2
              exact hreq hr2
          have htr : m2.trace = m.trace ++ ([Event.ldap_result] ++ e2) := by
            rw [t2, List.append_assoc]
          cases hq : linphone_ldap_request_entry_search
              { m with trace := m.trace ++ [Event.ldap_result] } first.msgid with
          | none =>
            simp only [hq, Option.some.injEq, Prod.mk.injEq] at h
            obtain ⟨hm, hb⟩ := h
            subst hm
            exact ⟨hb.symm, f2 a hreq, _, htr, hev⟩
          | some r =>
            simp only [hq] at h
            split at h
            · simp only [Option.some.injEq, Prod.mk.injEq] at h
              obtain ⟨hm, hb⟩ := h
              subst hm
              refine ⟨hb.symm, ?_, _, ?_, hev⟩
              · rw [(cancel_search_frame m2 r).1]
                exact f2 a hreq
              · rw [(cancel_search_frame m2 r).2]
                exact htr
            · simp only [Option.some.injEq, Prod.mk.injEq] at h
              obtain ⟨hm, hb⟩ := h
              subst hm
              exact ⟨hb.symm, f2 a hreq, _, htr, hev⟩
    · rw [if_neg h4] at h
      simp only [Option.some.injEq, Prod.mk.injEq] at h
      obtain ⟨hm, hb⟩ := h
      subst hm
      exact ⟨hb.symm, rfl, [Event.ldap_result], rfl, hpoll⟩
  · rw [if_neg hp] at h
    simp only [Option.some.injEq, Prod.mk.injEq] at h
    obtain ⟨hm, hb⟩ := h
    subst hm
    exact ⟨hb.symm, rfl, [], by simp, by simp⟩

theorem handle_entries_some (lc : LinphoneCore) (obj : LinphoneLDAPContactProvider)
    (R : Nat) :
    ∀ (entries : List LDAPEntry) (heap : List LinphoneLDAPContactSearch),
      ∃ heap2, handle_entries lc obj (some R) entries heap = some heap2 := by
  intro entries
  induction entries with
  | nil => intro heap; exact ⟨heap, rfl⟩
  | cons e rest ih =>
    intro heap
    cases hf : entry_friend lc obj e with
    | none => simp only [handle_entries, hf]; exact ih heap
    | some lf => simp only [handle_entries, hf]; exact ih _

/-- For a request that is not `NULL` the handling of a chain never faults. -/
theorem handle_messages_some (lc : LinphoneCore) (R : Nat) :
    ∀ (msgs : List LDAPMessage) (m : Machine),
      ∃ m1, handle_messages lc (some R) msgs m = some m1 := by
  intro msgs
  induction msgs with
  | nil => intro m; exact ⟨m, rfl⟩
  | cons x rest ih =>
    intro m
    have hx : ∃ m2, linphone_ldap_contact_provider_handle_search_result lc m (some R) x
        = some m2 := by
      unfold linphone_ldap_contact_provider_handle_search_result
      by_cases h1 : x.msgtype = LDAP_RES_SEARCH_ENTRY ∨ x.msgtype = LDAP_RES_EXTENDED
      · obtain ⟨heap2, hh⟩ := handle_entries_some lc m.obj R x.entries m.heap
        rw [if_pos h1, hh]
        exact ⟨_, rfl⟩
      · rw [if_neg h1]
        by_cases h2 : x.msgtype = LDAP_RES_SEARCH_RESULT
        · rw [if_pos h2]; exact ⟨_, rfl⟩
        · rw [if_neg h2]; exact ⟨_, rfl⟩
    obtain ⟨m2, h2⟩ := hx
    simp only [handle_messages, h2]
    exact ih m2

/-- A tick whose chain is not empty and whose first id is registered returns. -/
theorem iterate_some_of_registered (lc : LinphoneCore) (poll : PollResult) (m : Machine)
    (first : LDAPMessage) (tl : List LDAPMessage) (R : Nat)
    (hres : poll.results = first :: tl)
    (hreq : linphone_ldap_request_entry_search m first.msgid = some R) :
    ∃ m1, linphone_ldap_contact_provider_iterate lc poll m = some (m1, true) := by
  unfold linphone_ldap_contact_provider_iterate
  split
  · simp only []
    split
    · exact ⟨_, rfl⟩
    split
    · exact ⟨_, rfl⟩
    split
    · rw [hres]
      simp only []
      split <;> exact ⟨_, rfl⟩
    split
    · rw [hres]
      have hq : linphone_ldap_request_entry_search
          { m with trace := m.trace ++ [Event.ldap_result] } first.msgid = some R := hreq
      obtain ⟨m2, h2⟩ := handle_messages_some lc R (first :: tl)
        { m with trace := m.trace ++ [Event.ldap_result] }
      simp only [hq, h2]
      split <;> exact ⟨_, rfl⟩
    · exact ⟨_, rfl⟩
  · exact ⟨_, rfl⟩

/-! ### Correlation claims -/

/-- C13: the lookup by message id returns the first address of the registry, in
registry order, whose request holds the id (every address in front of it holds
another id), and it returns `NULL` exactly when no registered request holds the
id.  Consequently, for a poll all of whose messages carry the id `M2`, a tick
that returns leaves every request registered under an id `M1` different from
`M2` as it was (accumulated results, found-count and completion flag included)
and adds no callback invocation for it; and when `M2` is registered and the
chain is not empty, the tick does return. -/
theorem entry_search_correlates (lc : LinphoneCore) (m : Machine) :
    (∀ mid : Int, linphone_ldap_request_entry_search m mid
        = m.obj.requests.find? (fun a => decide ((deref m.heap a).msgid = mid)))
    ∧ (∀ (mid : Int) (R : Nat), linphone_ldap_request_entry_search m mid = some R ↔
        (deref m.heap R).msgid = mid ∧ ∃ front back, m.obj.requests = front ++ R :: back
          ∧ ∀ a ∈ front, (deref m.heap a).msgid ≠ mid)
    ∧ (∀ mid : Int, linphone_ldap_request_entry_search m mid = none ↔
        ∀ a ∈ m.obj.requests, (deref m.heap a).msgid ≠ mid)
    ∧ (∀ (poll : PollResult) (m1 : Machine) (b : Bool) (M1 M2 : Int) (a : Nat),
        (∀ x ∈ poll.results, x.msgid = M2) → a ∈ m.obj.requests →
        (deref m.heap a).msgid = M1 → M1 ≠ M2 →
        linphone_ldap_contact_provider_iterate lc poll m = some (m1, b) →
        deref m1.heap a = deref m.heap a
        ∧ ∃ evs, m1.trace = m.trace ++ evs ∧ ∀ cb fr d, Event.invoke_cb cb a fr d ∉ evs)
    ∧ (∀ (poll : PollResult) (M2 : Int),
        (∀ x ∈ poll.results, x.msgid = M2) → poll.results ≠ [] →
        linphone_ldap_request_entry_search m M2 ≠ none →
        ∃ m1, linphone_ldap_contact_provider_iterate lc poll m = some (m1, true)) := by
  refine ⟨entry_search_eq_find m, ?_, ?_, ?_, ?_⟩
  · intro mid R
    rw [entry_search_eq_find, List.find?_eq_some]
    simp
  · intro mid
    rw [entry_search_eq_find, List.find?_eq_none]
    simp
  · intro poll m1 b M1 M2 a hall _ hid hne hit
    have ha : ∀ first, poll.results.head? = some first →
        linphone_ldap_request_entry_search m first.msgid ≠ some a := by
      intro first hf hs
      have h1 := (entry_search_msgid m first.msgid a hs).2
      have h2 : first.msgid = M2 := hall first (List.mem_of_mem_head? hf)
      exact hne (by rw [← hid, h1, h2])
    exact (iterate_frame lc poll m m1 b hit a ha).2
  · intro poll M2 hall hne hreg
    cases hr : poll.results with
    | nil => exact absurd hr hne
    | cons first tl =>
      have h2 : first.msgid = M2 := hall first (by rw [hr]; simp)
      cases hq : linphone_ldap_request_entry_search m M2 with
      | none => exact absurd hq hreg
      | some R => exact iterate_some_of_registered lc poll m first tl R hr (by rw [h2]; exact hq)

/-- C13 at `machine_two_requests`: a chain for id 2 leaves the request
registered under id 1 (address 0) untouched. -/
theorem entry_search_correlates_witness :
    linphone_ldap_request_entry_search machine_two_requests 2 = some 1
    ∧ ((∀ mid : Int, linphone_ldap_request_entry_search machine_two_requests mid
        = machine_two_requests.obj.requests.find?
            (fun a => decide ((deref machine_two_requests.heap a).msgid = mid)))
    ∧ (∀ (mid : Int) (R : Nat),
        linphone_ldap_request_entry_search machine_two_requests mid = some R ↔
        (deref machine_two_requests.heap R).msgid = mid
          ∧ ∃ front back, machine_two_requests.obj.requests = front ++ R :: back
            ∧ ∀ a ∈ front, (deref machine_two_requests.heap a).msgid ≠ mid)
    ∧ (∀ mid : Int, linphone_ldap_request_entry_search machine_two_requests mid = none ↔
        ∀ a ∈ machine_two_requests.obj.requests,
          (deref machine_two_requests.heap a).msgid ≠ mid)
    ∧ (∀ (poll : PollResult) (m1 : Machine) (b : Bool) (M1 M2 : Int) (a : Nat),
        (∀ x ∈ poll.results, x.msgid = M2) → a ∈ machine_two_requests.obj.requests →
        (deref machine_two_requests.heap a).msgid = M1 → M1 ≠ M2 →
        linphone_ldap_contact_provider_iterate sip_core poll machine_two_requests
          = some (m1, b) →
        deref m1.heap a = deref machine_two_requests.heap a
        ∧ ∃ evs, m1.trace = machine_two_requests.trace ++ evs
            ∧ ∀ cb fr d, Event.invoke_cb cb a fr d ∉ evs)
    ∧ (∀ (poll : PollResult) (M2 : Int),
        (∀ x ∈ poll.results, x.msgid = M2) → poll.results ≠ [] →
        linphone_ldap_request_entry_search machine_two_requests M2 ≠ none →
        ∃ m1, linphone_ldap_contact_provider_iterate sip_core poll machine_two_requests
          = some (m1, true))) :=
  ⟨by decide, entry_search_correlates sip_core machine_two_requests⟩

/-- C16: a tick whose poll yields -1, or 0, or a message kind that is neither
the bind result nor a search kind, or a bind result whose id is not the
pending-bind id (compared as the code does, in `uint`), returns `TRUE` and
leaves the provider (bound flag, pending-bind id, registry, count) and the heap
(every request's accumulated results) unchanged; it invokes no callback: the
trace gains at most the poll.  The next tick therefore polls again exactly when
this one did. -/
theorem iterate_nothing_dispatched (lc : LinphoneCore) (poll : PollResult) (m : Machine)
    (hcase : poll.ret = -1 ∨ poll.ret = 0
      ∨ (poll.ret ≠ LDAP_RES_BIND ∧ poll.ret ≠ LDAP_RES_EXTENDED
          ∧ poll.ret ≠ LDAP_RES_SEARCH_ENTRY ∧ poll.ret ≠ LDAP_RES_SEARCH_REFERENCE
          ∧ poll.ret ≠ LDAP_RES_INTERMEDIATE ∧ poll.ret ≠ LDAP_RES_SEARCH_RESULT)
      ∨ (poll.ret = LDAP_RES_BIND ∧ ∃ msg tl, poll.results = msg :: tl
          ∧ (msg.msgid % (UINT_MOD : Int)).toNat ≠ m.obj.bind_msgid)) :
    ∃ m1 : Machine,
      linphone_ldap_contact_provider_iterate lc poll m = some (m1, true)
      ∧ m1 = (if m.obj.ld ≠ 0 ∧ (m.obj.req_count > 0 ∨ m.obj.bind_msgid ≠ 0)
              then { m with trace := m.trace ++ [Event.ldap_result] } else m)
      ∧ m1.obj = m.obj
      ∧ m1.obj.connected = m.obj.connected
      ∧ m1.obj.bind_msgid = m.obj.bind_msgid
      ∧ m1.obj.requests = m.obj.requests
      ∧ m1.obj.req_count = m.obj.req_count
      ∧ m1.heap = m.heap
      ∧ (m1.trace = m.trace ∨ m1.trace = m.trace ++ [Event.ldap_result]) := by
  have key : linphone_ldap_contact_provider_iterate lc poll m
      = some ((if m.obj.ld ≠ 0 ∧ (m.obj.req_count > 0 ∨ m.obj.bind_msgid ≠ 0)
              then { m with trace := m.trace ++ [Event.ldap_result] } else m), true) := by
    unfold linphone_ldap_contact_provider_iterate
    by_cases hp : m.obj.ld ≠ 0 ∧ (m.obj.req_count > 0 ∨ m.obj.bind_msgid ≠ 0)
    · rw [if_pos hp, if_pos hp]
      simp only []
      rcases hcase with h | h | h | h
      · rw [if_pos h]
      · have h1 : poll.ret ≠ -1 := by rw [h]; decide
        rw [if_neg h1, if_pos h]
      · obtain ⟨hb, h1, h2, h3, h4, h5⟩ := h
        by_cases hm : poll.ret = -1
        · rw [if_pos hm]
        by_cases hz : poll.ret = 0
        · rw [if_neg hm, if_pos hz]
        have hk : ¬ (poll.ret = LDAP_RES_EXTENDED ∨ poll.ret = LDAP_RES_SEARCH_ENTRY
            ∨ poll.ret = LDAP_RES_SEARCH_REFERENCE ∨ poll.ret = LDAP_RES_INTERMEDIATE
            ∨ poll.ret = LDAP_RES_SEARCH_RESULT) := by
          intro hk
          rcases hk with k | k | k | k | k
          · exact h1 k
          · exact h2 k
          · exact h3 k
          · exact h4 k
          · exact h5 k
        rw [if_neg hm, if_neg hz, if_neg hb, if_neg hk]
      · obtain ⟨hb, msg, tl, hres, hid⟩ := h
        have h1 : poll.ret ≠ -1 := by rw [hb]; decide
        have h2 : poll.ret ≠ 0 := by rw [hb]; decide
        rw [if_neg h1, if_neg h2, if_pos hb, hres]
        simp only []
        rw [if_pos hid]
    · rw [if_neg hp, if_neg hp]
  refine ⟨_, key, rfl, ?_, ?_, ?_, ?_, ?_, ?_, ?_⟩
  all_goals split
  all_goals first | rfl | exact Or.inl rfl | exact Or.inr rfl

/-- C16 at `machine_bind_pending`, for a bind result that carries another id. -/
theorem iterate_nothing_dispatched_witness :
    ∃ m1 : Machine,
      linphone_ldap_contact_provider_iterate sip_core poll_bind_other_id machine_bind_pending
        = some (m1, true)
      ∧ m1 = (if machine_bind_pending.obj.ld ≠ 0
                ∧ (machine_bind_pending.obj.req_count > 0
                    ∨ machine_bind_pending.obj.bind_msgid ≠ 0)
              then { machine_bind_pending with
                      trace := machine_bind_pending.trace ++ [Event.ldap_result] }
              else machine_bind_pending)
      ∧ m1.obj = machine_bind_pending.obj
      ∧ m1.obj.connected = machine_bind_pending.obj.connected
      ∧ m1.obj.bind_msgid = machine_bind_pending.obj.bind_msgid
      ∧ m1.obj.requests = machine_bind_pending.obj.requests
      ∧ m1.obj.req_count = machine_bind_pending.obj.req_count
      ∧ m1.heap = machine_bind_pending.heap
      ∧ (m1.trace = machine_bind_pending.trace
          ∨ m1.trace = machine_bind_pending.trace ++ [Event.ldap_result]) :=
  iterate_nothing_dispatched sip_core poll_bind_other_id machine_bind_pending
    (Or.inr (Or.inr (Or.inr ⟨by decide,
      { msgid := 4, msgtype := LDAP_RES_BIND, entries := [] }, [], by decide, by decide⟩)))

/-! ### Registry invariants -/

theorem handle_entries_shape (lc : LinphoneCore) (obj : LinphoneLDAPContactProvider)
    (req : Option Nat) :
    ∀ (entries : List LDAPEntry) (heap heap2 : List LinphoneLDAPContactSearch),
      handle_entries lc obj req entries heap = some heap2 →
      heap2.length = heap.length ∧ ∀ a, (deref heap2 a).msgid = (deref heap a).msgid := by
  intro entries
  induction entries with
  | nil =>
    intro heap heap2 h
    simp only [handle_entries, Option.some.injEq] at h
    subst h
    exact ⟨rfl, fun _ => rfl⟩
  | cons e rest ih =>
    intro heap heap2 h
    cases hf : entry_friend lc obj e with
    | none =>
      simp only [handle_entries, hf] at h
      exact ih heap heap2 h
    | some lf =>
      cases req with
      | none => simp [handle_entries, hf] at h
      | some r =>
        simp only [handle_entries, hf] at h
        obtain ⟨h1, h2⟩ := ih _ heap2 h
        refine ⟨by rw [h1, List.length_set], fun a => ?_⟩
        rw [h2 a]
        exact msgid_set_same heap r (add_records (deref heap r) [lf]) rfl a

theorem handle_search_result_shape (lc : LinphoneCore) (m m1 : Machine) (req : Option Nat)
    (x : LDAPMessage)
    (h : linphone_ldap_contact_provider_handle_search_result lc m req x = some m1) :
    m1.heap.length = m.heap.length
    ∧ ∀ a, (deref m1.heap a).msgid = (deref m.heap a).msgid := by
  unfold linphone_ldap_contact_provider_handle_search_result at h
  by_cases h1 : x.msgtype = LDAP_RES_SEARCH_ENTRY ∨ x.msgtype = LDAP_RES_EXTENDED
  · rw [if_pos h1] at h
    cases hh : handle_entries lc m.obj req x.entries m.heap with
    | none => simp [hh] at h
    | some heap2 =>
      simp only [hh, Option.some.injEq] at h
      subst h
      exact handle_entries_shape lc m.obj req _ _ _ hh
  · rw [if_neg h1] at h
    by_cases h2 : x.msgtype = LDAP_RES_SEARCH_RESULT
    · rw [if_pos h2] at h
      cases req with
      | none => simp at h
      | some r =>
        simp only [Option.some.injEq] at h
        subst h
        exact ⟨by simp, fun a => msgid_set_same m.heap r
          { deref m.heap r with complete := true } rfl a⟩
    · rw [if_neg h2, Option.some.injEq] at h
      subst h
      exact ⟨rfl, fun _ => rfl⟩

theorem handle_messages_shape (lc : LinphoneCore) (req : Option Nat) :
    ∀ (msgs : List LDAPMessage) (m m1 : Machine),
      handle_messages lc req msgs m = some m1 →
      m1.heap.length = m.heap.length
      ∧ ∀ a, (deref m1.heap a).msgid = (deref m.heap a).msgid := by
  intro msgs
  induction msgs with
  | nil =>
    intro m m1 h
    simp only [handle_messages, Option.some.injEq] at h
    subst h
    exact ⟨rfl, fun _ => rfl⟩
  | cons x rest ih =>
    intro m m1 h
    cases hx : linphone_ldap_contact_provider_handle_search_result lc m req x with
    | none => simp [handle_messages, hx] at h
    | some m2 =>
      simp only [handle_messages, hx] at h
      obtain ⟨l1, i1⟩ := handle_search_result_shape lc m m2 req x hx
      obtain ⟨l2, i2⟩ := ih m2 m1 h
      exact ⟨l2.trans l1, fun a => (i2 a).trans (i1 a)⟩

theorem cancel_search_sublist (m : Machine) (req : Nat) :
    (linphone_ldap_contact_provider_cancel_search m req).1.obj.requests.Sublist
      m.obj.requests := by
  unfold linphone_ldap_contact_provider_cancel_search
  split
  · exact List.eraseIdx_sublist _ _
  · exact List.Sublist.refl _

/-- A tick keeps the size of the heap and the message id of every object, and
its registry is the previous one with at most one element removed. -/
theorem iterate_shape (lc : LinphoneCore) (poll : PollResult) (m m1 : Machine) (b : Bool)
    (h : linphone_ldap_contact_provider_iterate lc poll m = some (m1, b)) :
    m1.heap.length = m.heap.length
    ∧ (∀ a, (deref m1.heap a).msgid = (deref m.heap a).msgid)
    ∧ m1.obj.requests.Sublist m.obj.requests := by
  have base : ∀ t : List Event, (({ m with trace := t } : Machine).heap.length = m.heap.length
      ∧ (∀ a, (deref ({ m with trace := t } : Machine).heap a).msgid = (deref m.heap a).msgid)
      ∧ ({ m with trace := t } : Machine).obj.requests.Sublist m.obj.requests) :=
    fun _ => ⟨rfl, fun _ => rfl, List.Sublist.refl _⟩
  unfold linphone_ldap_contact_provider_iterate at h
  split at h
  · simp only [] at h
    split at h
    · simp only [Option.some.injEq, Prod.mk.injEq] at h
      rw [← h.1]; exact base _
    split at h
    · simp only [Option.some.injEq, Prod.mk.injEq] at h
      rw [← h.1]; exact base _
    split at h
    · split at h
      · simp at h
      · split at h
        · simp only [Option.some.injEq, Prod.mk.injEq] at h
          rw [← h.1]; exact base _
        · simp only [Option.some.injEq, Prod.mk.injEq] at h
          rw [← h.1]
          unfold linphone_ldap_contact_provider_parse_bind_results
          split <;> exact ⟨rfl, fun _ => rfl, List.Sublist.refl _⟩
    split at h
    · split at h
      · simp at h
      · rename_i first tl hres
        cases hh : handle_messages lc (linphone_ldap_request_entry_search
            { m with trace := m.trace ++ [Event.ldap_result] } first.msgid) poll.results
            { m with trace := m.trace ++ [Event.ldap_result] } with
        | none => simp [hh] at h
        | some m2 =>
          simp only [hh] at h
          obtain ⟨l2, i2⟩ := handle_messages_shape lc _ _ _ _ hh
          have o2 := (handle_messages_frame lc _ _ _ _ hh).1
          have hsub : m2.obj.requests.Sublist m.obj.requests := by rw [o2]
          split at h
          · split at h
            · simp only [Option.some.injEq, Prod.mk.injEq] at h
              rw [← h.1]
              rename_i r _ _
              refine ⟨?_, ?_, (cancel_search_sublist m2 r).trans hsub⟩
              · rw [(cancel_search_frame m2 r).1]; exact l2
              · rw [(cancel_search_frame m2 r).1]; exact i2
            · simp only [Option.some.injEq, Prod.mk.injEq] at h
              rw [← h.1]; exact ⟨l2, i2, hsub⟩
          · simp only [Option.some.injEq, Prod.mk.injEq] at h
            rw [← h.1]; exact ⟨l2, i2, hsub⟩
    · simp only [Option.some.injEq, Prod.mk.injEq] at h
      rw [← h.1]; exact base _
  · simp only [Option.some.injEq, Prod.mk.injEq] at h
    rw [← h.1]; exact ⟨rfl, fun _ => rfl, List.Sublist.refl _⟩

theorem distinct_ids_of_sublist (m m1 : Machine)
    (hids : ∀ a, (deref m1.heap a).msgid = (deref m.heap a).msgid)
    (hsub : m1.obj.requests.Sublist m.obj.requests) (h : distinct_ids m) :
    distinct_ids m1 := by
  unfold distinct_ids at *
  have hf : (fun a => (deref m1.heap a).msgid) = (fun a => (deref m.heap a).msgid) :=
    funext hids
  rw [hf]
  exact List.Nodup.sublist (List.Sublist.map _ hsub) h

theorem deref_append_of_lt (heap : List LinphoneLDAPContactSearch)
    (x : LinphoneLDAPContactSearch) (a : Nat) (ha : a < heap.length) :
    deref (heap ++ [x]) a = deref heap a := by
  simp [deref, List.getD_eq_getElem?_getD, List.getElem?_append_left ha]

/-- A submission keeps the ids distinct and the registered addresses live when
the id the library stores is held by no registered request. -/
theorem begin_search_invariant (lib : LDAPLibrary) (m : Machine) (predicate : String)
    (cb cb_data : Nat) (hfresh : fresh_answer m lib predicate)
    (h : distinct_ids m ∧ ∀ a ∈ m.obj.requests, a < m.heap.length) :
    distinct_ids (linphone_ldap_begin_search lib m predicate cb cb_data).1
    ∧ ∀ a ∈ (linphone_ldap_begin_search lib m predicate cb cb_data).1.obj.requests,
        a < (linphone_ldap_begin_search lib m predicate cb cb_data).1.heap.length := by
  obtain ⟨hd, hl⟩ := h
  by_cases hs : (lib.ldap_search_ext (search_call m.obj predicate)).1 = LDAP_SUCCESS
  · have hb : linphone_ldap_begin_search lib m predicate cb cb_data
        = ({ heap := m.heap ++ [new_search m.obj predicate cb cb_data
                (lib.ldap_search_ext (search_call m.obj predicate)).2],
             obj := { m.obj with
               requests := m.obj.requests ++ [m.heap.length]
               req_count := (m.obj.req_count + 1) % UINT_MOD },
             trace := m.trace ++ [Event.ldap_search_ext (search_call m.obj predicate)] },
           some m.heap.length) := by
      simp [linphone_ldap_begin_search, linphone_ldap_contact_search_create, hs,
        ms_list_append]
    rw [hb]
    constructor
    · unfold distinct_ids at *
      simp only [List.map_append, List.map_cons, List.map_nil, deref_append_length]
      have hmap : m.obj.requests.map (fun a => (deref (m.heap ++ [new_search m.obj predicate
          cb cb_data (lib.ldap_search_ext (search_call m.obj predicate)).2]) a).msgid)
          = m.obj.requests.map (fun a => (deref m.heap a).msgid) := by
        apply List.map_congr_left
        intro a ha
        rw [deref_append_of_lt _ _ _ (hl a ha)]
      rw [hmap]
      apply List.Nodup.append hd (List.nodup_singleton _)
      intro x hx1 hx2
      simp only [List.mem_singleton] at hx2
      obtain ⟨a, ha, hax⟩ := List.mem_map.mp hx1
      exact hfresh hs a ha (by rw [hax, hx2]; rfl)
    · intro a ha
      simp only [List.mem_append, List.mem_singleton, List.length_append, List.length_cons,
        List.length_nil] at ha ⊢
      rcases ha with h1 | h1
      · have := hl a h1; omega
      · omega
  · have hb : linphone_ldap_begin_search lib m predicate cb cb_data
        = ({ m with trace := m.trace ++ [Event.ldap_search_ext (search_call m.obj predicate)] },
           none) := by
      simp [linphone_ldap_begin_search, linphone_ldap_contact_search_create, hs]
    rw [hb]
    exact ⟨hd, hl⟩

/-- Every reachable state, submissions being answered with fresh ids, has
pairwise-distinct registered ids and live registered addresses. -/
theorem reachable_invariant (lc : LinphoneCore) (m : Machine)
    (h : Reachable lc fresh_answer m) :
    distinct_ids m ∧ ∀ a ∈ m.obj.requests, a < m.heap.length := by
  induction h with
  | init m hreq _ =>
    unfold distinct_ids
    rw [hreq]
    exact ⟨List.nodup_nil, by simp⟩
  | begin_search m lib predicate cb cb_data _ hfresh ih =>
    exact begin_search_invariant lib m predicate cb cb_data hfresh ih
  | cancel_search m req _ ih =>
    have hsub := cancel_search_sublist m req
    have hheap := (cancel_search_frame m req).1
    refine ⟨distinct_ids_of_sublist m _ (fun a => by rw [hheap]) hsub ih.1, ?_⟩
    intro a ha
    rw [hheap]
    exact ih.2 a (hsub.subset ha)
  | iterate m m1 poll b _ hit ih =>
    obtain ⟨hl, hi, hsub⟩ := iterate_shape lc poll m m1 b hit
    refine ⟨distinct_ids_of_sublist m m1 hi hsub ih.1, ?_⟩
    intro a ha
    rw [hl]
    exact ih.2 a (hsub.subset ha)

/-- C17: assuming the protocol library never stores, for an accepted search, a
message id held by a currently registered request, every state reachable from
an empty registry by submissions, cancellations of any handle and ticks has
pairwise-distinct registered message ids. -/
theorem reachable_ids_distinct (lc : LinphoneCore) (m : Machine)
    (h : Reachable lc fresh_answer m) :
    (m.obj.requests.map (fun a => (deref m.heap a).msgid)).Nodup :=
  (reachable_invariant lc m h).1

/-- C17 at `machine_two_pending`, reached from `machine_idle` by two accepted
submissions, the library storing id 7 for the first and the id 8, which the
registered request does not hold, for the second: the two requests pending at
the same time hold the distinct ids 7 and 8. -/
theorem reachable_ids_distinct_witness :
    (machine_two_pending.obj.requests.map
      (fun a => (deref machine_two_pending.heap a).msgid)).Nodup
    ∧ machine_two_pending.obj.requests = [1, 2]
    ∧ machine_two_pending.obj.requests.map
        (fun a => (deref machine_two_pending.heap a).msgid) = [7, 8]
    ∧ fresh_answer (linphone_ldap_begin_search accepting_library machine_idle "bob" 3 4).1
        (library_storing 8) "al" :=
  ⟨reachable_ids_distinct sip_core machine_two_pending
      (Reachable.begin_search _ (library_storing 8) "al" 5 6
        (Reachable.begin_search machine_idle accepting_library "bob" 3 4
          (Reachable.init machine_idle rfl rfl)
          (fun _ a ha => by simp [machine_idle, default_provider] at ha))
        (fun _ => by decide)),
    by decide, by decide, fun _ => by decide⟩

/-! ### Bind claim -/

/-- C18: `linphone_ldap_contact_provider_bind` always returns 0.  For `sasl`
it issues no operation and changes nothing.  For `anonymous` and `plain` it
issues exactly one `ldap_sasl_bind` (recorded in the trace); when the library
answers `LDAP_SUCCESS` and stores the message id `b`, the pending-bind id
becomes `b` (as `uint`; `b` itself when `0 ≤ b < 2 ^ 32`) and nothing else
changes; when the library answers anything else, the provider (pending-bind id
and bound flag included) is unchanged. -/
theorem bind_by_auth_method (ldap_sasl_bind : BindCall → Int × Int) (m : Machine) :
    (linphone_ldap_contact_provider_bind ldap_sasl_bind m).2 = 0
    ∧ (m.obj.auth_method = LDAPAuthMethod.SASL →
        linphone_ldap_contact_provider_bind ldap_sasl_bind m = (m, 0))
    ∧ (m.obj.auth_method = LDAPAuthMethod.ANONYMOUS ∨ m.obj.auth_method = LDAPAuthMethod.PLAIN →
        (∀ b : Int, ldap_sasl_bind (bind_call m.obj) = (LDAP_SUCCESS, b) →
          linphone_ldap_contact_provider_bind ldap_sasl_bind m
            = ({ heap := m.heap,
                 obj := { m.obj with bind_msgid := (b % (UINT_MOD : Int)).toNat },
                 trace := m.trace ++ [Event.ldap_sasl_bind (bind_call m.obj)] }, 0)
          ∧ (0 ≤ b → b < (UINT_MOD : Int) →
              (((linphone_ldap_contact_provider_bind ldap_sasl_bind m).1.obj.bind_msgid : Nat)
                : Int) = b))
        ∧ ((ldap_sasl_bind (bind_call m.obj)).1 ≠ LDAP_SUCCESS →
            linphone_ldap_contact_provider_bind ldap_sasl_bind m
              = ({ m with trace := m.trace ++ [Event.ldap_sasl_bind (bind_call m.obj)] },
                  0))) := by
  refine ⟨?_, ?_, ?_⟩
  · unfold linphone_ldap_contact_provider_bind
    cases m.obj.auth_method <;> simp only [] <;> (try split) <;> rfl
  · intro h
    unfold linphone_ldap_contact_provider_bind
    rw [h]
  · intro h
    have key : linphone_ldap_contact_provider_bind ldap_sasl_bind m
        = if (ldap_sasl_bind (bind_call m.obj)).1 = LDAP_SUCCESS then
            ({ heap := m.heap,
               obj := { m.obj with
                 bind_msgid := ((ldap_sasl_bind (bind_call m.obj)).2 % (UINT_MOD : Int)).toNat },
               trace := m.trace ++ [Event.ldap_sasl_bind (bind_call m.obj)] }, 0)
          else ({ m with trace := m.trace ++ [Event.ldap_sasl_bind (bind_call m.obj)] }, 0) := by
      unfold linphone_ldap_contact_provider_bind
      rcases h with h | h <;> rw [h]
    constructor
    · intro b hb
      have h1 : (ldap_sasl_bind (bind_call m.obj)).1 = LDAP_SUCCESS := by rw [hb]
      have h2 : (ldap_sasl_bind (bind_call m.obj)).2 = b := by rw [hb]
      rw [key, if_pos h1, h2]
      refine ⟨rfl, ?_⟩
      intro h0 hlt
      show (((b % (UINT_MOD : Int)).toNat : Nat) : Int) = b
      unfold UINT_MOD at *
      omega
    · intro hrej
      rw [key, if_neg hrej]

/-- C18 at `machine_idle` (auth method `anonymous`) with a library that accepts
the bind and stores message id 9. -/
theorem bind_by_auth_method_witness :
    (linphone_ldap_contact_provider_bind accepting_bind machine_idle).1.obj.bind_msgid = 9
    ∧ ((linphone_ldap_contact_provider_bind accepting_bind machine_idle).2 = 0
    ∧ (machine_idle.obj.auth_method = LDAPAuthMethod.SASL →
        linphone_ldap_contact_provider_bind accepting_bind machine_idle = (machine_idle, 0))
    ∧ (machine_idle.obj.auth_method = LDAPAuthMethod.ANONYMOUS
          ∨ machine_idle.obj.auth_method = LDAPAuthMethod.PLAIN →
        (∀ b : Int, accepting_bind (bind_call machine_idle.obj) = (LDAP_SUCCESS, b) →
          linphone_ldap_contact_provider_bind accepting_bind machine_idle
            = ({ heap := machine_idle.heap,
                 obj := { machine_idle.obj with bind_msgid := (b % (UINT_MOD : Int)).toNat },
                 trace := machine_idle.trace
                   ++ [Event.ldap_sasl_bind (bind_call machine_idle.obj)] }, 0)
          ∧ (0 ≤ b → b < (UINT_MOD : Int) →
              (((linphone_ldap_contact_provider_bind accepting_bind machine_idle).1.obj.bind_msgid
                : Nat) : Int) = b))
        ∧ ((accepting_bind (bind_call machine_idle.obj)).1 ≠ LDAP_SUCCESS →
            linphone_ldap_contact_provider_bind accepting_bind machine_idle
              = ({ machine_idle with trace := machine_idle.trace
                    ++ [Event.ldap_sasl_bind (bind_call machine_idle.obj)] }, 0)))) :=
  ⟨by decide, bind_by_auth_method accepting_bind machine_idle⟩

/-! ### Configuration lemmas -/

/-- The tokens `strtok_r` yields are the non-empty fields of the split at
commas. -/
theorem strtok_tokens_eq_go :
    ∀ (s cur : List Char),
      strtok_tokens s cur
        = (List.splitOnP.go (fun c => c == ',') s cur).filter (fun f => decide (f ≠ [])) := by
  intro s
  induction s with
  | nil =>
    intro cur
    cases cur with
    | nil => simp [strtok_tokens, List.splitOnP.go]
    | cons a l => simp [strtok_tokens, List.splitOnP.go]
  | cons c rest ih =>
    intro cur
    by_cases hc : c = ','
    · cases cur with
      | nil => simp [strtok_tokens, List.splitOnP.go, hc, ih]
      | cons a l => simp [strtok_tokens, List.splitOnP.go, hc, ih]
    · simp [strtok_tokens, List.splitOnP.go, hc, ih]

theorem strtok_tokens_eq_splitOn (s : List Char) :
    strtok_tokens s [] = (s.splitOn ',').filter (fun f => decide (f ≠ [])) :=
  strtok_tokens_eq_go s []

theorem strtok_tokens_length_le :
    ∀ (s cur : List Char), (strtok_tokens s cur).length ≤ s.count ',' + 1 := by
  intro s
  induction s with
  | nil =>
    intro cur
    simp only [strtok_tokens]
    split <;> simp
  | cons c rest ih =>
    intro cur
    by_cases hc : c = ','
    · subst hc
      have := ih []
      simp only [strtok_tokens, if_true, List.count_cons_self]
      split
      · omega
      · simp only [List.length_cons]; omega
    · have := ih (c :: cur)
      have hcount : (c :: rest).count ',' = rest.count ',' := by
        rw [List.count_cons_of_ne]
        exact fun h => hc h.symm
      simp only [strtok_tokens, hc, if_false, hcount]
      exact this

theorem count_commas_eq :
    ∀ (s : List Char) (n : Nat), n + s.length < UINT_MOD →
      count_commas s n = n + s.count ',' := by
  intro s
  induction s with
  | nil => intro n _; simp [count_commas]
  | cons c rest ih =>
    intro n hn
    simp only [List.length_cons] at hn
    by_cases hc : c = ','
    · subst hc
      have h1 : (n + 1) % UINT_MOD = n + 1 := Nat.mod_eq_of_lt (by omega)
      simp only [count_commas, if_true, h1, List.count_cons_self]
      rw [ih (n + 1) (by omega)]
      omega
    · have hcount : (c :: rest).count ',' = rest.count ',' := by
        rw [List.count_cons_of_ne]
        exact fun h => hc h.symm
      simp only [count_commas, hc, if_false, hcount]
      exact ih n (by omega)

theorem set_after_some (x : String) (k : Nat) :
    ∀ pre : List String,
      (pre.map some ++ List.replicate (k + 1) none).set pre.length (some x)
        = (pre ++ [x]).map some ++ List.replicate k none := by
  intro pre
  induction pre with
  | nil => simp [List.replicate_succ]
  | cons a rest ih => simp [ih]

/-- Storing tokens into an array that holds the strings stored so far followed
by enough zeroed slots never leaves the array. -/
theorem store_attributes_spec :
    ∀ (ts : List (List Char)) (pre : List String) (k : Nat),
      ts.length ≤ k → pre.length + k < UINT_MOD →
      store_attributes ts (pre.map some ++ List.replicate k none) pre.length
        = some ((pre ++ ts.map String.mk).map some ++ List.replicate (k - ts.length) none,
            pre.length + ts.length) := by
  intro ts
  induction ts with
  | nil => intro pre k _ _; simp [store_attributes]
  | cons t rest ih =>
    intro pre k hk hu
    simp only [List.length_cons] at hk
    obtain ⟨k2, rfl⟩ : ∃ k2, k = k2 + 1 := ⟨k - 1, by omega⟩
    have hlt : pre.length < (pre.map some ++ List.replicate (k2 + 1) (none : Option String)).length := by
      simp
    have hmod : (pre.length + 1) % UINT_MOD = pre.length + 1 := Nat.mod_eq_of_lt (by omega)
    simp only [store_attributes, if_pos hlt, hmod, set_after_some]
    have := ih (pre ++ [String.mk t]) k2 (by omega) (by simp; omega)
    simp only [List.length_append, List.length_singleton] at this
    rw [this]
    simp only [List.append_assoc, List.singleton_append, List.map_cons, List.length_cons,
      Nat.add_sub_add_right]
    congr 2
    omega

theorem read_null_terminated_spec (k : Nat) :
    ∀ l : List String,
      read_null_terminated (l.map some ++ List.replicate (k + 1) none) = some l := by
  intro l
  induction l with
  | nil => simp [read_null_terminated, List.replicate_succ]
  | cons a rest ih => simp [read_null_terminated, ih]

/-- The attribute list `loadconfig` builds from a string shorter than the range
of its `unsigned int` counters: no fault, and the list is the tokens. -/
theorem load_attributes_spec (s : List Char) (hlen : s.length + 2 < UINT_MOD) :
    ∃ stored,
      store_attributes (strtok_tokens s [])
        (List.replicate ((count_commas s 0 + 2) % UINT_MOD) none) 0 = some stored
      ∧ read_null_terminated stored.1 = some ((strtok_tokens s []).map String.mk)
      ∧ stored.2 = (strtok_tokens s []).length
      ∧ stored.2 ≤ s.count ',' + 1
      ∧ stored.1.length = s.count ',' + 2 := by
  have hcount : count_commas s 0 = s.count ',' := by
    rw [count_commas_eq s 0 (by omega)]
    omega
  have hle : s.count ',' ≤ s.length := List.count_le_length _ _
  have hmod : (s.count ',' + 2) % UINT_MOD = s.count ',' + 2 := Nat.mod_eq_of_lt (by omega)
  have htok := strtok_tokens_length_le s []
  have hstore := store_attributes_spec (strtok_tokens s []) [] (s.count ',' + 2)
    (by omega) (by simp; omega)
  simp only [List.map_nil, List.nil_append, List.length_nil, Nat.zero_add] at hstore
  rw [hcount, hmod]
  refine ⟨_, hstore, ?_, rfl, htok, ?_⟩
  · obtain ⟨j, hj⟩ : ∃ j, s.count ',' + 2 - (strtok_tokens s []).length = j + 1 :=
      ⟨s.count ',' + 2 - (strtok_tokens s []).length - 1, by omega⟩
    simp only [hj]
    exact read_null_terminated_spec j _
  · simp only [List.length_append, List.length_map, List.length_replicate]
    omega

/-- What `loadconfig` returns for an attributes string shorter than the range
of its counters. -/
theorem loadconfig_spec (obj : LinphoneLDAPContactProvider) (config : LpConfig)
    (hlen : (configured_attributes config).length + 2 < UINT_MOD) :
    ∃ obj1, linphone_ldap_contact_provider_loadconfig obj config = some obj1
      ∧ obj1.attributes = nonempty_comma_fields (configured_attributes config)
      ∧ obj1.name_attr = config.get_string "ldap" "name_attribute" "givenName"
      ∧ obj1.sip_attr = config.get_string "ldap" "sip_attribute" "mobile" := by
  obtain ⟨stored, h1, h2, _⟩ := load_attributes_spec (configured_attributes config).data hlen
  unfold linphone_ldap_contact_provider_loadconfig
  simp only []
  have h1b : store_attributes (strtok_tokens (config.get_string "ldap" "attributes"
      "telephoneNumber,givenName,sn,mobile,homePhone").data [])
      (List.replicate ((count_commas (config.get_string "ldap" "attributes"
        "telephoneNumber,givenName,sn,mobile,homePhone").data 0 + 2) % UINT_MOD) none) 0
      = some stored := h1
  rw [h1b]
  simp only []
  rw [h2]
  refine ⟨_, rfl, ?_, rfl, rfl⟩
  show (strtok_tokens (configured_attributes config).data []).map String.mk = _
  rw [strtok_tokens_eq_splitOn]
  rfl

/-! ### Configuration claims -/

/-- C19: for every attributes string (shorter than the range of the
`unsigned int` counters), `loadconfig` returns, and the attribute list it
installs is exactly the sequence of non-empty fields obtained by splitting the
string at commas, in their original order; for the default string these are
telephoneNumber, givenName, sn, mobile, homePhone. -/
theorem loadconfig_attributes (obj : LinphoneLDAPContactProvider) (config : LpConfig)
    (hlen : (configured_attributes config).length + 2 < UINT_MOD) :
    ∃ obj1, linphone_ldap_contact_provider_loadconfig obj config = some obj1
      ∧ obj1.attributes
          = (((configured_attributes config).data.splitOn ',').filter
              (fun f => decide (f ≠ []))).map String.mk
      ∧ (configured_attributes config = "telephoneNumber,givenName,sn,mobile,homePhone" →
          obj1.attributes = ["telephoneNumber", "givenName", "sn", "mobile", "homePhone"]) := by
  obtain ⟨obj1, h1, h2, _⟩ := loadconfig_spec obj config hlen
  refine ⟨obj1, h1, h2, ?_⟩
  intro hd
  rw [h2, hd]
  decide

/-- C19 at the empty configuration store, where the attributes string is the
default one. -/
theorem loadconfig_attributes_witness :
    (linphone_ldap_contact_provider_loadconfig default_provider
        (config_of [("ldap", "attributes", ",a,,b,")])).map (fun o => o.attributes)
      = some ["a", "b"]
    ∧ ∃ obj1, linphone_ldap_contact_provider_loadconfig default_provider empty_config = some obj1
      ∧ obj1.attributes
          = (((configured_attributes empty_config).data.splitOn ',').filter
              (fun f => decide (f ≠ []))).map String.mk
      ∧ (configured_attributes empty_config = "telephoneNumber,givenName,sn,mobile,homePhone" →
          obj1.attributes = ["telephoneNumber", "givenName", "sn", "mobile", "homePhone"]) :=
  ⟨by decide, loadconfig_attributes default_provider empty_config (by decide)⟩

theorem mem_nonempty_comma_fields (x s : String) :
    x ∈ nonempty_comma_fields s ↔ x.data ≠ [] ∧ x.data ∈ s.data.splitOn ',' := by
  unfold nonempty_comma_fields
  constructor
  · intro h
    obtain ⟨f, hf, hx⟩ := List.mem_map.mp h
    have hf2 := List.mem_filter.mp hf
    subst hx
    exact ⟨by simpa using hf2.2, hf2.1⟩
  · intro h
    exact List.mem_map.mpr ⟨x.data, List.mem_filter.mpr ⟨h.2, by simpa using h.1⟩, rfl⟩

/-- C20, refuted as stated: with the attributes string `sn` and the default
keys, the loaded attribute list is `[sn]`; it holds neither the name key
`givenName` nor the address key `mobile`. -/
theorem loadconfig_keys_counterexample :
    (linphone_ldap_contact_provider_loadconfig default_provider config_sn_only).map
        (fun o => (o.attributes, o.name_attr, o.sip_attr))
      = some (["sn"], "givenName", "mobile")
    ∧ "givenName" ∉ ["sn"] ∧ "mobile" ∉ ["sn"] := by
  decide

/-- C20, amended: for every configuration loaded (attributes string shorter
than the range of the counters), the attribute list includes the configured
name key exactly when that key is a non-empty field of the attributes string
split at commas, and likewise the address key; it includes both when the
attributes string, the name key and the address key are the default ones. -/
theorem loadconfig_attributes_include_keys (obj : LinphoneLDAPContactProvider)
    (config : LpConfig) (hlen : (configured_attributes config).length + 2 < UINT_MOD) :
    ∃ obj1, linphone_ldap_contact_provider_loadconfig obj config = some obj1
      ∧ obj1.name_attr = config.get_string "ldap" "name_attribute" "givenName"
      ∧ obj1.sip_attr = config.get_string "ldap" "sip_attribute" "mobile"
      ∧ (obj1.name_attr ∈ obj1.attributes ↔
          obj1.name_attr.data ≠ []
            ∧ obj1.name_attr.data ∈ (configured_attributes config).data.splitOn ',')
      ∧ (obj1.sip_attr ∈ obj1.attributes ↔
          obj1.sip_attr.data ≠ []
            ∧ obj1.sip_attr.data ∈ (configured_attributes config).data.splitOn ',')
      ∧ (configured_attributes config = "telephoneNumber,givenName,sn,mobile,homePhone" →
          config.get_string "ldap" "name_attribute" "givenName" = "givenName" →
          config.get_string "ldap" "sip_attribute" "mobile" = "mobile" →
          obj1.name_attr ∈ obj1.attributes ∧ obj1.sip_attr ∈ obj1.attributes) := by
  obtain ⟨obj1, h1, h2, h3, h4⟩ := loadconfig_spec obj config hlen
  refine ⟨obj1, h1, h3, h4, ?_, ?_, ?_⟩
  · rw [h2]; exact mem_nonempty_comma_fields _ _
  · rw [h2]; exact mem_nonempty_comma_fields _ _
  · intro hd hn hs
    rw [h2, h3, h4, hd, hn, hs]
    decide

/-- C20 amended, at the empty configuration store (every key at its default). -/
theorem loadconfig_attributes_include_keys_witness :
    ∃ obj1, linphone_ldap_contact_provider_loadconfig default_provider empty_config = some obj1
      ∧ obj1.name_attr = empty_config.get_string "ldap" "name_attribute" "givenName"
      ∧ obj1.sip_attr = empty_config.get_string "ldap" "sip_attribute" "mobile"
      ∧ (obj1.name_attr ∈ obj1.attributes ↔
          obj1.name_attr.data ≠ []
            ∧ obj1.name_attr.data ∈ (configured_attributes empty_config).data.splitOn ',')
      ∧ (obj1.sip_attr ∈ obj1.attributes ↔
          obj1.sip_attr.data ≠ []
            ∧ obj1.sip_attr.data ∈ (configured_attributes empty_config).data.splitOn ',')
      ∧ (configured_attributes empty_config = "telephoneNumber,givenName,sn,mobile,homePhone" →
          empty_config.get_string "ldap" "name_attribute" "givenName" = "givenName" →
          empty_config.get_string "ldap" "sip_attribute" "mobile" = "mobile" →
          obj1.name_attr ∈ obj1.attributes ∧ obj1.sip_attr ∈ obj1.attributes) :=
  loadconfig_attributes_include_keys default_provider empty_config (by decide)

/-! ### Attribute array -/

/-- The array after the store loop, for a string shorter than the range of the
counters: the tokens, then the zeroed slots that are left, at least one. -/
theorem load_attributes_array (s : List Char) (hlen : s.length + 2 < UINT_MOD) :
    count_commas s 0 = s.count ','
    ∧ (strtok_tokens s []).length ≤ s.count ',' + 1
    ∧ store_attributes (strtok_tokens s [])
        (List.replicate ((count_commas s 0 + 2) % UINT_MOD) none) 0
      = some (((strtok_tokens s []).map String.mk).map some
          ++ List.replicate (s.count ',' + 2 - (strtok_tokens s []).length) none,
          (strtok_tokens s []).length) := by
  have hcount : count_commas s 0 = s.count ',' := by
    rw [count_commas_eq s 0 (by omega)]
    omega
  have hle : s.count ',' ≤ s.length := List.count_le_length _ _
  have hmod : (s.count ',' + 2) % UINT_MOD = s.count ',' + 2 := Nat.mod_eq_of_lt (by omega)
  have htok := strtok_tokens_length_le s []
  have hstore := store_attributes_spec (strtok_tokens s []) [] (s.count ',' + 2)
    (by omega) (by simp; omega)
  simp only [List.map_nil, List.nil_append, List.length_nil, Nat.zero_add] at hstore
  rw [hcount, hmod]
  exact ⟨rfl, htok, hstore⟩

/-! ### Attribute array claim -/

/-- C25: for every attributes string (shorter than the range of the `unsigned
int` counters; the empty string and strings with leading, trailing or
consecutive commas included) the store loop of `loadconfig` does not fault, so
every store lands inside the array; the array has (commas + 2) slots, the number
of names stored is the number of tokens and at most (commas + 1), every slot in
front of that index holds a name, the slot at that index is still zeroed, and
reading the `NULL`-terminated array yields exactly the names stored, which is
the attribute list `loadconfig` installs. -/
theorem attribute_array_bounds (s : String) (hlen : s.length + 2 < UINT_MOD) :
    ∃ stored, attribute_array s = some stored
      ∧ stored.1.length = s.data.count ',' + 2
      ∧ stored.2 = (strtok_tokens s.data []).length
      ∧ stored.2 ≤ s.data.count ',' + 1
      ∧ stored.2 < stored.1.length
      ∧ (∀ i, i < stored.2 → ∃ name, stored.1.get? i = some (some name))
      ∧ stored.1.get? stored.2 = some none
      ∧ read_null_terminated stored.1 = some ((strtok_tokens s.data []).map String.mk)
      ∧ (∀ (obj : LinphoneLDAPContactProvider) (config : LpConfig),
          configured_attributes config = s →
          ∃ obj1, linphone_ldap_contact_provider_loadconfig obj config = some obj1
            ∧ obj1.attributes = (strtok_tokens s.data []).map String.mk) := by
  have hload : ∀ (obj : LinphoneLDAPContactProvider) (config : LpConfig),
      configured_attributes config = s →
      ∃ obj1, linphone_ldap_contact_provider_loadconfig obj config = some obj1
        ∧ obj1.attributes = (strtok_tokens s.data []).map String.mk := by
    intro obj config hs
    obtain ⟨obj1, h1, h2, _⟩ := loadconfig_spec obj config (by rw [hs]; exact hlen)
    refine ⟨obj1, h1, ?_⟩
    rw [h2, hs, strtok_tokens_eq_splitOn]
    rfl
  obtain ⟨_, htok, hstore⟩ := load_attributes_array s.data hlen
  obtain ⟨j, hj⟩ : ∃ j, s.data.count ',' + 2 - (strtok_tokens s.data []).length = j + 1 :=
    ⟨s.data.count ',' + 2 - (strtok_tokens s.data []).length - 1, by omega⟩
  rw [hj] at hstore
  refine ⟨_, hstore, ?_, rfl, htok, ?_, ?_, ?_, ?_, hload⟩
  · simp only [List.length_append, List.length_map, List.length_replicate]
    omega
  · simp only [List.length_append, List.length_map, List.length_replicate]
    omega
  · intro i hi
    simp only [] at hi
    have hi2 : i < (List.map some (List.map String.mk (strtok_tokens s.data []))).length := by
      simpa using hi
    refine ⟨String.mk ((strtok_tokens s.data [])[i]), ?_⟩
    rw [List.get?_eq_getElem?, List.getElem?_append_left hi2]
    simp [hi]
  · simp only []
    rw [List.get?_eq_getElem?, List.getElem?_append_right (by simp)]
    simp [List.replicate_succ]
  · exact read_null_terminated_spec j _

/-- C25 at the string `,a,,b,` (four commas, two names, six slots). -/
theorem attribute_array_bounds_witness :
    attribute_array ",a,,b," = some ([some "a", some "b", none, none, none, none], 2)
    ∧ attribute_array "" = some ([none, none], 0)
    ∧ ∃ stored, attribute_array ",a,,b," = some stored
      ∧ stored.1.length = ",a,,b,".data.count ',' + 2
      ∧ stored.2 = (strtok_tokens ",a,,b,".data []).length
      ∧ stored.2 ≤ ",a,,b,".data.count ',' + 1
      ∧ stored.2 < stored.1.length
      ∧ (∀ i, i < stored.2 → ∃ name, stored.1.get? i = some (some name))
      ∧ stored.1.get? stored.2 = some none
      ∧ read_null_terminated stored.1
          = some ((strtok_tokens ",a,,b,".data []).map String.mk)
      ∧ (∀ (obj : LinphoneLDAPContactProvider) (config : LpConfig),
          configured_attributes config = ",a,,b," →
          ∃ obj1, linphone_ldap_contact_provider_loadconfig obj config = some obj1
            ∧ obj1.attributes = (strtok_tokens ",a,,b,".data []).map String.mk) :=
  ⟨by decide, by decide, attribute_array_bounds ",a,,b," (by decide)⟩

/-! ### The shape of a tick -/

/-- What a returning tick is made of: either nothing is dispatched to a
request (heap, registry, count and keys are kept, the trace gains at most the
poll), or the poll is of a search kind with a chain `first :: tl`, the chain is
handled for the request the lookup by `first.msgid` returns, and then that
request is cancelled when it is not `NULL` and the poll returned
`LDAP_RES_SEARCH_RESULT`. -/
theorem iterate_cases (lc : LinphoneCore) (poll : PollResult) (m m1 : Machine) (b : Bool)
    (h : linphone_ldap_contact_provider_iterate lc poll m = some (m1, b)) :
    b = true ∧
    ((m1.heap = m.heap
        ∧ (m1.trace = m.trace ∨ m1.trace = m.trace ++ [Event.ldap_result])
        ∧ m1.obj.requests = m.obj.requests ∧ m1.obj.req_count = m.obj.req_count
        ∧ m1.obj.name_attr = m.obj.name_attr ∧ m1.obj.sip_attr = m.obj.sip_attr)
      ∨ ∃ (first : LDAPMessage) (tl : List LDAPMessage) (m2 : Machine),
          poll.results = first :: tl
          ∧ handle_messages lc (linphone_ldap_request_entry_search m first.msgid)
              poll.results { m with trace := m.trace ++ [Event.ldap_result] } = some m2
          ∧ ((m1 = m2 ∧ (linphone_ldap_request_entry_search m first.msgid = none
                ∨ poll.ret ≠ LDAP_RES_SEARCH_RESULT))
            ∨ ∃ R, linphone_ldap_request_entry_search m first.msgid = some R
                ∧ poll.ret = LDAP_RES_SEARCH_RESULT
                ∧ m1 = (linphone_ldap_contact_provider_cancel_search m2 R).1)) := by
  have base : ∀ t : List Event, (t = m.trace ∨ t = m.trace ++ [Event.ldap_result]) →
      (({ m with trace := t } : Machine).heap = m.heap
        ∧ (({ m with trace := t } : Machine).trace = m.trace
            ∨ ({ m with trace := t } : Machine).trace = m.trace ++ [Event.ldap_result])
        ∧ ({ m with trace := t } : Machine).obj.requests = m.obj.requests
        ∧ ({ m with trace := t } : Machine).obj.req_count = m.obj.req_count
        ∧ ({ m with trace := t } : Machine).obj.name_attr = m.obj.name_attr
        ∧ ({ m with trace := t } : Machine).obj.sip_attr = m.obj.sip_attr) :=
    fun _ ht => ⟨rfl, ht, rfl, rfl, rfl, rfl⟩
  unfold linphone_ldap_contact_provider_iterate at h
  split at h
  · simp only [] at h
    split at h
    · simp only [Option.some.injEq, Prod.mk.injEq] at h
      rw [← h.1]; exact ⟨h.2.symm, Or.inl (base _ (Or.inr rfl))⟩
    split at h
    · simp only [Option.some.injEq, Prod.mk.injEq] at h
      rw [← h.1]; exact ⟨h.2.symm, Or.inl (base _ (Or.inr rfl))⟩
    split at h
    · split at h
      · simp at h
      · split at h
        · simp only [Option.some.injEq, Prod.mk.injEq] at h
          rw [← h.1]; exact ⟨h.2.symm, Or.inl (base _ (Or.inr rfl))⟩
        · simp only [Option.some.injEq, Prod.mk.injEq] at h
          rw [← h.1]
          refine ⟨h.2.symm, Or.inl ?_⟩
          unfold linphone_ldap_contact_provider_parse_bind_results
          split <;> exact ⟨rfl, Or.inr rfl, rfl, rfl, rfl, rfl⟩
    split at h
    · split at h
      · simp at h
      · rename_i first tl hres
        have hq : linphone_ldap_request_entry_search
            { m with trace := m.trace ++ [Event.ldap_result] } first.msgid
            = linphone_ldap_request_entry_search m first.msgid := rfl
        simp only [hq] at h
        cases hh : handle_messages lc (linphone_ldap_request_entry_search m first.msgid)
            poll.results { m with trace := m.trace ++ [Event.ldap_result] } with
        | none => simp [hh] at h
        | some m2 =>
          simp only [hh] at h
          split at h
          · rename_i r hr
            split at h
            · rename_i hret
              simp only [Option.some.injEq, Prod.mk.injEq] at h
              exact ⟨h.2.symm, Or.inr ⟨first, tl, m2, hres, hh,
                Or.inr ⟨r, hr, hret, h.1.symm⟩⟩⟩
            · rename_i hret
              simp only [Option.some.injEq, Prod.mk.injEq] at h
              exact ⟨h.2.symm, Or.inr ⟨first, tl, m2, hres, hh,
                Or.inl ⟨h.1.symm, Or.inr hret⟩⟩⟩
          · rename_i hr
            simp only [Option.some.injEq, Prod.mk.injEq] at h
            exact ⟨h.2.symm, Or.inr ⟨first, tl, m2, hres, hh,
              Or.inl ⟨h.1.symm, Or.inl hr⟩⟩⟩
    · simp only [Option.some.injEq, Prod.mk.injEq] at h
      rw [← h.1]; exact ⟨h.2.symm, Or.inl (base _ (Or.inr rfl))⟩
  · simp only [Option.some.injEq, Prod.mk.injEq] at h
    rw [← h.1]; exact ⟨h.2.symm, Or.inl ⟨rfl, Or.inl rfl, rfl, rfl, rfl, rfl⟩⟩


/-! ### One key for the name and for the address -/

theorem complete_contact_sip_same_key (obj : LinphoneLDAPContactProvider)
    (hkey : obj.name_attr = obj.sip_attr) (lf : LDAPFriendData) (a v : String) :
    (linphone_ldap_contact_provider_complete_contact obj lf a v).1.sip = lf.sip :=
  foldl_feed_sip_same_key obj hkey [(a, v)] lf

theorem entry_friend_same_key (lc : LinphoneCore) (obj : LinphoneLDAPContactProvider)
    (hkey : obj.name_attr = obj.sip_attr) (e : LDAPEntry) : entry_friend lc obj e = none := by
  cases h : entry_friend lc obj e with
  | none => rfl
  | some f => exact absurd hkey (entry_friend_spec lc obj e f h).1

theorem handle_entries_same_key (lc : LinphoneCore) (obj : LinphoneLDAPContactProvider)
    (hkey : obj.name_attr = obj.sip_attr) (req : Option Nat) :
    ∀ (entries : List LDAPEntry) (heap : List LinphoneLDAPContactSearch),
      handle_entries lc obj req entries heap = some heap := by
  intro entries
  induction entries with
  | nil => intro heap; rfl
  | cons e rest ih =>
    intro heap
    simp only [handle_entries, entry_friend_same_key lc obj hkey e]
    exact ih heap

theorem batch_records_same_key (lc : LinphoneCore) (obj : LinphoneLDAPContactProvider)
    (hkey : obj.name_attr = obj.sip_attr) (msgs : List LDAPMessage) :
    batch_records lc obj msgs = [] := by
  induction msgs with
  | nil => rfl
  | cons x rest ih =>
    rw [batch_records_cons, ih, List.append_nil]
    split
    · induction x.entries with
      | nil => rfl
      | cons e es ihe =>
        rw [List.flatMap_cons, ihe, entry_friend_same_key lc obj hkey e]
        rfl
    · rfl

/-- Setting the completion flag of an object changes no accumulated sequence
and no found-count. -/
theorem found_set_complete (heap : List LinphoneLDAPContactSearch) (a b : Nat) :
    (deref (heap.set a { deref heap a with complete := true }) b).found_entries
        = (deref heap b).found_entries
    ∧ (deref (heap.set a { deref heap a with complete := true }) b).found_count
        = (deref heap b).found_count := by
  by_cases hb : b = a
  · subst hb
    by_cases hR : b < heap.length
    · rw [deref_set_self _ _ _ hR]
      exact ⟨rfl, rfl⟩
    · rw [List.set_eq_of_length_le (by omega)]
      exact ⟨rfl, rfl⟩
  · rw [deref_set_other _ _ _ _ hb]
    exact ⟨rfl, rfl⟩

/-- One message handled under a single key: no accumulated sequence and no
found-count changes, and a callback added carries the sequence its request
held before. -/
theorem handle_search_result_same_key (lc : LinphoneCore) (m m1 : Machine)
    (req : Option Nat) (x : LDAPMessage) (hkey : m.obj.name_attr = m.obj.sip_attr)
    (h : linphone_ldap_contact_provider_handle_search_result lc m req x = some m1) :
    m1.obj = m.obj
    ∧ (∀ a, (deref m1.heap a).found_entries = (deref m.heap a).found_entries
        ∧ (deref m1.heap a).found_count = (deref m.heap a).found_count)
    ∧ ∃ evs, m1.trace = m.trace ++ evs
        ∧ ∀ ev ∈ evs, ∃ cb r d,
            ev = Event.invoke_cb cb r (deref m.heap r).found_entries d := by
  unfold linphone_ldap_contact_provider_handle_search_result at h
  by_cases h1 : x.msgtype = LDAP_RES_SEARCH_ENTRY ∨ x.msgtype = LDAP_RES_EXTENDED
  · rw [if_pos h1, handle_entries_same_key lc m.obj hkey] at h
    simp only [Option.some.injEq] at h
    subst h
    exact ⟨rfl, fun _ => ⟨rfl, rfl⟩, [], by simp, by simp⟩
  · rw [if_neg h1] at h
    by_cases h2 : x.msgtype = LDAP_RES_SEARCH_RESULT
    · rw [if_pos h2] at h
      cases req with
      | none => simp at h
      | some r =>
        simp only [Option.some.injEq] at h
        subst h
        refine ⟨rfl, fun a => found_set_complete m.heap r a, [_], rfl, ?_⟩
        intro ev hev
        simp only [List.mem_singleton] at hev
        exact ⟨_, r, _, hev⟩
    · rw [if_neg h2, Option.some.injEq] at h
      subst h
      exact ⟨rfl, fun _ => ⟨rfl, rfl⟩, [], by simp, by simp⟩

theorem handle_messages_same_key (lc : LinphoneCore) (req : Option Nat) :
    ∀ (msgs : List LDAPMessage) (m m1 : Machine), m.obj.name_attr = m.obj.sip_attr →
      handle_messages lc req msgs m = some m1 →
      m1.obj = m.obj
      ∧ (∀ a, (deref m1.heap a).found_entries = (deref m.heap a).found_entries
          ∧ (deref m1.heap a).found_count = (deref m.heap a).found_count)
      ∧ ∃ evs, m1.trace = m.trace ++ evs
          ∧ ∀ ev ∈ evs, ∃ cb r d,
              ev = Event.invoke_cb cb r (deref m.heap r).found_entries d := by
  intro msgs
  induction msgs with
  | nil =>
    intro m m1 _ h
    simp only [handle_messages, Option.some.injEq] at h
    subst h
    exact ⟨rfl, fun _ => ⟨rfl, rfl⟩, [], by simp, by simp⟩
  | cons x rest ih =>
    intro m m1 hkey h
    cases hx : linphone_ldap_contact_provider_handle_search_result lc m req x with
    | none => simp [handle_messages, hx] at h
    | some m2 =>
      simp only [handle_messages, hx] at h
      obtain ⟨o1, f1, e1, t1, c1⟩ := handle_search_result_same_key lc m m2 req x hkey hx
      obtain ⟨o2, f2, e2, t2, c2⟩ := ih m2 m1 (by rw [o1]; exact hkey) h
      refine ⟨o2.trans o1, fun a => ⟨(f2 a).1.trans (f1 a).1, (f2 a).2.trans (f1 a).2⟩,
        e1 ++ e2, ?_, ?_⟩
      · rw [t2, t1, List.append_assoc]
      · intro ev hev
        rcases List.mem_append.mp hev with h3 | h3
        · exact c1 ev h3
        · obtain ⟨cb, r, d, hd⟩ := c2 ev h3
          exact ⟨cb, r, d, by rw [hd, (f1 r).1]⟩

/-- The events a run adds under a single key, besides polls: callbacks that
carry the sequence their request held before the run. -/
theorem iterate_same_key (lc : LinphoneCore) (poll : PollResult) (m m1 : Machine) (b : Bool)
    (hkey : m.obj.name_attr = m.obj.sip_attr)
    (h : linphone_ldap_contact_provider_iterate lc poll m = some (m1, b)) :
    m1.obj.name_attr = m1.obj.sip_attr
    ∧ (∀ a, (deref m1.heap a).found_entries = (deref m.heap a).found_entries
        ∧ (deref m1.heap a).found_count = (deref m.heap a).found_count)
    ∧ ∃ evs, m1.trace = m.trace ++ evs
        ∧ ∀ cb r fr d, Event.invoke_cb cb r fr d ∈ evs →
            fr = (deref m.heap r).found_entries := by
  obtain ⟨_, hc | ⟨first, tl, m2, _, hh, hc⟩⟩ := iterate_cases lc poll m m1 b h
  · obtain ⟨hheap, htr, _, _, hn, hs⟩ := hc
    refine ⟨by rw [hn, hs]; exact hkey, fun a => by rw [hheap]; exact ⟨rfl, rfl⟩, ?_⟩
    rcases htr with htr | htr
    · exact ⟨[], by simp [htr], by simp⟩
    · refine ⟨[Event.ldap_result], htr, ?_⟩
      intro cb r fr d hmem
      simp at hmem
  · obtain ⟨o2, f2, e2, t2, c2⟩ := handle_messages_same_key lc _ _
      { m with trace := m.trace ++ [Event.ldap_result] } m2 hkey hh
    have hev : ∀ cb r fr d, Event.invoke_cb cb r fr d ∈ Event.ldap_result :: e2 →
        fr = (deref m.heap r).found_entries := by
      intro cb r fr d hmem
      rcases List.mem_cons.mp hmem with h3 | h3
      · cases h3
      · obtain ⟨cb2, r2, d2, hd⟩ := c2 _ h3
        simp only [Event.invoke_cb.injEq] at hd
        rw [hd.2.2.1, hd.2.1]
    have htr : m2.trace = m.trace ++ Event.ldap_result :: e2 := by
      rw [t2]; simp
    have hk2 : m2.obj.name_attr = m2.obj.sip_attr := by rw [o2]; exact hkey
    rcases hc with ⟨hm, _⟩ | ⟨R, _, _, hm⟩
    · subst hm
      exact ⟨hk2, f2, _, htr, hev⟩
    · have hfr := cancel_search_frame m2 R
      have hk1 : m1.obj.name_attr = m1.obj.sip_attr := by
        rw [hm]
        unfold linphone_ldap_contact_provider_cancel_search
        split
        · exact hk2
        · exact hk2
      refine ⟨hk1, fun a => ?_, _, ?_, hev⟩
      · rw [hm, hfr.1]; exact f2 a
      · rw [hm, hfr.2]; exact htr

theorem iterate_all_same_key (lc : LinphoneCore) :
    ∀ (polls : List PollResult) (m m1 : Machine), m.obj.name_attr = m.obj.sip_attr →
      iterate_all lc polls m = some m1 →
      (∀ a, (deref m1.heap a).found_entries = (deref m.heap a).found_entries
          ∧ (deref m1.heap a).found_count = (deref m.heap a).found_count)
      ∧ ∃ evs, m1.trace = m.trace ++ evs
          ∧ ∀ cb r fr d, Event.invoke_cb cb r fr d ∈ evs →
              fr = (deref m.heap r).found_entries := by
  intro polls
  induction polls with
  | nil =>
    intro m m1 _ h
    simp only [iterate_all, Option.some.injEq] at h
    subst h
    exact ⟨fun _ => ⟨rfl, rfl⟩, [], by simp, by simp⟩
  | cons poll rest ih =>
    intro m m1 hkey h
    cases hx : linphone_ldap_contact_provider_iterate lc poll m with
    | none => simp [iterate_all, hx] at h
    | some r =>
      obtain ⟨m2, b⟩ := r
      simp only [iterate_all, hx] at h
      obtain ⟨k1, f1, e1, t1, c1⟩ := iterate_same_key lc poll m m2 b hkey hx
      obtain ⟨f2, e2, t2, c2⟩ := ih m2 m1 k1 h
      refine ⟨fun a => ⟨(f2 a).1.trans (f1 a).1, (f2 a).2.trans (f1 a).2⟩, e1 ++ e2, ?_, ?_⟩
      · rw [t2, t1, List.append_assoc]
      · intro cb r fr d hmem
        rcases List.mem_append.mp hmem with h3 | h3
        · exact c1 cb r fr d h3
        · rw [c2 cb r fr d h3, (f1 r).1]


theorem scan_pairs_same_key (obj : LinphoneLDAPContactProvider)
    (hkey : obj.name_attr = obj.sip_attr) :
    ∀ (l : List (String × String)) (lf : LDAPFriendData), lf.sip = none →
      (scan_pairs obj l lf).2 = false ∧ (scan_pairs obj l lf).1.sip = none := by
  intro l
  induction l with
  | nil => intro lf h; exact ⟨rfl, h⟩
  | cons p rest ih =>
    intro lf h
    have hs : (feed obj lf p).sip = none :=
      (complete_contact_sip_same_key obj hkey lf p.1 p.2).trans h
    have hc : is_complete (feed obj lf p) = false := by
      unfold is_complete
      rw [hs]
      simp
    simp only [scan_pairs, hc]
    exact ih _ hs

/-- A submission that is accepted: the handle is the address of a new object
with an empty accumulated sequence, and the keys are kept. -/
theorem begin_search_fresh (lib : LDAPLibrary) (m m0 : Machine) (predicate : String)
    (cb cb_data h : Nat)
    (hb : linphone_ldap_begin_search lib m predicate cb cb_data = (m0, some h)) :
    m0.obj.name_attr = m.obj.name_attr ∧ m0.obj.sip_attr = m.obj.sip_attr
    ∧ (deref m0.heap h).found_entries = [] ∧ (deref m0.heap h).found_count = 0
    ∧ (deref m0.heap h).base.cb = cb ∧ h ∈ m0.obj.requests := by
  by_cases hs : (lib.ldap_search_ext (search_call m.obj predicate)).1 = LDAP_SUCCESS
  · have hb2 : linphone_ldap_begin_search lib m predicate cb cb_data
        = ({ heap := m.heap ++ [new_search m.obj predicate cb cb_data
                (lib.ldap_search_ext (search_call m.obj predicate)).2],
             obj := { m.obj with
               requests := m.obj.requests ++ [m.heap.length]
               req_count := (m.obj.req_count + 1) % UINT_MOD },
             trace := m.trace ++ [Event.ldap_search_ext (search_call m.obj predicate)] },
           some m.heap.length) := by
      simp [linphone_ldap_begin_search, linphone_ldap_contact_search_create, hs,
        ms_list_append]
    rw [hb2] at hb
    simp only [Prod.mk.injEq, Option.some.injEq] at hb
    obtain ⟨hm, hh⟩ := hb
    subst hm
    subst hh
    refine ⟨rfl, rfl, ?_, ?_, ?_, by simp⟩ <;> rw [deref_append_length] <;> rfl
  · have hb2 : linphone_ldap_begin_search lib m predicate cb cb_data
        = ({ m with trace := m.trace ++ [Event.ldap_search_ext (search_call m.obj predicate)] },
           none) := by
      simp [linphone_ldap_begin_search, linphone_ldap_contact_search_create, hs]
    rw [hb2] at hb
    simp at hb

/-! ### Claim C24 -/

/-- C24: when the name key and the address key of the provider are the same
string, `linphone_ldap_contact_provider_complete_contact` leaves the address
field as it was for every pair, so the scan of an entry never reports a
complete contact, no entry is turned into a record whatever its attributes,
and a chain of messages yields no record.  Along every run of ticks that
returns, every accumulated sequence and every found-count stays as it was, and
every callback invoked carries the sequence its request held before the run;
for a search submitted under this configuration that sequence is empty. -/
theorem same_key_yields_no_record (lc : LinphoneCore) (m : Machine)
    (hkey : m.obj.name_attr = m.obj.sip_attr) :
    (∀ (lf : LDAPFriendData) (a v : String),
        (linphone_ldap_contact_provider_complete_contact m.obj lf a v).1.sip = lf.sip)
    ∧ (∀ attrs : List LDAPAttribute,
        (scan_attributes m.obj attrs { name := none, sip := none }).2 = false
        ∧ (scan_attributes m.obj attrs { name := none, sip := none }).1.sip = none)
    ∧ (∀ e : LDAPEntry, entry_friend lc m.obj e = none)
    ∧ (∀ msgs : List LDAPMessage, batch_records lc m.obj msgs = [])
    ∧ (∀ (polls : List PollResult) (m1 : Machine), iterate_all lc polls m = some m1 →
        (∀ a, (deref m1.heap a).found_entries = (deref m.heap a).found_entries
          ∧ (deref m1.heap a).found_count = (deref m.heap a).found_count)
        ∧ ∃ evs, m1.trace = m.trace ++ evs
          ∧ ∀ cb r fr d, Event.invoke_cb cb r fr d ∈ evs →
              fr = (deref m.heap r).found_entries)
    ∧ (∀ (lib : LDAPLibrary) (predicate : String) (cb cb_data h : Nat) (m0 : Machine)
        (polls : List PollResult) (m1 : Machine),
        linphone_ldap_begin_search lib m predicate cb cb_data = (m0, some h) →
        iterate_all lc polls m0 = some m1 →
        (deref m1.heap h).found_entries = [] ∧ (deref m1.heap h).found_count = 0
        ∧ ∃ evs, m1.trace = m0.trace ++ evs
          ∧ ∀ cb2 fr d, Event.invoke_cb cb2 h fr d ∈ evs → fr = []) := by
  refine ⟨complete_contact_sip_same_key m.obj hkey, ?_, entry_friend_same_key lc m.obj hkey,
    batch_records_same_key lc m.obj hkey, ?_, ?_⟩
  · intro attrs
    rw [scan_attributes_eq_scan_pairs]
    exact scan_pairs_same_key m.obj hkey _ _ rfl
  · intro polls m1 h
    exact iterate_all_same_key lc polls m m1 hkey h
  · intro lib predicate cb cb_data h m0 polls m1 hb hrun
    obtain ⟨hn, hs, hfe, hfc, _, _⟩ := begin_search_fresh lib m m0 predicate cb cb_data h hb
    obtain ⟨f, evs, ht, hc⟩ :=
      iterate_all_same_key lc polls m0 m1 (by rw [hn, hs]; exact hkey) hrun
    refine ⟨(f h).1.trans hfe, (f h).2.trans hfc, evs, ht, ?_⟩
    intro cb2 fr d hmem
    rw [hc cb2 h fr d hmem, hfe]

/-- C24 at `machine_same_key`, whose two keys are `mobile`: the entry
`entry_mobile_only` yields no record, and the terminal message of the tick
delivers the empty sequence. -/
theorem same_key_yields_no_record_witness :
    machine_same_key.obj.name_attr = machine_same_key.obj.sip_attr
    ∧ entry_friend sip_core machine_same_key.obj entry_mobile_only = none
    ∧ (iterate_all sip_core
          [entry_poll 1 entry_mobile_only, terminal_poll 1] machine_same_key).map
        (fun m1 => m1.trace)
        = some [Event.ldap_result, Event.ldap_result, Event.invoke_cb 0 0 [] 0] :=
  ⟨rfl, (same_key_yields_no_record sip_core machine_same_key rfl).2.2.1 entry_mobile_only,
    by decide⟩


/-! ### The request removed after a terminal batch -/

theorem find_custom_lt {α β : Type} (cmp : α → β → Int) (d : β) :
    ∀ (l : List α) (i : Nat), ms_list_find_custom l cmp d = some i → i < l.length := by
  intro l
  induction l with
  | nil => intro i h; simp [ms_list_find_custom] at h
  | cons x rest ih =>
    intro i h
    by_cases hx : cmp x d = 0
    · simp only [ms_list_find_custom, hx, if_true, Option.some.injEq] at h
      rw [← h]
      simp
    · simp only [ms_list_find_custom, hx, if_false] at h
      cases hr : ms_list_find_custom rest cmp d with
      | none => simp [hr] at h
      | some j =>
        simp only [hr, Option.map_some', Option.some.injEq] at h
        have := ih j hr
        rw [← h]
        simp only [List.length_cons]
        omega

/-- The registry element the lookup by id returns: its position is the one the
identity lookup of the cancellation finds, on any heap with the same ids. -/
theorem entry_search_index (m : Machine) (M : Int) (R : Nat)
    (hreq : linphone_ldap_request_entry_search m M = some R) :
    ∃ i, ms_list_find_custom m.obj.requests
          (fun a b => linphone_ldap_request_entry_compare_weak (deref m.heap a) b)
          { (default : LinphoneLDAPContactSearch) with msgid := M } = some i
      ∧ i < m.obj.requests.length
      ∧ m.obj.requests.get? i = some R
      ∧ m.obj.requests.eraseIdx i = m.obj.requests.erase R
      ∧ ∀ heap2 : List LinphoneLDAPContactSearch,
          (∀ a, (deref heap2 a).msgid = (deref m.heap a).msgid) →
          ms_list_find_custom m.obj.requests
            (linphone_ldap_request_entry_compare_strong heap2) R = some i := by
  unfold linphone_ldap_request_entry_search at hreq
  simp only [] at hreq
  cases hf : ms_list_find_custom m.obj.requests
      (fun a b => linphone_ldap_request_entry_compare_weak (deref m.heap a) b)
      { (default : LinphoneLDAPContactSearch) with msgid := M } with
  | none => simp [hf] at hreq
  | some i =>
    simp only [hf] at hreq
    obtain ⟨R2, hget, _, _, hers, hstrong⟩ :=
      find_custom_weak_then_strong m.heap _ m.obj.requests i hf
    have hRR : R2 = R := by
      rw [hget] at hreq
      exact Option.some.inj hreq
    subst hRR
    exact ⟨i, rfl, find_custom_lt _ _ _ _ hf, hget, hers, hstrong⟩

/-- A chain with a terminal message, handled for a request, adds an event. -/
theorem handle_messages_terminal_event (lc : LinphoneCore) (R : Nat) :
    ∀ (msgs : List LDAPMessage) (m m1 : Machine),
      handle_messages lc (some R) msgs m = some m1 →
      (∃ x ∈ msgs, x.msgtype = LDAP_RES_SEARCH_RESULT) →
      m.trace.length < m1.trace.length := by
  intro msgs
  induction msgs with
  | nil => intro m m1 _ h; simp at h
  | cons x rest ih =>
    intro m m1 h hex
    cases hx : linphone_ldap_contact_provider_handle_search_result lc m (some R) x with
    | none => simp [handle_messages, hx] at h
    | some m2 =>
      simp only [handle_messages, hx] at h
      obtain ⟨_, _, e2, t2, _⟩ := handle_messages_frame lc (some R) rest m2 m1 h
      by_cases hterm : x.msgtype = LDAP_RES_SEARCH_RESULT
      · rw [handle_search_result_terminal lc m R x hterm, Option.some.injEq] at hx
        rw [t2, ← hx]
        simp only [List.length_append, List.length_cons, List.length_nil]
        omega
      · obtain ⟨_, _, e1, t1, _⟩ := handle_search_result_frame lc m m2 (some R) x hx
        have hrest : ∃ y ∈ rest, y.msgtype = LDAP_RES_SEARCH_RESULT := by
          obtain ⟨y, hy, hyt⟩ := hex
          rcases List.mem_cons.mp hy with h3 | h3
          · rw [h3] at hyt; exact absurd hyt hterm
          · exact ⟨y, h3, hyt⟩
        have := ih m2 m1 h hrest
        rw [t1] at this
        simp only [List.length_append] at this
        omega

/-! ### Claim C23 -/

/-- C23: for every registry, also one in which several requests hold the same
message id or an address is registered twice, when a tick polls a batch of kind
`LDAP_RES_SEARCH_RESULT` whose first message id is found in the registry, at
position `i` with request `R`: the tick returns; the identity lookup of the
cancellation, run on the heap as the handler left it, selects the same
position `i`; the registry afterwards is the old one without the element at
position `i` (so exactly one element is removed, and it is `R`); every
callback the tick invokes is invoked for `R`, and there is one as soon as the
batch holds a terminal message. -/
theorem terminal_tick_removes_delivered_request (lc : LinphoneCore) (m : Machine)
    (poll : PollResult) (first : LDAPMessage) (tl : List LDAPMessage) (R : Nat)
    (hld : m.obj.ld ≠ 0) (hpend : m.obj.req_count > 0 ∨ m.obj.bind_msgid ≠ 0)
    (hret : poll.ret = LDAP_RES_SEARCH_RESULT) (hres : poll.results = first :: tl)
    (hreq : linphone_ldap_request_entry_search m first.msgid = some R) :
    ∃ (m1 : Machine) (i : Nat) (evs : List Event),
      linphone_ldap_contact_provider_iterate lc poll m = some (m1, true)
      ∧ ms_list_find_custom m.obj.requests
          (fun a b => linphone_ldap_request_entry_compare_weak (deref m.heap a) b)
          { (default : LinphoneLDAPContactSearch) with msgid := first.msgid } = some i
      ∧ m.obj.requests.get? i = some R
      ∧ ms_list_find_custom m.obj.requests
          (linphone_ldap_request_entry_compare_strong m1.heap) R = some i
      ∧ m1.obj.requests = m.obj.requests.eraseIdx i
      ∧ m1.obj.requests = m.obj.requests.erase R
      ∧ m1.obj.requests.length + 1 = m.obj.requests.length
      ∧ m1.trace = m.trace ++ Event.ldap_result :: evs
      ∧ (∀ ev ∈ evs, ∃ cb fr d, ev = Event.invoke_cb cb R fr d)
      ∧ ((∃ x ∈ poll.results, x.msgtype = LDAP_RES_SEARCH_RESULT) → evs ≠ []) := by
  obtain ⟨m2, h2⟩ := handle_messages_some lc R poll.results
    { m with trace := m.trace ++ [Event.ldap_result] }
  obtain ⟨hobj, _, evs, htr, hev⟩ := handle_messages_frame lc (some R) poll.results
    { m with trace := m.trace ++ [Event.ldap_result] } m2 h2
  obtain ⟨_, hids⟩ := handle_messages_shape lc (some R) poll.results
    { m with trace := m.trace ++ [Event.ldap_result] } m2 h2
  have hobj2 : m2.obj = m.obj := hobj
  have hids2 : ∀ a, (deref m2.heap a).msgid = (deref m.heap a).msgid := hids
  obtain ⟨_, _, hcancel⟩ := cancel_after_entry_search m m2 R first.msgid hreq hobj2 hids2
  obtain ⟨i, hweak, hi, hget, hers, hstrong⟩ := entry_search_index m first.msgid R hreq
  have hit : linphone_ldap_contact_provider_iterate lc poll m
      = some ((linphone_ldap_contact_provider_cancel_search m2 R).1, true) := by
    rw [iterate_search_kind lc poll m first tl hld hpend
      (Or.inr (Or.inr (Or.inr (Or.inr hret)))) hres, hreq, h2]
    simp only [if_pos hret]
  refine ⟨(linphone_ldap_contact_provider_cancel_search m2 R).1, i, evs, hit, hweak, hget,
    ?_, ?_, ?_, ?_, ?_, ?_, ?_⟩
  · rw [hcancel]
    exact hstrong m2.heap hids2
  · rw [hcancel, hers]
  · rw [hcancel]
  · rw [hcancel]
    simp only [← hers, List.length_eraseIdx, if_pos hi]
    omega
  · rw [hcancel]
    simp only [htr, List.append_assoc, List.singleton_append]
  · intro ev hmem
    obtain ⟨r, cb, fr, d, hr, he⟩ := hev ev hmem
    rw [Option.some.injEq] at hr
    exact ⟨cb, fr, d, by rw [he, hr]⟩
  · intro hex hnil
    have hlt := handle_messages_terminal_event lc R poll.results _ m2 h2 hex
    rw [htr, hnil] at hlt
    simp at hlt


/-- C23 at `machine_shared_id`, where addresses 0 and 1 are registered with the
same id 5: a terminal message for id 5 is delivered to address 0, and address
0 is the one removed. -/
theorem terminal_tick_removes_delivered_request_witness :
    (∃ (m1 : Machine) (i : Nat) (evs : List Event),
      linphone_ldap_contact_provider_iterate sip_core (terminal_poll 5) machine_shared_id
        = some (m1, true)
      ∧ ms_list_find_custom machine_shared_id.obj.requests
          (fun a b => linphone_ldap_request_entry_compare_weak
            (deref machine_shared_id.heap a) b)
          { (default : LinphoneLDAPContactSearch) with msgid := 5 } = some i
      ∧ machine_shared_id.obj.requests.get? i = some 0
      ∧ ms_list_find_custom machine_shared_id.obj.requests
          (linphone_ldap_request_entry_compare_strong m1.heap) 0 = some i
      ∧ m1.obj.requests = machine_shared_id.obj.requests.eraseIdx i
      ∧ m1.obj.requests = machine_shared_id.obj.requests.erase 0
      ∧ m1.obj.requests.length + 1 = machine_shared_id.obj.requests.length
      ∧ m1.trace = machine_shared_id.trace ++ Event.ldap_result :: evs
      ∧ (∀ ev ∈ evs, ∃ cb fr d, ev = Event.invoke_cb cb 0 fr d)
      ∧ ((∃ x ∈ (terminal_poll 5).results, x.msgtype = LDAP_RES_SEARCH_RESULT) → evs ≠ []))
    ∧ (linphone_ldap_contact_provider_iterate sip_core (terminal_poll 5)
          machine_shared_id).map (fun r => (r.1.obj.requests, r.1.trace))
        = some ([1], [Event.ldap_result, Event.invoke_cb 0 0 [] 0]) :=
  ⟨terminal_tick_removes_delivered_request sip_core machine_shared_id (terminal_poll 5)
      { msgid := 5, msgtype := LDAP_RES_SEARCH_RESULT, entries := [] } [] 0
      (by decide) (by decide) rfl rfl (by decide),
    by decide⟩


/-! ### A batch that mixes message ids -/

/-- A chain handled for a live request, terminal messages included: the
friends of all its entry messages are appended to the request. -/
theorem handle_messages_records (lc : LinphoneCore) (R : Nat) :
    ∀ (msgs : List LDAPMessage) (m : Machine), R < m.heap.length →
      ∃ m1, handle_messages lc (some R) msgs m = some m1
        ∧ (deref m1.heap R).found_entries
            = (deref m.heap R).found_entries ++ batch_records lc m.obj msgs
        ∧ (deref m1.heap R).found_count
            = (deref m.heap R).found_count + (batch_records lc m.obj msgs).length := by
  intro msgs
  induction msgs with
  | nil =>
    intro m _
    exact ⟨m, rfl, by simp [batch_records], by simp [batch_records]⟩
  | cons x rest ih =>
    intro m hR
    rw [batch_records_cons]
    by_cases hx : x.msgtype = LDAP_RES_SEARCH_ENTRY ∨ x.msgtype = LDAP_RES_EXTENDED
    · obtain ⟨m1, h1, hfe, hfc⟩ := ih
        { m with heap := m.heap.set R (add_records (deref m.heap R)
            (x.entries.flatMap (fun e => (entry_friend lc m.obj e).toList))) }
        (by simpa using hR)
      refine ⟨m1, ?_, ?_, ?_⟩
      · simp only [handle_messages, handle_search_result_entries lc m R x hR hx]
        exact h1
      · rw [hfe, if_pos hx]
        simp only [deref_set_self _ _ _ hR, add_records, List.append_assoc]
      · rw [hfc, if_pos hx]
        simp only [deref_set_self _ _ _ hR, add_records, List.length_append]
        push_cast
        ring
    · rw [if_neg hx, List.nil_append]
      by_cases hterm : x.msgtype = LDAP_RES_SEARCH_RESULT
      · obtain ⟨m1, h1, hfe, hfc⟩ := ih
          { m with
            heap := m.heap.set R { deref m.heap R with complete := true }
            trace := m.trace ++ [Event.invoke_cb (deref m.heap R).base.cb R
              (deref m.heap R).found_entries (deref m.heap R).base.data] }
          (by simpa using hR)
        refine ⟨m1, ?_, ?_, ?_⟩
        · simp only [handle_messages, handle_search_result_terminal lc m R x hterm]
          exact h1
        · rw [hfe]
          simp only [deref_set_self _ _ _ hR]
        · rw [hfc]
          simp only [deref_set_self _ _ _ hR]
      · obtain ⟨m1, h1, hfe, hfc⟩ := ih m hR
        refine ⟨m1, ?_, hfe, hfc⟩
        simp only [handle_messages, handle_search_result_other lc m (some R) x hx hterm]
        exact h1

theorem mem_batch_records (lc : LinphoneCore) (obj : LinphoneLDAPContactProvider)
    (msgs : List LDAPMessage) (x : LDAPMessage) (e : LDAPEntry) (f : LinphoneFriend)
    (hx : x ∈ msgs)
    (hkind : x.msgtype = LDAP_RES_SEARCH_ENTRY ∨ x.msgtype = LDAP_RES_EXTENDED)
    (he : e ∈ x.entries) (hf : entry_friend lc obj e = some f) :
    f ∈ batch_records lc obj msgs := by
  unfold batch_records
  rw [List.mem_flatMap]
  refine ⟨x, hx, ?_⟩
  rw [if_pos hkind, List.mem_flatMap]
  exact ⟨e, he, by rw [hf]; simp⟩

/-! ### Claim C21 -/

/-- C21: for a polled batch of a search kind whose first message id is found in
the registry, with the live request `R1`: the tick returns, and the
accumulated sequence of `R1` is the old one followed by the records of every
entry message of the batch, whatever id the message carries (so also those of
a message whose id belongs to another registered request `R2`), its
found-count growing by their number; every object other than `R1` is left as
it was (accumulated sequence, found-count and completion flag included), and
no callback is invoked for it. -/
theorem batch_attributed_to_first_request (lc : LinphoneCore) (m : Machine)
    (poll : PollResult) (first : LDAPMessage) (tl : List LDAPMessage) (R1 : Nat)
    (hld : m.obj.ld ≠ 0) (hpend : m.obj.req_count > 0 ∨ m.obj.bind_msgid ≠ 0)
    (hkind : poll.ret = LDAP_RES_EXTENDED ∨ poll.ret = LDAP_RES_SEARCH_ENTRY
      ∨ poll.ret = LDAP_RES_SEARCH_REFERENCE ∨ poll.ret = LDAP_RES_INTERMEDIATE
      ∨ poll.ret = LDAP_RES_SEARCH_RESULT)
    (hres : poll.results = first :: tl)
    (hreq : linphone_ldap_request_entry_search m first.msgid = some R1)
    (hlive : R1 < m.heap.length) :
    ∃ (m1 : Machine) (evs : List Event),
      linphone_ldap_contact_provider_iterate lc poll m = some (m1, true)
      ∧ (deref m1.heap R1).found_entries
          = (deref m.heap R1).found_entries ++ batch_records lc m.obj poll.results
      ∧ (deref m1.heap R1).found_count
          = (deref m.heap R1).found_count + (batch_records lc m.obj poll.results).length
      ∧ (∀ x ∈ poll.results,
          x.msgtype = LDAP_RES_SEARCH_ENTRY ∨ x.msgtype = LDAP_RES_EXTENDED →
          ∀ e ∈ x.entries, ∀ f, entry_friend lc m.obj e = some f →
            f ∈ (deref m1.heap R1).found_entries)
      ∧ (∀ R2, R2 ≠ R1 → deref m1.heap R2 = deref m.heap R2)
      ∧ m1.trace = m.trace ++ Event.ldap_result :: evs
      ∧ (∀ ev ∈ evs, ∃ cb fr d, ev = Event.invoke_cb cb R1 fr d) := by
  obtain ⟨m2, h2, hfe, hfc⟩ := handle_messages_records lc R1 poll.results
    { m with trace := m.trace ++ [Event.ldap_result] } hlive
  obtain ⟨_, hframe, evs, htr, hev⟩ := handle_messages_frame lc (some R1) poll.results
    { m with trace := m.trace ++ [Event.ldap_result] } m2 h2
  have hit : ∃ m1, linphone_ldap_contact_provider_iterate lc poll m = some (m1, true)
      ∧ m1.heap = m2.heap ∧ m1.trace = m2.trace := by
    rw [iterate_search_kind lc poll m first tl hld hpend hkind hres, hreq, h2]
    by_cases hret : poll.ret = LDAP_RES_SEARCH_RESULT
    · simp only [if_pos hret]
      exact ⟨_, rfl, (cancel_search_frame m2 R1).1, (cancel_search_frame m2 R1).2⟩
    · simp only [if_neg hret]
      exact ⟨_, rfl, rfl, rfl⟩
  obtain ⟨m1, h1, hheap, htrace⟩ := hit
  have hfe1 : (deref m1.heap R1).found_entries
      = (deref m.heap R1).found_entries ++ batch_records lc m.obj poll.results := by
    rw [hheap]; exact hfe
  refine ⟨m1, evs, h1, hfe1, ?_, ?_, ?_, ?_, ?_⟩
  · rw [hheap]; exact hfc
  · intro x hx hk e he f hf
    rw [hfe1]
    exact List.mem_append_right _ (mem_batch_records lc m.obj poll.results x e f hx hk he hf)
  · intro R2 hne
    rw [hheap]
    exact hframe R2 (fun h => hne (Option.some.inj h).symm)
  · rw [htrace, htr]
    simp only [List.append_assoc, List.singleton_append]
  · intro ev hmem
    obtain ⟨r, cb, fr, d, hr, he⟩ := hev ev hmem
    rw [Option.some.injEq] at hr
    exact ⟨cb, fr, d, by rw [he, hr]⟩

/-- C21 at `machine_two_requests` (address 0 holds id 1, address 1 holds id 2)
and `poll_mixed_ids`: the record of the message for id 2 lands in the sequence
of address 0, after the record of the message for id 1, and address 1 is as it
was. -/
theorem batch_attributed_to_first_request_witness :
    (∃ (m1 : Machine) (evs : List Event),
      linphone_ldap_contact_provider_iterate sip_core poll_mixed_ids machine_two_requests
        = some (m1, true)
      ∧ (deref m1.heap 0).found_entries
          = (deref machine_two_requests.heap 0).found_entries
            ++ batch_records sip_core machine_two_requests.obj poll_mixed_ids.results
      ∧ (deref m1.heap 0).found_count
          = (deref machine_two_requests.heap 0).found_count
            + (batch_records sip_core machine_two_requests.obj poll_mixed_ids.results).length
      ∧ (∀ x ∈ poll_mixed_ids.results,
          x.msgtype = LDAP_RES_SEARCH_ENTRY ∨ x.msgtype = LDAP_RES_EXTENDED →
          ∀ e ∈ x.entries, ∀ f, entry_friend sip_core machine_two_requests.obj e = some f →
            f ∈ (deref m1.heap 0).found_entries)
      ∧ (∀ R2, R2 ≠ 0 → deref m1.heap R2 = deref machine_two_requests.heap R2)
      ∧ m1.trace = machine_two_requests.trace ++ Event.ldap_result :: evs
      ∧ (∀ ev ∈ evs, ∃ cb fr d, ev = Event.invoke_cb cb 0 fr d))
    ∧ linphone_ldap_request_entry_search machine_two_requests 2 = some 1
    ∧ (linphone_ldap_contact_provider_iterate sip_core poll_mixed_ids
          machine_two_requests).map
        (fun r => ((deref r.1.heap 0).found_entries, (deref r.1.heap 0).found_count,
          deref r.1.heap 1))
        = some ([{ name := "Bob", address := { uri := "sip:bob@example.com" } },
                 { name := "Alice", address := { uri := "sip:alice@example.com" } }], 2,
                search_with_id 2) :=
  ⟨batch_attributed_to_first_request sip_core machine_two_requests poll_mixed_ids
      { msgid := 1, msgtype := LDAP_RES_SEARCH_ENTRY, entries := [entry_bob] }
      [{ msgid := 2, msgtype := LDAP_RES_SEARCH_ENTRY, entries := [entry_alice] }] 0
      (by decide) (by decide) (Or.inr (Or.inl rfl)) rfl (by decide) (by decide),
    by decide, by decide⟩


/-! ### The outstanding count -/

theorem mod_decrement (n c : Nat) (hn : 0 < n) (hc : c = n % UINT_MOD) :
    (c + UINT_MOD - 1) % UINT_MOD = (n - 1) % UINT_MOD := by
  unfold UINT_MOD at *
  omega

theorem mod_increment (n c : Nat) (hc : c = n % UINT_MOD) :
    (c + 1) % UINT_MOD = (n + 1) % UINT_MOD := by
  unfold UINT_MOD at *
  omega

/-- A cancellation keeps the count equal to the size of the registry. -/
theorem cancel_search_count (m : Machine) (req : Nat)
    (h : m.obj.req_count = m.obj.requests.length % UINT_MOD) :
    (linphone_ldap_contact_provider_cancel_search m req).1.obj.req_count
      = (linphone_ldap_contact_provider_cancel_search m req).1.obj.requests.length
          % UINT_MOD := by
  unfold linphone_ldap_contact_provider_cancel_search
  cases hf : ms_list_find_custom m.obj.requests
      (linphone_ldap_request_entry_compare_strong m.heap) req with
  | none => exact h
  | some i =>
    have hi := find_custom_lt _ _ _ _ hf
    simp only [ms_list_remove_link, List.length_eraseIdx, if_pos hi]
    exact mod_decrement _ _ (by omega) h

/-- A cancellation that finds its request decrements a positive count by one;
one that does not leaves the provider as it was. -/
theorem cancel_search_decrement (m : Machine) (req : Nat)
    (h : m.obj.req_count = m.obj.requests.length) (hu : m.obj.requests.length < UINT_MOD) :
    ((linphone_ldap_contact_provider_cancel_search m req).2 = 0 →
      0 < m.obj.req_count
      ∧ (linphone_ldap_contact_provider_cancel_search m req).1.obj.req_count
          = m.obj.req_count - 1
      ∧ (linphone_ldap_contact_provider_cancel_search m req).1.obj.requests.length
          = m.obj.requests.length - 1)
    ∧ ((linphone_ldap_contact_provider_cancel_search m req).2 ≠ 0 →
      (linphone_ldap_contact_provider_cancel_search m req).1 = m) := by
  unfold linphone_ldap_contact_provider_cancel_search
  cases hf : ms_list_find_custom m.obj.requests
      (linphone_ldap_request_entry_compare_strong m.heap) req with
  | none =>
    refine ⟨fun h0 => ?_, fun _ => rfl⟩
    simp at h0
  | some i =>
    have hi := find_custom_lt _ _ _ _ hf
    simp only []
    refine ⟨fun _ => ⟨by omega, ?_, ?_⟩, fun h0 => absurd rfl h0⟩
    · exact uint_decrement _ (by omega) (by omega)
    · simp only [ms_list_remove_link, List.length_eraseIdx, if_pos hi]

/-- A submission keeps the count equal to the size of the registry. -/
theorem begin_search_count (lib : LDAPLibrary) (m : Machine) (predicate : String)
    (cb cb_data : Nat) (h : m.obj.req_count = m.obj.requests.length % UINT_MOD) :
    (linphone_ldap_begin_search lib m predicate cb cb_data).1.obj.req_count
      = (linphone_ldap_begin_search lib m predicate cb cb_data).1.obj.requests.length
          % UINT_MOD := by
  by_cases hs : (lib.ldap_search_ext (search_call m.obj predicate)).1 = LDAP_SUCCESS
  · have hb : linphone_ldap_begin_search lib m predicate cb cb_data
        = ({ heap := m.heap ++ [new_search m.obj predicate cb cb_data
                (lib.ldap_search_ext (search_call m.obj predicate)).2],
             obj := { m.obj with
               requests := m.obj.requests ++ [m.heap.length]
               req_count := (m.obj.req_count + 1) % UINT_MOD },
             trace := m.trace ++ [Event.ldap_search_ext (search_call m.obj predicate)] },
           some m.heap.length) := by
      simp [linphone_ldap_begin_search, linphone_ldap_contact_search_create, hs,
        ms_list_append]
    rw [hb]
    simp only [List.length_append, List.length_cons, List.length_nil]
    exact mod_increment _ _ h
  · have hb : linphone_ldap_begin_search lib m predicate cb cb_data
        = ({ m with trace := m.trace ++ [Event.ldap_search_ext (search_call m.obj predicate)] },
           none) := by
      simp [linphone_ldap_begin_search, linphone_ldap_contact_search_create, hs]
    rw [hb]
    exact h

/-- A tick keeps the count equal to the size of the registry. -/
theorem iterate_count (lc : LinphoneCore) (poll : PollResult) (m m1 : Machine) (b : Bool)
    (hit : linphone_ldap_contact_provider_iterate lc poll m = some (m1, b))
    (h : m.obj.req_count = m.obj.requests.length % UINT_MOD) :
    m1.obj.req_count = m1.obj.requests.length % UINT_MOD := by
  obtain ⟨_, hc | ⟨first, tl, m2, _, hh, hc⟩⟩ := iterate_cases lc poll m m1 b hit
  · obtain ⟨_, _, hr, hcnt, _, _⟩ := hc
    rw [hr, hcnt]
    exact h
  · obtain ⟨o2, _, _⟩ := handle_messages_frame lc _ poll.results
      { m with trace := m.trace ++ [Event.ldap_result] } m2 hh
    have h2 : m2.obj.req_count = m2.obj.requests.length % UINT_MOD := by
      rw [o2]; exact h
    rcases hc with ⟨hm, _⟩ | ⟨R, _, _, hm⟩
    · rw [hm]; exact h2
    · rw [hm]; exact cancel_search_count m2 R h2

/-- In every reachable state the count is the size of the registry, as
`unsigned int`. -/
theorem reachable_count (lc : LinphoneCore) (m : Machine)
    (h : Reachable lc (fun _ _ _ => True) m) :
    m.obj.req_count = m.obj.requests.length % UINT_MOD := by
  induction h with
  | init m hreq hcnt => rw [hreq, hcnt]; rfl
  | begin_search m lib predicate cb cb_data _ _ ih =>
    exact begin_search_count lib m predicate cb cb_data ih
  | cancel_search m req _ ih => exact cancel_search_count m req ih
  | iterate m m1 poll b _ hit ih => exact iterate_count lc poll m m1 b hit ih

/-! ### Claim C22 -/

/-- C22: in every state reachable from an empty registry with count 0 by
submissions (accepted or rejected, whatever the library answers),
cancellations of any handle (registered or not) and ticks that return, the
count `req_count` is the size of the registry as `unsigned int`; so, the
registry holding fewer than `2 ^ 32` requests, the count equals the size of the
registry.  Then a cancellation that finds its request meets a positive count
and decrements it by one while the registry shrinks by one, a cancellation
that does not find it changes nothing, and a tick never lets the count grow:
the count does not wrap below 0. -/
theorem reachable_req_count (lc : LinphoneCore) (m : Machine)
    (h : Reachable lc (fun _ _ _ => True) m) :
    m.obj.req_count = m.obj.requests.length % UINT_MOD
    ∧ (m.obj.requests.length < UINT_MOD →
        m.obj.req_count = m.obj.requests.length
        ∧ (∀ req, (linphone_ldap_contact_provider_cancel_search m req).2 = 0 →
            0 < m.obj.req_count
            ∧ (linphone_ldap_contact_provider_cancel_search m req).1.obj.req_count
                = m.obj.req_count - 1
            ∧ (linphone_ldap_contact_provider_cancel_search m req).1.obj.requests.length
                = m.obj.requests.length - 1)
        ∧ (∀ req, (linphone_ldap_contact_provider_cancel_search m req).2 ≠ 0 →
            (linphone_ldap_contact_provider_cancel_search m req).1 = m)
        ∧ (∀ poll m1 b, linphone_ldap_contact_provider_iterate lc poll m = some (m1, b) →
            m1.obj.req_count = m1.obj.requests.length
            ∧ m1.obj.req_count ≤ m.obj.req_count)) := by
  have hinv := reachable_count lc m h
  refine ⟨hinv, fun hu => ?_⟩
  have heq : m.obj.req_count = m.obj.requests.length := by
    rw [hinv]; exact Nat.mod_eq_of_lt hu
  refine ⟨heq, fun req => (cancel_search_decrement m req heq hu).1,
    fun req => (cancel_search_decrement m req heq hu).2, ?_⟩
  intro poll m1 b hit
  have h1 := iterate_count lc poll m m1 b hit hinv
  have hlen : m1.obj.requests.length ≤ m.obj.requests.length :=
    (iterate_shape lc poll m m1 b hit).2.2.length_le
  have h1eq : m1.obj.req_count = m1.obj.requests.length := by
    rw [h1]; exact Nat.mod_eq_of_lt (by omega)
  exact ⟨h1eq, by omega⟩

/-- C22 at `machine_after_submissions`: two accepted submissions and the
cancellation of an unregistered handle leave the count 2 with the two
requests registered. -/
theorem reachable_req_count_witness :
    Reachable sip_core (fun _ _ _ => True) machine_after_submissions
    ∧ machine_after_submissions.obj.req_count
        = machine_after_submissions.obj.requests.length % UINT_MOD
    ∧ machine_after_submissions.obj.req_count = 2
    ∧ machine_after_submissions.obj.requests = [1, 2] :=
  ⟨Reachable.cancel_search _ 0
      (Reachable.begin_search _ accepting_library "al" 5 6
        (Reachable.begin_search machine_idle accepting_library "bob" 3 4
          (Reachable.init machine_idle rfl rfl) trivial) trivial),
    (reachable_req_count sip_core machine_after_submissions
      (Reachable.cancel_search _ 0
        (Reachable.begin_search _ accepting_library "al" 5 6
          (Reachable.begin_search machine_idle accepting_library "bob" 3 4
            (Reachable.init machine_idle rfl rfl) trivial) trivial))).1,
    by decide, by decide⟩

end LdapProvider

